import Mathlib

/-!
# AmrCore::regrid — the level reconciler

A shallow embedding of `AmrCore::regrid` (src/Src/AmrCore/AMReX_AmrCore.cpp, lines 84-136)
as explicit state passing.  Every call that `regrid` itself makes is appended to an event
log, so that statements such as "RemakeLevel is invoked exactly once for level lev" become
statements about that log.

Level indices are vector indices and are modelled as `Nat`.  The types of box arrays
(`BA`), distribution mappings (`DM`), simulation time (`Tm`) and of the data owned by the
derived class (`U`) are parameters: `regrid` only copies and compares them.

After `regrid` the file embeds, each in a part of its own: `Machine::Initialize`
(src/Src/Base/AMReX_Machine.cpp), `IParser::compileHost`
(src/Src/Base/Parser/AMReX_IParser.H), the reduction of `AmrCore::printGridSummary`,
and `Cluster::ok` and `Cluster::eff` (src/Src/AmrCore/AMReX_Cluster.H) with the chopping
of a `ClusterList`, whose functions are declared in that header and defined elsewhere.
-/

namespace amrex

/-- The members of the `AmrCore` object (inherited from `AmrMesh`) that `regrid` reads or
writes, together with the data `user` of the derived class that owns the level data.
`grids` and `dmap` are the per-level vectors, indexed by level. -/
structure AmrCore (BA DM U : Type) where
  max_level : Nat
  finest_level : Nat
  grids : Nat → BA
  dmap : Nat → DM
  num_setdm : Nat
  user : U

/-- One call made by `regrid`, with its arguments (and, for `MakeDistributionMap`, the
mapping it returned). -/
inductive Event (BA DM Tm : Type) where
  | MakeNewGrids (lbase : Nat) (time : Tm)
  | MakeDistributionMap (lev : Nat) (ba : BA) (res : DM)
  | RemakeLevel (lev : Nat) (time : Tm) (ba : BA) (dm : DM)
  | MakeNewLevelFromCoarse (lev : Nat) (time : Tm) (ba : BA) (dm : DM)
  | SetBoxArray (lev : Nat) (ba : BA)
  | SetDistributionMap (lev : Nat) (dm : DM)
  | ClearLevel (lev : Nat)
  | ClearBoxArray (lev : Nat)
  | ClearDistributionMap (lev : Nat)
  deriving DecidableEq, Repr

/-- Ways in which a run of `regrid` fails to complete: a failed `BL_ASSERT`, a read of
`new_grids` past its end, or (in the model only) a clear loop that was cut off. -/
inductive Abort where
  | assertion
  | outOfBounds
  | outOfFuel
  deriving DecidableEq, Repr

/-- What `regrid` calls but does not define: the grid generator `MakeNewGrids` (which sets
`new_finest` and fills `new_grids`), the virtual functions of the level owner, and the
build switch that decides whether `BL_ASSERT` is compiled in.  Every function may read and
write the whole object. -/
structure Callbacks (BA DM U Tm : Type) where
  AMREX_USE_ASSERTION : Bool
  MakeNewGrids : Nat → Tm → List BA → AmrCore BA DM U → Nat × List BA × AmrCore BA DM U
  MakeDistributionMap : Nat → BA → AmrCore BA DM U → DM × AmrCore BA DM U
  RemakeLevel : Nat → Tm → BA → DM → AmrCore BA DM U → AmrCore BA DM U
  MakeNewLevelFromCoarse : Nat → Tm → BA → DM → AmrCore BA DM U → AmrCore BA DM U
  ClearLevel : Nat → AmrCore BA DM U → AmrCore BA DM U

section Model

variable {BA DM U Tm : Type}

/-- Modelled from the spec: `AmrMesh::SetBoxArray` is declared outside src/; it
"installs the new covering" of one level. -/
def AmrCore.SetBoxArray (s : AmrCore BA DM U) (lev : Nat) (ba : BA) : AmrCore BA DM U :=
  { s with grids := fun l => if l = lev then ba else s.grids l }

/-- Modelled from the spec: `AmrMesh::SetDistributionMap` is declared outside src/; it
installs the mapping of one level, and the "monotonically increasing assignment counter
[is] incremented every time an install happens". -/
def AmrCore.SetDistributionMap (s : AmrCore BA DM U) (lev : Nat) (dm : DM) : AmrCore BA DM U :=
  { s with dmap := fun l => if l = lev then dm else s.dmap l, num_setdm := s.num_setdm + 1 }

/-- Modelled from the spec: `AmrMesh::ClearBoxArray` is declared outside src/; it "erases the
covering" of one level, leaving the default-constructed (empty) box array. -/
def AmrCore.ClearBoxArray [Inhabited BA] (s : AmrCore BA DM U) (lev : Nat) : AmrCore BA DM U :=
  { s with grids := fun l => if l = lev then default else s.grids l }

/-- Modelled from the spec: `AmrMesh::ClearDistributionMap` is declared outside src/; it
"erases the mapping" of one level, leaving the default-constructed mapping. -/
def AmrCore.ClearDistributionMap [Inhabited DM] (s : AmrCore BA DM U) (lev : Nat) :
    AmrCore BA DM U :=
  { s with dmap := fun l => if l = lev then default else s.dmap l }

/-- Modelled from the spec: the `BL_ASSERT` macro is defined outside src/.  The spec calls
these checks assertions whose "violation is fatal in debug builds": when assertions are
compiled in a false condition aborts, otherwise the macro does nothing. -/
def BL_ASSERT (enabled : Bool) (ex : Bool) : Except Abort Unit :=
  if enabled && !ex then .error .assertion else .ok ()

/-- The body of the first loop of `regrid` (lines 97-127) for one level: it takes the object
and the flag `coarse_ba_changed`, and returns the new object, the new flag and the calls
made.  Reading `new_grids[lev]` past the end of the vector aborts. -/
def regridLevel [DecidableEq BA] (cb : Callbacks BA DM U Tm) (time : Tm) (new_grids : List BA)
    (lev : Nat) (s : AmrCore BA DM U) (coarse_ba_changed : Bool) :
    Except Abort (AmrCore BA DM U × Bool × List (Event BA DM Tm)) :=
  if lev ≤ s.finest_level then
    -- an old level
    match new_grids[lev]? with
    | none => .error .outOfBounds
    | some ng =>
      let ba_changed : Bool := decide (ng ≠ s.grids lev)
      if ba_changed || coarse_ba_changed then
        let level_grids := s.grids lev
        let level_dmap := s.dmap lev
        let r : BA × DM × AmrCore BA DM U × List (Event BA DM Tm) :=
          if ba_changed then
            let m := cb.MakeDistributionMap lev ng s
            (ng, m.1, m.2, [Event.MakeDistributionMap lev ng m.1])
          else (level_grids, level_dmap, s, [])
        let level_grids := r.1
        let level_dmap := r.2.1
        let s1 := r.2.2.1
        let old_num_setdm := s1.num_setdm
        let s2 := cb.RemakeLevel lev time level_grids level_dmap s1
        let s3 := s2.SetBoxArray lev level_grids
        if old_num_setdm = s3.num_setdm then
          .ok (s3.SetDistributionMap lev level_dmap, ba_changed,
            r.2.2.2 ++ [Event.RemakeLevel lev time level_grids level_dmap,
              Event.SetBoxArray lev level_grids, Event.SetDistributionMap lev level_dmap])
        else
          .ok (s3, ba_changed,
            r.2.2.2 ++ [Event.RemakeLevel lev time level_grids level_dmap,
              Event.SetBoxArray lev level_grids])
      else .ok (s, ba_changed, [])
  else
    -- a new level
    match new_grids[lev]? with
    | none => .error .outOfBounds
    | some ng =>
      let m := cb.MakeDistributionMap lev ng s
      let new_dmap := m.1
      let s1 := m.2
      let old_num_setdm := s1.num_setdm
      let s2 := cb.MakeNewLevelFromCoarse lev time ng new_dmap s1
      let s3 := s2.SetBoxArray lev ng
      if old_num_setdm = s3.num_setdm then
        .ok (s3.SetDistributionMap lev new_dmap, coarse_ba_changed,
          [Event.MakeDistributionMap lev ng new_dmap,
            Event.MakeNewLevelFromCoarse lev time ng new_dmap,
            Event.SetBoxArray lev ng, Event.SetDistributionMap lev new_dmap])
      else
        .ok (s3, coarse_ba_changed,
          [Event.MakeDistributionMap lev ng new_dmap,
            Event.MakeNewLevelFromCoarse lev time ng new_dmap,
            Event.SetBoxArray lev ng])

/-- The first loop of `regrid`, `for (lev = lbase+1; lev <= new_finest; ++lev)`: `n` is the
number of iterations still to run and `lev` the current level.  The bound `new_finest` is a
local variable, so the loop runs exactly `new_finest - lbase` times. -/
def regridLoop [DecidableEq BA] (cb : Callbacks BA DM U Tm) (time : Tm) (new_grids : List BA) :
    Nat → Nat → AmrCore BA DM U → Bool → Except Abort (AmrCore BA DM U × List (Event BA DM Tm))
  | 0, _, s, _ => .ok (s, [])
  | n + 1, lev, s, coarse_ba_changed =>
    match regridLevel cb time new_grids lev s coarse_ba_changed with
    | .error e => .error e
    | .ok (s1, c1, tr1) =>
      match regridLoop cb time new_grids n (lev + 1) s1 c1 with
      | .error e => .error e
      | .ok (s2, tr2) => .ok (s2, tr1 ++ tr2)

/-- The second loop of `regrid`, `for (lev = new_finest+1; lev <= finest_level; ++lev)`
(lines 129-133).  The bound `finest_level` is a member that `ClearLevel` could write, so the
condition is evaluated again on every iteration and the recursion is cut off by `fuel`. -/
def clearLoop [Inhabited BA] [Inhabited DM] (cb : Callbacks BA DM U Tm) :
    Nat → Nat → AmrCore BA DM U → Except Abort (AmrCore BA DM U × List (Event BA DM Tm))
  | 0, lev, s => if lev ≤ s.finest_level then .error .outOfFuel else .ok (s, [])
  | fuel + 1, lev, s =>
    if lev ≤ s.finest_level then
      let s1 := cb.ClearLevel lev s
      let s2 := s1.ClearBoxArray lev
      let s3 := s2.ClearDistributionMap lev
      match clearLoop cb fuel (lev + 1) s3 with
      | .error e => .error e
      | .ok (s4, tr) =>
        .ok (s4, [Event.ClearLevel lev, Event.ClearBoxArray lev,
          Event.ClearDistributionMap lev] ++ tr)
    else .ok (s, [])

/-- `AmrCore::regrid (int lbase, Real time, bool)` (lines 84-136); the unnamed third
argument is ignored by the code and left out.  The result is the object after the call and
the calls made, or the reason why the call did not complete. -/
def regrid [DecidableEq BA] [Inhabited BA] [Inhabited DM] (cb : Callbacks BA DM U Tm)
    (fuel : Nat) (lbase : Nat) (time : Tm) (s : AmrCore BA DM U) :
    Except Abort (AmrCore BA DM U × List (Event BA DM Tm)) :=
  if lbase ≥ s.max_level then .ok (s, [])
  else
    let g := cb.MakeNewGrids lbase time (List.replicate (s.finest_level + 2) default) s
    let new_finest := g.1
    let new_grids := g.2.1
    let s0 := g.2.2
    match BL_ASSERT cb.AMREX_USE_ASSERTION (decide (new_finest ≤ s0.finest_level + 1)) with
    | .error e => .error e
    | .ok _ =>
      match regridLoop cb time new_grids (new_finest - lbase) (lbase + 1) s0 false with
      | .error e => .error e
      | .ok (s1, tr1) =>
        match clearLoop cb fuel (new_finest + 1) s1 with
        | .error e => .error e
        | .ok (s2, tr2) =>
          .ok ({ s2 with finest_level := new_finest },
            Event.MakeNewGrids lbase time :: (tr1 ++ tr2))

/-- The value of the local variable `new_finest` after the call of `MakeNewGrids` that
`regrid (lbase, time)` makes on the object `s` (line 91). -/
def new_finest [Inhabited BA] (cb : Callbacks BA DM U Tm) (lbase : Nat) (time : Tm)
    (s : AmrCore BA DM U) : Nat :=
  (cb.MakeNewGrids lbase time (List.replicate (s.finest_level + 2) default) s).1

/-- The value of the local vector `new_grids` after the call of `MakeNewGrids` that
`regrid (lbase, time)` makes on the object `s` (line 91). -/
def new_grids [Inhabited BA] (cb : Callbacks BA DM U Tm) (lbase : Nat) (time : Tm)
    (s : AmrCore BA DM U) : List BA :=
  (cb.MakeNewGrids lbase time (List.replicate (s.finest_level + 2) default) s).2.1

/-- The level an event concerns (`none` for the grid generator, which is called once for
the whole hierarchy). -/
def Event.level : Event BA DM Tm → Option Nat
  | .MakeNewGrids _ _ => none
  | .MakeDistributionMap lev _ _ => some lev
  | .RemakeLevel lev _ _ _ => some lev
  | .MakeNewLevelFromCoarse lev _ _ _ => some lev
  | .SetBoxArray lev _ => some lev
  | .SetDistributionMap lev _ => some lev
  | .ClearLevel lev => some lev
  | .ClearBoxArray lev => some lev
  | .ClearDistributionMap lev => some lev

/-- The calls in a log that concern level `lev`, in order. -/
def eventsAt (lev : Nat) (tr : List (Event BA DM Tm)) : List (Event BA DM Tm) :=
  tr.filter (fun e => decide (e.level = some lev))

/-- Whether an event is one of the calls by which `regrid` touches an existing level that it
keeps: `MakeDistributionMap`, `RemakeLevel`, `SetBoxArray` or `SetDistributionMap`. -/
def Event.touches : Event BA DM Tm → Bool
  | .MakeDistributionMap _ _ _ => true
  | .RemakeLevel _ _ _ _ => true
  | .SetBoxArray _ _ => true
  | .SetDistributionMap _ _ => true
  | _ => false

/-- Whether an event is a `SetDistributionMap` call. -/
def Event.isSetDistributionMap : Event BA DM Tm → Bool
  | .SetDistributionMap _ _ => true
  | _ => false

/-- The level of a `RemakeLevel` or `MakeNewLevelFromCoarse` callback, `none` for every other
call. -/
def Event.buildLevel : Event BA DM Tm → Option Nat
  | .RemakeLevel lev _ _ _ => some lev
  | .MakeNewLevelFromCoarse lev _ _ _ => some lev
  | _ => none

/-- The level of a `ClearLevel` callback, `none` for every other call. -/
def Event.clearLevel : Event BA DM Tm → Option Nat
  | .ClearLevel lev => some lev
  | _ => none

/-- The level of a lifecycle callback (`RemakeLevel`, `MakeNewLevelFromCoarse` or
`ClearLevel`), `none` for every other call. -/
def Event.lifecycleLevel : Event BA DM Tm → Option Nat
  | .RemakeLevel lev _ _ _ => some lev
  | .MakeNewLevelFromCoarse lev _ _ _ => some lev
  | .ClearLevel lev => some lev
  | _ => none

/-- The calls the second loop of `regrid` makes for the `n` levels starting at `lev`. -/
def clearCalls (lev n : Nat) : List (Event BA DM Tm) :=
  (List.range' lev n).flatMap fun l =>
    [Event.ClearLevel l, Event.ClearBoxArray l, Event.ClearDistributionMap l]

/-- Frame conditions on the functions `regrid` calls: none of them writes `finest_level`;
the grid generator leaves every covering and mapping alone and does not shrink the vector
it is given; a function called for level `lev` leaves the covering and the mapping of every
other level alone. -/
structure Callbacks.LevelLocal (cb : Callbacks BA DM U Tm) : Prop where
  generator_finest : ∀ lbase time ng s,
    (cb.MakeNewGrids lbase time ng s).2.2.finest_level = s.finest_level
  generator_grids : ∀ lbase time ng s l,
    (cb.MakeNewGrids lbase time ng s).2.2.grids l = s.grids l
  generator_dmap : ∀ lbase time ng s l,
    (cb.MakeNewGrids lbase time ng s).2.2.dmap l = s.dmap l
  generator_size : ∀ lbase time ng s,
    ng.length ≤ (cb.MakeNewGrids lbase time ng s).2.1.length
  map_finest : ∀ lev ba s, (cb.MakeDistributionMap lev ba s).2.finest_level = s.finest_level
  map_grids : ∀ lev ba s l, l ≠ lev → (cb.MakeDistributionMap lev ba s).2.grids l = s.grids l
  map_dmap : ∀ lev ba s l, l ≠ lev → (cb.MakeDistributionMap lev ba s).2.dmap l = s.dmap l
  remake_finest : ∀ lev t ba dm s,
    (cb.RemakeLevel lev t ba dm s).finest_level = s.finest_level
  remake_grids : ∀ lev t ba dm s l, l ≠ lev →
    (cb.RemakeLevel lev t ba dm s).grids l = s.grids l
  remake_dmap : ∀ lev t ba dm s l, l ≠ lev →
    (cb.RemakeLevel lev t ba dm s).dmap l = s.dmap l
  create_finest : ∀ lev t ba dm s,
    (cb.MakeNewLevelFromCoarse lev t ba dm s).finest_level = s.finest_level
  create_grids : ∀ lev t ba dm s l, l ≠ lev →
    (cb.MakeNewLevelFromCoarse lev t ba dm s).grids l = s.grids l
  create_dmap : ∀ lev t ba dm s l, l ≠ lev →
    (cb.MakeNewLevelFromCoarse lev t ba dm s).dmap l = s.dmap l
  clear_finest : ∀ lev s, (cb.ClearLevel lev s).finest_level = s.finest_level
  clear_grids : ∀ lev s l, l ≠ lev → (cb.ClearLevel lev s).grids l = s.grids l
  clear_dmap : ∀ lev s l, l ≠ lev → (cb.ClearLevel lev s).dmap l = s.dmap l

/-- The functions called inside the two loops of `regrid` do not overwrite coverings: a
function called for level `lev` leaves `grids[l]` alone for every other level `l`. -/
structure Callbacks.KeepsCoverings (cb : Callbacks BA DM U Tm) : Prop where
  map_grids : ∀ lev ba s l, l ≠ lev → (cb.MakeDistributionMap lev ba s).2.grids l = s.grids l
  remake_grids : ∀ lev t ba dm s l, l ≠ lev →
    (cb.RemakeLevel lev t ba dm s).grids l = s.grids l
  create_grids : ∀ lev t ba dm s l, l ≠ lev →
    (cb.MakeNewLevelFromCoarse lev t ba dm s).grids l = s.grids l
  clear_grids : ∀ lev s l, l ≠ lev → (cb.ClearLevel lev s).grids l = s.grids l

end Model

/-! ## Concrete hierarchies used to evaluate the model -/

/-- A three-level hierarchy (levels 0, 1, 2, with `max_level` 3) whose coverings are 10, 11, 12 and
whose mappings are 20, 21, 22; cleared levels hold the default value 0. -/
def exState : AmrCore Nat Nat Unit where
  max_level := 3
  finest_level := 2
  grids := fun l => if l ≤ 2 then 10 + l else 0
  dmap := fun l => if l ≤ 2 then 20 + l else 0
  num_setdm := 0
  user := ()

/-- Callbacks for the examples: the grid generator returns the given `new_finest` and writes
the given `new_grids` over the front of the vector it is handed; `MakeDistributionMap` maps
a covering `ba` to `ba + 100`; the level owner installs the mapping it is handed itself
when `owner_installs` is set, and does nothing otherwise. -/
def exCb (new_finest : Nat) (new_grids : List Nat) (owner_installs : Bool) :
    Callbacks Nat Nat Unit Nat where
  AMREX_USE_ASSERTION := true
  MakeNewGrids := fun _ _ v s => (new_finest, new_grids ++ v.drop new_grids.length, s)
  MakeDistributionMap := fun _ ba s => (ba + 100, s)
  RemakeLevel := fun lev _ _ dm s => if owner_installs then s.SetDistributionMap lev dm else s
  MakeNewLevelFromCoarse := fun lev _ _ dm s =>
    if owner_installs then s.SetDistributionMap lev dm else s
  ClearLevel := fun _ s => s


/-! ## The failed assertion of `regrid` -/

section AssertFailure

variable {BA DM U Tm : Type}

/-- Lines 87-93 of `regrid`, up to the `BL_ASSERT`: when the call stops at the assertion,
the object as it is at that moment together with the calls made so far; `none` when the
call returns at the guard on line 87 or passes the assertion. -/
def regridAssertFailure [Inhabited BA] (cb : Callbacks BA DM U Tm) (lbase : Nat) (time : Tm)
    (s : AmrCore BA DM U) : Option (AmrCore BA DM U × List (Event BA DM Tm)) :=
  if lbase ≥ s.max_level then none
  else
    let g := cb.MakeNewGrids lbase time (List.replicate (s.finest_level + 2) default) s
    let new_finest := g.1
    let s0 := g.2.2
    match BL_ASSERT cb.AMREX_USE_ASSERTION (decide (new_finest ≤ s0.finest_level + 1)) with
    | .error _ => some (s0, [Event.MakeNewGrids lbase time])
    | .ok _ => none

end AssertFailure

/-! ## Machine::Initialize -/

namespace Machine

/-- `Machine::Initialize ()` (src/Src/Base/AMReX_Machine.cpp, lines 14-42) as a function of
the process environment `getenv` (a variable is unset when `getenv` gives `none`, as
`std::getenv` gives a null pointer) and of the value of the static `s_name` before the
call; the result is `s_name` after the call.  `amrex::toLower` is defined outside src/ and
is a parameter.  The registration of `Finalize`, which does nothing, is left out. -/
def Initialize (toLower : String → String) (getenv : String → Option String)
    (s_name : String) : String :=
  let env_nersc_host := getenv "NERSC_HOST"
  let env_lmod_site_name := getenv "LMOD_SITE_NAME"
  let env_lmod_system_name := getenv "LMOD_SYSTEM_NAME"
  let env_slurm_cluster_name := getenv "SLURM_CLUSTER_NAME"
  let s_name1 : String :=
    if env_nersc_host.isSome && env_lmod_system_name.isSome then
      "nersc." ++ env_lmod_system_name.getD ""
    else if env_lmod_site_name.isSome && env_lmod_system_name.isSome then
      env_lmod_site_name.getD "" ++ "." ++ env_lmod_system_name.getD ""
    else if env_slurm_cluster_name.isSome then env_slurm_cluster_name.getD ""
    else s_name
  if s_name1 ≠ "" then toLower s_name1 else s_name1

/-- `Machine::name ()` (lines 46-49): the static `s_name`. -/
def name (s_name : String) : String := s_name

/-- The environment the source comment lists for `nersc.perlmutter`: `NERSC_HOST=perlmutter`
and `LMOD_SITE_NAME=perlmutter`, nothing else set. -/
def perlmutterEnv : String → Option String := fun v =>
  if v = "NERSC_HOST" then some "perlmutter"
  else if v = "LMOD_SITE_NAME" then some "perlmutter"
  else none

/-- The environment the source comment lists for `olcf.frontier`: `LMOD_SITE_NAME=OLCF` and
`LMOD_SYSTEM_NAME=frontier`, nothing else set. -/
def frontierEnv : String → Option String := fun v =>
  if v = "LMOD_SITE_NAME" then some "OLCF"
  else if v = "LMOD_SYSTEM_NAME" then some "frontier"
  else none

end Machine

/-! ## IParser::compileHost -/

namespace IParser

/-- `IParserExecutor<N>` in a build without GPU support: the pointer `m_host_executor`
(an address, `0` for the null pointer). -/
structure IParserExecutor where
  m_host_executor : Nat := 0
  deriving DecidableEq, Repr

/-- `IParserExecutor::operator bool` on the host (line 48): `m_host_executor != nullptr`. -/
def IParserExecutor.toBool (e : IParserExecutor) : Bool := e.m_host_executor != 0

/-- `IParser::Data` (lines 87-104) without the GPU member; `P` stands for
`struct amrex_iparser`, and `m_iparser` is `none` for the null pointer. -/
structure Data (P : Type) where
  m_expression : String
  m_iparser : Option P
  m_nvars : Int
  m_use_arena : Bool
  m_host_executor : Nat
  m_max_stack_size : Int
  m_exe_size : Int

/-- What `compileHost` uses and src/ does not define: whether `AMREX_ASSERT` is compiled in
(the macro is treated like `BL_ASSERT`), the constant `AMREX_IPARSER_STACK_SIZE`,
`iparser_exe_size` (given the parser and the old value of `max_stack_size`: its return value
and the values it stores in its reference arguments `max_stack_size` and `stack_size`), the
allocation by the pinned arena and by `std::malloc` (the address returned, `0` for null),
and `iparser_compile` (`some msg` when it throws `std::runtime_error (msg)`). -/
structure Externals (P : Type) where
  AMREX_USE_ASSERTION : Bool
  AMREX_IPARSER_STACK_SIZE : Int
  iparser_exe_size : P → Int → Int × Int × Int
  pinned_arena_alloc : Int → Nat
  malloc : Int → Nat
  iparser_compile : P → Nat → Option String

/-- Why a call stopped in `amrex::Abort`: the failed `AMREX_ASSERT` on line 114, the stack
limit on line 122, or the residual stack size on line 127. -/
inductive AbortReason where
  | assertion
  | stackTooSmall
  | residualStack (stack_size : Int)
  deriving DecidableEq, Repr

/-- How a call of `compileHost` ends: it returns an executor, it aborts, or it throws the
`std::runtime_error` of `iparser_compile` with the expression appended. -/
inductive Outcome where
  | returned (exe : IParserExecutor)
  | aborted (why : AbortReason)
  | threw (msg : String)
  deriving DecidableEq, Repr

/-- `IParser::compileHost<N> ()` (lines 109-154) in a build without GPU support.  The parser
is its shared pointer `m_data` (`none` for null); the result is `m_data` after the call and
how the call ended. -/
def compileHost {P : Type} (x : Externals P) (N : Int) (m_data : Option (Data P)) :
    Option (Data P) × Outcome :=
  match m_data with
  | none => (m_data, .returned {})
  | some d =>
    match d.m_iparser with
    | none => (m_data, .returned {})
    | some parser =>
      match BL_ASSERT x.AMREX_USE_ASSERTION (decide (N = d.m_nvars)) with
      | .error _ => (m_data, .aborted .assertion)
      | .ok _ =>
        if d.m_host_executor = 0 then
          let r := x.iparser_exe_size parser d.m_max_stack_size
          let stack_size := r.2.2
          let d1 := { d with m_exe_size := r.1, m_max_stack_size := r.2.1 }
          if d1.m_max_stack_size > x.AMREX_IPARSER_STACK_SIZE then
            (some d1, .aborted .stackTooSmall)
          else if stack_size ≠ 0 then
            (some d1, .aborted (.residualStack stack_size))
          else
            let p := x.pinned_arena_alloc d1.m_exe_size
            let d2 :=
              if p = 0 then
                { d1 with m_host_executor := x.malloc d1.m_exe_size, m_use_arena := false }
              else { d1 with m_host_executor := p }
            match x.iparser_compile parser d2.m_host_executor with
            | some msg =>
              (some d2, .threw (msg ++ " in IParser expression \"" ++ d2.m_expression ++ "\""))
            | none => (some d2, .returned { m_host_executor := d2.m_host_executor })
        else (m_data, .returned { m_host_executor := d.m_host_executor })

/-- Externals for the examples: assertions compiled in, a stack limit of 200, an expression
that needs 16 bytes and a stack of 3 with no residue, an arena that is ready, and a compiler
that does not throw. -/
def exExternals : Externals Unit where
  AMREX_USE_ASSERTION := true
  AMREX_IPARSER_STACK_SIZE := 200
  iparser_exe_size := fun _ _ => (16, 3, 0)
  pinned_arena_alloc := fun _ => 4096
  malloc := fun _ => 8192
  iparser_compile := fun _ _ => none

/-- A defined parser of one variable that has not been compiled yet. -/
def exData : Data Unit where
  m_expression := "x+1"
  m_iparser := some ()
  m_nvars := 1
  m_use_arena := true
  m_host_executor := 0
  m_max_stack_size := 0
  m_exe_size := 0

end IParser

/-! ## AmrCore::printGridSummary — the smallest and the biggest grid of a level -/

namespace GridSummary

/-- `std::numeric_limits<Long>::max ()` for the 64-bit `Long`. -/
def LONG_MAX : Int := 2 ^ 63 - 1

/-- `std::numeric_limits<int>::max ()`. -/
def INT_MAX : Int := 2 ^ 31 - 1

/-- `std::numeric_limits<int>::lowest ()`. -/
def INT_LOWEST : Int := -(2 ^ 31)

/-- The three functions of `Box` that `printGridSummary` uses to compare grids; `Box` is
declared outside src/ and is the parameter `Bx`. -/
structure BoxOps (Bx : Type) where
  volume : Bx → Int
  shortside : Bx → Int
  longside : Bx → Int

/-- The six variables `vmin`, `vmax`, `lmax`, `smin`, `imax`, `imin` of lines 163-169, and
also a worker's private copies `vmin_this`, ... of lines 174-179. -/
structure Extremes where
  vmin : Int
  vmax : Int
  lmax : Int
  smin : Int
  imax : Int
  imin : Int
  deriving DecidableEq, Repr

/-- The initial values of lines 163-169 (and 174-179). -/
def Extremes.init : Extremes where
  vmin := LONG_MAX
  vmax := -1
  lmax := -1
  smin := INT_MAX
  imax := INT_LOWEST
  imin := INT_LOWEST

/-- The body of the loop over the grids (lines 184-197) for grid `k`, on a worker's private
variables.  The loop only runs over `0 ≤ k < numgrid`, so `bs[k]` exists; for any other `k`
the model does nothing. -/
def scanBox {Bx : Type} (ops : BoxOps Bx) (bs : List Bx) (t : Extremes) (k : Nat) : Extremes :=
  match bs[k]? with
  | none => t
  | some bx =>
    let v := ops.volume bx
    let ss := ops.shortside bx
    let ls := ops.longside bx
    let t1 : Extremes :=
      if v < t.vmin ∨ (v = t.vmin ∧ ss < t.smin) then
        { t with vmin := v, smin := ss, imin := (k : Int) }
      else t
    if v > t1.vmax ∨ (v = t1.vmax ∧ ls > t1.lmax) then
      { t1 with vmax := v, lmax := ls, imax := (k : Int) }
    else t1

/-- One worker's pass over the iterations `ks` that the `omp for` hands to it (lines
174-198), from the initial private values. -/
def scanWorker {Bx : Type} (ops : BoxOps Bx) (bs : List Bx) (ks : List Nat) : Extremes :=
  ks.foldl (scanBox ops bs) Extremes.init

/-- The critical section (lines 203-212): a worker merges its private result `t` into the
shared variables `g`. -/
def merge (g t : Extremes) : Extremes :=
  let g1 : Extremes :=
    if t.vmin < g.vmin ∨ (t.vmin = g.vmin ∧ t.smin < g.smin) then
      { g with vmin := t.vmin, smin := t.smin, imin := t.imin }
    else g
  if t.vmax > g1.vmax ∨ (t.vmax = g1.vmax ∧ t.lmax > g1.lmax) then
    { g1 with vmax := t.vmax, lmax := t.lmax, imax := t.imax }
  else g1

/-- Lines 163-214 for one level: `workers` lists, for each worker in the order in which the
workers enter the critical section, the iterations that worker ran.  Without OpenMP there is
one worker, which runs `0, ..., numgrid - 1`. -/
def gridExtremes {Bx : Type} (ops : BoxOps Bx) (bs : List Bx) (workers : List (List Nat)) :
    Extremes :=
  workers.foldl (fun g ks => merge g (scanWorker ops bs ks)) Extremes.init

/-- Grids are compared by volume and then by short side (for the smallest grid). -/
def smallerEq {Bx : Type} (ops : BoxOps Bx) (a b : Bx) : Prop :=
  ops.volume a < ops.volume b ∨
    (ops.volume a = ops.volume b ∧ ops.shortside a ≤ ops.shortside b)

/-- Grids are compared by volume and then by long side (for the biggest grid). -/
def biggerEq {Bx : Type} (ops : BoxOps Bx) (a b : Bx) : Prop :=
  ops.volume a > ops.volume b ∨
    (ops.volume a = ops.volume b ∧ ops.longside a ≥ ops.longside b)

/-- A grid that the comparisons can tell from the initial values: its (volume, short side)
is below (`LONG_MAX`, `INT_MAX`) and its (volume, long side) is above (-1, -1).  This holds
for every non-empty box whose volume fits in a `Long`. -/
def Comparable {Bx : Type} (ops : BoxOps Bx) (bx : Bx) : Prop :=
  (ops.volume bx < LONG_MAX ∨ (ops.volume bx = LONG_MAX ∧ ops.shortside bx < INT_MAX)) ∧
    (ops.volume bx > -1 ∨ (ops.volume bx = -1 ∧ ops.longside bx > -1))

/-- What the variables for the smallest grid hold once the iterations `S` have been taken
into account: their initial values if there are none, else a grid of `S` that is smallest
among the grids of `S`. -/
def MinInv {Bx : Type} (ops : BoxOps Bx) (bs : List Bx) (S : List Nat) (t : Extremes) : Prop :=
  (S = [] ∧ t.vmin = LONG_MAX ∧ t.smin = INT_MAX ∧ t.imin = INT_LOWEST) ∨
    ∃ k bx, k ∈ S ∧ bs[k]? = some bx ∧ t.imin = (k : Int) ∧ t.vmin = ops.volume bx ∧
      t.smin = ops.shortside bx ∧ ∀ j ∈ S, ∀ bj, bs[j]? = some bj → smallerEq ops bx bj

/-- What the variables for the biggest grid hold once the iterations `S` have been taken
into account. -/
def MaxInv {Bx : Type} (ops : BoxOps Bx) (bs : List Bx) (S : List Nat) (t : Extremes) : Prop :=
  (S = [] ∧ t.vmax = -1 ∧ t.lmax = -1 ∧ t.imax = INT_LOWEST) ∨
    ∃ k bx, k ∈ S ∧ bs[k]? = some bx ∧ t.imax = (k : Int) ∧ t.vmax = ops.volume bx ∧
      t.lmax = ops.longside bx ∧ ∀ j ∈ S, ∀ bj, bs[j]? = some bj → biggerEq ops bx bj

/-- Boxes for the examples, given by their side lengths in two dimensions. -/
def exOps : BoxOps (Int × Int) where
  volume := fun b => b.1 * b.2
  shortside := fun b => min b.1 b.2
  longside := fun b => max b.1 b.2

end GridSummary

/-! ## Cluster — a cluster of tagged cells -/

section ClusterModel

variable {d : Nat}

/-- Modelled from the spec: `Box` is declared outside src/.  "An axis-aligned region defined
by inclusive low/high Coordinates", in `d` dimensions (`AMREX_SPACEDIM`). -/
structure Box (d : Nat) where
  smallend : Fin d → Int
  bigend : Fin d → Int

/-- Modelled from the spec: "low ≤ high componentwise, or the Box is considered
empty/invalid". -/
def Box.ok (b : Box d) : Prop := ∀ i, b.smallend i ≤ b.bigend i

instance (b : Box d) : Decidable b.ok := by
  unfold Box.ok
  infer_instance

/-- Modelled from the spec: `Box::d_numPts`, the number of lattice points "as a real-valued
count": the product of the side lengths, and 0 for an empty box.  The floating-point value
is taken to be exact and is a rational number here. -/
def Box.d_numPts (b : Box d) : ℚ :=
  if b.ok then ∏ i, ((b.bigend i - b.smallend i + 1 : Int) : ℚ) else 0

/-- Whether the lattice point `p` lies in the box. -/
def Box.contains (b : Box d) (p : Fin d → Int) : Prop :=
  ∀ i, b.smallend i ≤ p i ∧ p i ≤ b.bigend i

/-- The data of a `Cluster` (lines 129-131): the box `m_bx`, the pointer `m_ar` into the
array of tags (`none` for the null pointer, else the array from that position on) and the
number `m_len` of tags. -/
structure Cluster (d : Nat) where
  m_bx : Box d
  m_ar : Option (List (Fin d → Int))
  m_len : Int

/-- The default-constructed `Cluster` (line 30, with the member initialisers of lines 130
and 131); `bx` is the default-constructed `Box`, whatever that is. -/
def Cluster.default (bx : Box d) : Cluster d where
  m_bx := bx
  m_ar := none
  m_len := 0

/-- `Cluster::box ()` (line 60). -/
def Cluster.box (c : Cluster d) : Box d := c.m_bx

/-- `Cluster::ok ()` (line 65). -/
def Cluster.ok (c : Cluster d) : Bool :=
  decide (c.m_bx.d_numPts > 0) && c.m_ar.isSome && decide (c.m_len > 0)

/-- `Cluster::numTag ()` (line 70). -/
def Cluster.numTag (c : Cluster d) : Int := c.m_len

/-- `Cluster::eff ()` (lines 116-119): the assertion, then the quotient.  The conversions to
`double` and to `Real` and the floating-point division are taken to be exact. -/
def Cluster.eff (AMREX_USE_ASSERTION : Bool) (c : Cluster d) : Except Abort ℚ :=
  match BL_ASSERT AMREX_USE_ASSERTION c.ok with
  | .error e => .error e
  | .ok _ => .ok ((c.numTag : ℚ) / c.m_bx.d_numPts)

/-- The tagged points of a cluster: the first `m_len` entries of the array `m_ar` points
to. -/
def Cluster.tags (c : Cluster d) : List (Fin d → Int) :=
  (c.m_ar.getD []).take c.m_len.toNat

/-- Modelled from the spec: `Cluster::minBox` is declared on line 126 and defined outside
src/; it computes "the minimal Box containing `points[0..count)`" (for no points, an empty
box). -/
def minBox (pts : List (Fin d → Int)) : Box d :=
  match pts with
  | [] => { smallend := fun _ => 1, bigend := fun _ => 0 }
  | p :: ps =>
    { smallend := fun i => ps.foldl (fun m q => min m (q i)) (p i)
      bigend := fun i => ps.foldl (fun m q => max m (q i)) (p i) }

/-- Modelled from the spec: the constructor `Cluster (IntVect* a, Long len)` is declared on
line 40 and defined outside src/; the new cluster views the `len` points of `a`, here the
whole list, and its "`boundingBox` is always the minimal Box containing" them. -/
def Cluster.ofTags (a : List (Fin d → Int)) : Cluster d where
  m_bx := minBox a
  m_ar := some a
  m_len := a.length

/-- The cell (0,0) in two dimensions. -/
def exCell00 : Fin 2 → Int := fun _ => 0

/-- The cell (1,0) in two dimensions. -/
def exCell10 : Fin 2 → Int := fun i => if i = 0 then 1 else 0

end ClusterModel

/-! ## ClusterList — chopping the clusters of poor efficiency -/

section ClusterListModel

variable {d : Nat}

/-- Modelled from the spec: "Efficiency: `count / boundingBox.numPts()`", the value
`Cluster::eff ()` returns for a valid cluster. -/
def Cluster.efficiency (c : Cluster d) : ℚ := (c.numTag : ℚ) / c.box.d_numPts

/-- Modelled from the spec: the "cutting plane" of `Cluster::chop` and `Cluster::new_chop`
(declared on lines 86 and 95, defined outside src/): an axis and a position on it. -/
structure Cut (d : Nat) where
  axis : Fin d
  pos : Int

/-- Modelled from the spec: the tagged points on the lower side of the plane, those whose
coordinate on the axis is at most the position. -/
def Cut.lower (k : Cut d) (pts : List (Fin d → Int)) : List (Fin d → Int) :=
  pts.filter (fun p => decide (p k.axis ≤ k.pos))

/-- Modelled from the spec: the tagged points on the upper side of the plane. -/
def Cut.upper (k : Cut d) (pts : List (Fin d → Int)) : List (Fin d → Int) :=
  pts.filter (fun p => !decide (p k.axis ≤ k.pos))

/-- Modelled from the spec: a splitting policy, the choice `Cluster::chop` or
`Cluster::new_chop` makes for given tagged points: a cutting plane, or `none` to "signal
no split". -/
abbrev Splitter (d : Nat) := List (Fin d → Int) → Option (Cut d)

/-- Modelled from the spec: "The cut must strictly separate points so both resulting boxes
are non-empty"; that the two pieces "together cover exactly the same multiset of points as
the input" holds for every plane. -/
def Splitter.Separates (split : Splitter d) : Prop :=
  ∀ pts k, split pts = some k → k.lower pts ≠ [] ∧ k.upper pts ≠ []

/-- Modelled from the spec: the basic split signals "no split" only when "the Cluster
cannot profitably be split (too few points, or already a single-point box)": all tagged
points are one and the same cell. -/
def Splitter.Basic (split : Splitter d) : Prop :=
  ∀ pts, split pts = none → ∀ p ∈ pts, ∀ q ∈ pts, p = q

/-- Modelled from the spec: in the revised split, "if the resulting two efficiencies are
no better than the original (both pieces have the same efficiency as the parent), the split
is rejected": no such cut is ever the result. -/
def Splitter.Revised (split : Splitter d) : Prop :=
  ∀ pts k, split pts = some k →
    ¬ ((Cluster.ofTags (k.lower pts)).efficiency = (Cluster.ofTags pts).efficiency ∧
       (Cluster.ofTags (k.upper pts)).efficiency = (Cluster.ofTags pts).efficiency)

/-- Modelled from the spec: one split of a cluster by a policy.  "The lower retains the
original Cluster's identity and the upper is returned as a new Cluster"; on "no split" the
result is null and the cluster is left unmodified.  The first component is the calling
object afterwards, the second the returned pointer. -/
def Cluster.splitWith (split : Splitter d) (c : Cluster d) : Cluster d × Option (Cluster d) :=
  match split c.tags with
  | none => (c, none)
  | some k => (Cluster.ofTags (k.lower c.tags), some (Cluster.ofTags (k.upper c.tags)))

/-- Modelled from the spec: `Cluster::chop ()` (line 86, defined outside src/), the basic
split, with the policy `basic`. -/
def Cluster.chop (basic : Splitter d) (c : Cluster d) : Cluster d × Option (Cluster d) :=
  c.splitWith basic

/-- Modelled from the spec: `Cluster::new_chop ()` (line 95, defined outside src/), the
revised split, with the policy `revised`. -/
def Cluster.new_chop (revised : Splitter d) (c : Cluster d) :
    Cluster d × Option (Cluster d) :=
  c.splitWith revised

/-- Modelled from the spec: the loop of `ClusterList::chop` and `ClusterList::new_chop`
(lines 208 and 216, defined outside src/): "repeatedly pop a Cluster whose efficiency <
target, apply the split, and push back both results (dropping any that become invalid); a
Cluster whose split fails is retained as-is even if below target".  `done` holds the
clusters the loop has passed, the other list the clusters from the current one on; the
lower piece takes the place of the current cluster and the upper piece goes to the end of
the list.  `eff ()` is the source's, with its assertion. -/
def ClusterList.chopLoop (AMREX_USE_ASSERTION : Bool)
    (chopOne : Cluster d → Cluster d × Option (Cluster d)) (eff : ℚ) :
    Nat → List (Cluster d) → List (Cluster d) → Except Abort (List (Cluster d))
  | _, done, [] => .ok done
  | 0, _, _ :: _ => .error .outOfFuel
  | fuel + 1, done, c :: rest =>
    match c.eff AMREX_USE_ASSERTION with
    | .error a => .error a
    | .ok x =>
      if x < eff then
        match chopOne c with
        | (c1, none) => chopLoop AMREX_USE_ASSERTION chopOne eff fuel (done ++ [c1]) rest
        | (c1, some c2) =>
          chopLoop AMREX_USE_ASSERTION chopOne eff fuel done
            ([c1].filter Cluster.ok ++ rest ++ [c2].filter Cluster.ok)
      else chopLoop AMREX_USE_ASSERTION chopOne eff fuel (done ++ [c]) rest

/-- Modelled from the spec: `ClusterList::chop (Real eff)` (line 208): the loop with the
basic split. -/
def ClusterList.chop (AMREX_USE_ASSERTION : Bool) (basic : Splitter d) (eff : ℚ) (fuel : Nat)
    (lst : List (Cluster d)) : Except Abort (List (Cluster d)) :=
  ClusterList.chopLoop AMREX_USE_ASSERTION (Cluster.chop basic) eff fuel [] lst

/-- Modelled from the spec: `ClusterList::new_chop (Real eff)` (line 216): "identical loop
using the Revised split". -/
def ClusterList.new_chop (AMREX_USE_ASSERTION : Bool) (revised : Splitter d) (eff : ℚ)
    (fuel : Nat) (lst : List (Cluster d)) : Except Abort (List (Cluster d)) :=
  ClusterList.chopLoop AMREX_USE_ASSERTION (Cluster.new_chop revised) eff fuel [] lst

/-- Modelled from the spec: `ClusterList (IntVect* pts, Long len)` (line 155): "a list
containing Cluster(pts,len)". -/
def ClusterList.ofTags (pts : List (Fin d → Int)) : List (Cluster d) := [Cluster.ofTags pts]

/-- The fuel that lets the loop finish on these clusters: each costs one step for every
split of it and one for every piece that is kept. -/
def ClusterList.weight (lst : List (Cluster d)) : Nat :=
  (lst.map (fun c => 2 * c.tags.length - 1)).sum

/-- An example of a cutting plane along axis `i`: between the first tagged point and the
first one that differs from it on that axis, if there is one. -/
def candidateCut (pts : List (Fin d → Int)) (i : Fin d) : Option (Cut d) :=
  match pts with
  | [] => none
  | p :: ps => (ps.find? (fun q => decide (q i ≠ p i))).map
      (fun q => { axis := i, pos := min (p i) (q i) })

/-- An example of a basic split: the plane of the first axis that has one. -/
def exBasic : Splitter d := fun pts =>
  ((List.finRange d).filterMap (candidateCut pts)).head?

/-- An example of a revised split: the plane of the first axis whose plane does not leave
both pieces with the efficiency of the parent. -/
def exRevised : Splitter d := fun pts =>
  ((List.finRange d).filterMap (candidateCut pts)).find? (fun k =>
    !decide ((Cluster.ofTags (k.lower pts)).efficiency = (Cluster.ofTags pts).efficiency ∧
       (Cluster.ofTags (k.upper pts)).efficiency = (Cluster.ofTags pts).efficiency))

/-- The cell `(x, y)` in two dimensions. -/
def cell2 (x y : Int) : Fin 2 → Int := fun i => if i = 0 then x else y

/-- Eight tagged cells of the square from (0,0) to (3,3): the corners and the four cells in
the middle.  Every row and every column holds two of them. -/
def exPattern : List (Fin 2 → Int) :=
  [cell2 0 0, cell2 3 0, cell2 1 1, cell2 2 1, cell2 1 2, cell2 2 2, cell2 0 3, cell2 3 3]

end ClusterListModel

/-! ## Lemmas about the loop body, the two loops and the whole call -/

section Lemmas

variable {BA DM U Tm : Type}

/-- The loop body completes whenever `new_grids[lev]` is inside the vector. -/
theorem regridLevel_ok_of_lt [DecidableEq BA]
    (cb : Callbacks BA DM U Tm) (time : Tm) (ng : List BA) (lev : Nat)
    (s : AmrCore BA DM U) (c : Bool) (h : lev < ng.length) :
    ∃ r, regridLevel cb time ng lev s c = .ok r := by
  have hg : ng[lev]? = some ng[lev] := List.getElem?_eq_getElem h
  unfold regridLevel
  simp only [hg]
  split_ifs <;> exact ⟨_, rfl⟩

/-- The four ways in which the loop body completes: the level is left untouched, or a
lifecycle callback `call` is issued (an old level with the same covering, an old level with a
new covering, or a new level).  In the last three, `pre` is the `MakeDistributionMap` call
made first (if any), `d` the mapping passed to the callback, `sb` and `sc` the object before
and after the callback, and `tail` the `SetDistributionMap` call made unless the counter
`num_setdm` changed during the callback. -/
theorem regridLevel_cases [DecidableEq BA] {cb : Callbacks BA DM U Tm} {time : Tm} {ng : List BA}
    {lev : Nat} {s s1 : AmrCore BA DM U} {c c1 : Bool} {tr : List (Event BA DM Tm)}
    (h : regridLevel cb time ng lev s c = .ok (s1, c1, tr)) :
    ∃ g, ng[lev]? = some g ∧
      ((lev ≤ s.finest_level ∧ g = s.grids lev ∧ c = false ∧ s1 = s ∧ c1 = false ∧ tr = []) ∨
       (∃ (pre : List (Event BA DM Tm)) (d : DM) (sb sc : AmrCore BA DM U)
          (call : Event BA DM Tm) (tail : List (Event BA DM Tm)),
          tr = pre ++ call :: Event.SetBoxArray lev g :: tail ∧
          ((sb.num_setdm = sc.num_setdm ∧ s1 = (sc.SetBoxArray lev g).SetDistributionMap lev d ∧
              tail = [Event.SetDistributionMap lev d]) ∨
           (sb.num_setdm ≠ sc.num_setdm ∧ s1 = sc.SetBoxArray lev g ∧ tail = [])) ∧
          ((lev ≤ s.finest_level ∧ g = s.grids lev ∧ c = true ∧ c1 = false ∧ pre = [] ∧
              d = s.dmap lev ∧ sb = s ∧ sc = cb.RemakeLevel lev time g d sb ∧
              call = Event.RemakeLevel lev time g d) ∨
           (lev ≤ s.finest_level ∧ g ≠ s.grids lev ∧ c1 = true ∧
              pre = [Event.MakeDistributionMap lev g d] ∧
              d = (cb.MakeDistributionMap lev g s).1 ∧ sb = (cb.MakeDistributionMap lev g s).2 ∧
              sc = cb.RemakeLevel lev time g d sb ∧ call = Event.RemakeLevel lev time g d) ∨
           (s.finest_level < lev ∧ c1 = c ∧
              pre = [Event.MakeDistributionMap lev g d] ∧
              d = (cb.MakeDistributionMap lev g s).1 ∧ sb = (cb.MakeDistributionMap lev g s).2 ∧
              sc = cb.MakeNewLevelFromCoarse lev time g d sb ∧
              call = Event.MakeNewLevelFromCoarse lev time g d)))) := by
  unfold regridLevel at h
  cases hg : ng[lev]? with
  | none => simp [hg] at h
  | some g =>
    refine ⟨g, rfl, ?_⟩
    simp only [hg] at h
    by_cases hold : lev ≤ s.finest_level
    · simp only [hold, if_true] at h
      by_cases hch : g = s.grids lev
      · subst hch
        cases c with
        | false =>
          left
          simp at h
          obtain ⟨rfl, rfl, rfl⟩ := h
          exact ⟨hold, rfl, rfl, rfl, rfl, rfl⟩
        | true =>
          right
          simp only [ne_eq, not_true_eq_false, decide_False, Bool.false_or, if_true,
            Bool.false_eq_true, if_false, AmrCore.SetBoxArray, List.nil_append] at h
          split_ifs at h with hn <;> simp only [Except.ok.injEq, Prod.mk.injEq] at h <;>
            obtain ⟨rfl, rfl, rfl⟩ := h
          · exact ⟨[], s.dmap lev, s, _, _, _, rfl, Or.inl ⟨hn, rfl, rfl⟩,
              Or.inl ⟨hold, rfl, rfl, rfl, rfl, rfl, rfl, rfl, rfl⟩⟩
          · exact ⟨[], s.dmap lev, s, _, _, _, rfl, Or.inr ⟨hn, rfl, rfl⟩,
              Or.inl ⟨hold, rfl, rfl, rfl, rfl, rfl, rfl, rfl, rfl⟩⟩
      · right
        simp only [ne_eq, hch, not_false_eq_true, decide_True, Bool.true_or, if_true,
          AmrCore.SetBoxArray, List.singleton_append] at h
        split_ifs at h with hn <;> simp only [Except.ok.injEq, Prod.mk.injEq] at h <;>
          obtain ⟨rfl, rfl, rfl⟩ := h
        · exact ⟨_, _, _, _, _, _, rfl, Or.inl ⟨hn, rfl, rfl⟩,
            Or.inr (Or.inl ⟨hold, hch, rfl, rfl, rfl, rfl, rfl, rfl⟩)⟩
        · exact ⟨_, _, _, _, _, _, rfl, Or.inr ⟨hn, rfl, rfl⟩,
            Or.inr (Or.inl ⟨hold, hch, rfl, rfl, rfl, rfl, rfl, rfl⟩)⟩
    · right
      simp only [hold, if_false, AmrCore.SetBoxArray] at h
      split_ifs at h with hn <;> simp only [Except.ok.injEq, Prod.mk.injEq] at h <;>
        obtain ⟨rfl, rfl, rfl⟩ := h
      · exact ⟨[_], _, _, _, _, _, rfl, Or.inl ⟨hn, rfl, rfl⟩,
          Or.inr (Or.inr ⟨by omega, rfl, rfl, rfl, rfl, rfl, rfl⟩)⟩
      · exact ⟨[_], _, _, _, _, _, rfl, Or.inr ⟨hn, rfl, rfl⟩,
          Or.inr (Or.inr ⟨by omega, rfl, rfl, rfl, rfl, rfl, rfl⟩)⟩

/-- Every call made by the loop body for level `lev` concerns level `lev`. -/
theorem regridLevel_events_level [DecidableEq BA]
    {cb : Callbacks BA DM U Tm} {time : Tm} {ng : List BA}
    {lev : Nat} {s s1 : AmrCore BA DM U} {c c1 : Bool} {tr : List (Event BA DM Tm)}
    (h : regridLevel cb time ng lev s c = .ok (s1, c1, tr)) :
    ∀ e ∈ tr, e.level = some lev := by
  obtain ⟨g, -, h | ⟨pre, d, sb, sc, call, tail, rfl, hi, hc⟩⟩ := regridLevel_cases h
  · obtain ⟨-, -, -, -, -, rfl⟩ := h
    simp
  · have htail : ∀ e ∈ tail, e.level = some lev := by
      rcases hi with ⟨-, -, rfl⟩ | ⟨-, -, rfl⟩ <;> simp [Event.level]
    have hpc : (∀ e ∈ pre, e.level = some lev) ∧ call.level = some lev := by
      rcases hc with ⟨-, -, -, -, rfl, -, -, -, rfl⟩ | ⟨-, -, -, rfl, -, -, -, rfl⟩ |
        ⟨-, -, rfl, -, -, -, rfl⟩ <;> simp [Event.level]
    intro e he
    simp only [List.mem_append, List.mem_cons] at he
    rcases he with hp | rfl | rfl | ht
    · exact hpc.1 e hp
    · exact hpc.2
    · rfl
    · exact htail e ht

theorem eventsAt_append (l : Nat) (a b : List (Event BA DM Tm)) :
    eventsAt l (a ++ b) = eventsAt l a ++ eventsAt l b := by
  simp [eventsAt]

theorem eventsAt_eq_self {l : Nat} {tr : List (Event BA DM Tm)}
    (h : ∀ e ∈ tr, e.level = some l) : eventsAt l tr = tr := by
  simp only [eventsAt, List.filter_eq_self]
  intro e he
  simp [h e he]

theorem eventsAt_eq_nil {l k : Nat} {tr : List (Event BA DM Tm)}
    (h : ∀ e ∈ tr, e.level = some k) (hne : l ≠ k) : eventsAt l tr = [] := by
  simp only [eventsAt, List.filter_eq_nil_iff]
  intro e he
  simp [h e he, Ne.symm hne]

/-- After the loop body for level `lev` the covering of `lev` is `new_grids[lev]`. -/
theorem regridLevel_grids [DecidableEq BA] {cb : Callbacks BA DM U Tm} {time : Tm} {ng : List BA}
    {lev : Nat} {s s1 : AmrCore BA DM U} {c c1 : Bool} {tr : List (Event BA DM Tm)}
    (h : regridLevel cb time ng lev s c = .ok (s1, c1, tr)) :
    ng[lev]? = some (s1.grids lev) := by
  obtain ⟨g, hg, h | ⟨pre, d, sb, sc, call, tail, -, hi, -⟩⟩ := regridLevel_cases h
  · obtain ⟨-, rfl, -, rfl, -, -⟩ := h
    exact hg
  · rcases hi with ⟨-, rfl, -⟩ | ⟨-, rfl, -⟩ <;>
      simp [hg, AmrCore.SetBoxArray, AmrCore.SetDistributionMap]

/-- For an old level the loop body hands on the flag "the covering of `lev` changed". -/
theorem regridLevel_flag [DecidableEq BA] {cb : Callbacks BA DM U Tm} {time : Tm} {ng : List BA}
    {lev : Nat} {s s1 : AmrCore BA DM U} {c c1 : Bool} {tr : List (Event BA DM Tm)}
    (h : regridLevel cb time ng lev s c = .ok (s1, c1, tr)) (hold : lev ≤ s.finest_level) :
    c1 = decide (ng[lev]? ≠ some (s.grids lev)) := by
  obtain ⟨g, hg, h | ⟨pre, d, sb, sc, call, tail, -, -, hc⟩⟩ := regridLevel_cases h
  · obtain ⟨-, rfl, -, -, rfl, -⟩ := h
    simp [hg]
  · rcases hc with ⟨-, rfl, -, rfl, -⟩ | ⟨-, hne, rfl, -⟩ | ⟨hnew, -⟩
    · simp [hg]
    · simp [hg, hne]
    · omega

/-- With level-local callbacks the loop body for `lev` leaves `finest_level` and the
coverings and mappings of all other levels as they are. -/
theorem regridLevel_frame [DecidableEq BA]
    {cb : Callbacks BA DM U Tm} (hloc : cb.LevelLocal) {time : Tm}
    {ng : List BA} {lev : Nat} {s s1 : AmrCore BA DM U} {c c1 : Bool}
    {tr : List (Event BA DM Tm)} (h : regridLevel cb time ng lev s c = .ok (s1, c1, tr)) :
    s1.finest_level = s.finest_level ∧
      ∀ l, l ≠ lev → s1.grids l = s.grids l ∧ s1.dmap l = s.dmap l := by
  obtain ⟨g, hg, h | ⟨pre, d, sb, sc, call, tail, -, hi, hc⟩⟩ := regridLevel_cases h
  · obtain ⟨-, -, -, rfl, -, -⟩ := h
    exact ⟨rfl, fun _ _ => ⟨rfl, rfl⟩⟩
  · have h1 : s1.finest_level = sc.finest_level ∧
        ∀ l, l ≠ lev → s1.grids l = sc.grids l ∧ s1.dmap l = sc.dmap l := by
      rcases hi with ⟨-, rfl, -⟩ | ⟨-, rfl, -⟩
      · refine ⟨rfl, fun l hl => ?_⟩
        simp [AmrCore.SetBoxArray, AmrCore.SetDistributionMap, hl]
      · refine ⟨rfl, fun l hl => ?_⟩
        simp [AmrCore.SetBoxArray, hl]
    have h2 : sc.finest_level = s.finest_level ∧
        ∀ l, l ≠ lev → sc.grids l = s.grids l ∧ sc.dmap l = s.dmap l := by
      rcases hc with ⟨-, -, -, -, -, -, rfl, rfl, -⟩ | ⟨-, -, -, -, -, rfl, rfl, -⟩ |
        ⟨-, -, -, -, rfl, rfl, -⟩
      · exact ⟨hloc.remake_finest .., fun l hl =>
          ⟨hloc.remake_grids _ _ _ _ _ l hl, hloc.remake_dmap _ _ _ _ _ l hl⟩⟩
      · refine ⟨(hloc.remake_finest ..).trans (hloc.map_finest ..), fun l hl => ⟨?_, ?_⟩⟩
        · exact (hloc.remake_grids _ _ _ _ _ l hl).trans (hloc.map_grids _ _ _ l hl)
        · exact (hloc.remake_dmap _ _ _ _ _ l hl).trans (hloc.map_dmap _ _ _ l hl)
      · refine ⟨(hloc.create_finest ..).trans (hloc.map_finest ..), fun l hl => ⟨?_, ?_⟩⟩
        · exact (hloc.create_grids _ _ _ _ _ l hl).trans (hloc.map_grids _ _ _ l hl)
        · exact (hloc.create_dmap _ _ _ _ _ l hl).trans (hloc.map_dmap _ _ _ l hl)
    exact ⟨h1.1.trans h2.1, fun l hl =>
      ⟨(h1.2 l hl).1.trans (h2.2 l hl).1, (h1.2 l hl).2.trans (h2.2 l hl).2⟩⟩

/-- The first loop with level-local callbacks: it completes, leaves the levels outside its
range alone, and its calls for a level `L` in its range are those of the loop body entered
in an object that agrees with the initial one at `L`, with the flag telling whether the
covering of `L - 1` changed. -/
theorem regridLoop_spec [DecidableEq BA]
    {cb : Callbacks BA DM U Tm} (hloc : cb.LevelLocal) (time : Tm)
    (ng : List BA) : ∀ (n lev : Nat) (s : AmrCore BA DM U) (c : Bool),
    (n ≠ 0 → lev + n ≤ ng.length) →
    ∃ s' tr, regridLoop cb time ng n lev s c = .ok (s', tr) ∧
      s'.finest_level = s.finest_level ∧
      (∀ l, (l < lev ∨ lev + n ≤ l) →
        s'.grids l = s.grids l ∧ s'.dmap l = s.dmap l ∧ eventsAt l tr = []) ∧
      (∀ L, lev ≤ L → L < lev + n →
        ∃ sL cL sL' cL', sL.finest_level = s.finest_level ∧ sL.grids L = s.grids L ∧
          sL.dmap L = s.dmap L ∧
          (L ≤ s.finest_level →
            cL = if L = lev then c else decide (ng[L - 1]? ≠ some (s.grids (L - 1)))) ∧
          regridLevel cb time ng L sL cL = .ok (sL', cL', eventsAt L tr) ∧
          s'.grids L = sL'.grids L ∧ s'.dmap L = sL'.dmap L) := by
  intro n
  induction n with
  | zero =>
    intro lev s c _
    refine ⟨s, [], rfl, rfl, fun l _ => ⟨rfl, rfl, rfl⟩, fun L h1 h2 => ?_⟩
    omega
  | succ n ih =>
    intro lev s c hlen
    have hlen := hlen (Nat.succ_ne_zero n)
    obtain ⟨⟨s1, c1, tr1⟩, h1⟩ := regridLevel_ok_of_lt cb time ng lev s c (by omega)
    obtain ⟨s2, tr2, h2, hfin, hout, hin⟩ := ih (lev + 1) s1 c1 (fun _ => by omega)
    obtain ⟨hf1, hfr1⟩ := regridLevel_frame hloc h1
    have hlv1 := regridLevel_events_level h1
    refine ⟨s2, tr1 ++ tr2, ?_, hfin.trans hf1, ?_, ?_⟩
    · simp [regridLoop, h1, h2]
    · intro l hl
      have hne : l ≠ lev := by omega
      obtain ⟨a, b, e⟩ := hout l (by omega)
      refine ⟨a.trans (hfr1 l hne).1, b.trans (hfr1 l hne).2, ?_⟩
      rw [eventsAt_append, e, eventsAt_eq_nil hlv1 hne]
      rfl
    · intro L hL1 hL2
      by_cases hLl : L = lev
      · subst hLl
        obtain ⟨a, b, e⟩ := hout L (by omega)
        refine ⟨s, c, s1, c1, rfl, rfl, rfl, fun _ => by simp, ?_, a, b⟩
        rw [eventsAt_append, e, eventsAt_eq_self hlv1, List.append_nil]
        exact h1
      · obtain ⟨sL, cL, sL', cL', e1, e2, e3, e4, e5, e6, e7⟩ := hin L (by omega) (by omega)
        have hne : L ≠ lev := hLl
        refine ⟨sL, cL, sL', cL', e1.trans hf1, e2.trans (hfr1 L hne).1,
          e3.trans (hfr1 L hne).2, ?_, ?_, e6, e7⟩
        · intro hold
          rw [e4 (by omega), if_neg hLl]
          by_cases hL : L = lev + 1
          · subst hL
            simp only [if_true, Nat.add_sub_cancel]
            exact regridLevel_flag h1 (by omega)
          · rw [if_neg hL, (hfr1 (L - 1) (by omega)).1]
        · rw [eventsAt_append, eventsAt_eq_nil hlv1 hne, List.nil_append]
          exact e5

theorem eventsAt_clearCalls (l lev n : Nat) :
    eventsAt l (clearCalls lev n : List (Event BA DM Tm)) =
      if lev ≤ l ∧ l < lev + n then
        [Event.ClearLevel l, Event.ClearBoxArray l, Event.ClearDistributionMap l]
      else [] := by
  induction n generalizing lev with
  | zero =>
    have : ¬(lev ≤ l ∧ l < lev + 0) := by omega
    simp [clearCalls, eventsAt]
  | succ n ih =>
    have hstep : (clearCalls lev (n + 1) : List (Event BA DM Tm)) =
        [Event.ClearLevel lev, Event.ClearBoxArray lev, Event.ClearDistributionMap lev] ++
          clearCalls (lev + 1) n := by
      simp [clearCalls, List.range'_succ]
    rw [hstep, eventsAt_append, ih]
    by_cases h : l = lev
    · subst h
      have h1 : ¬(l + 1 ≤ l ∧ l < l + 1 + n) := by omega
      have h2 : l ≤ l ∧ l < l + (n + 1) := by omega
      rw [if_neg h1, if_pos h2]
      simp [eventsAt, Event.level]
    · have h0 : eventsAt l ([Event.ClearLevel lev, Event.ClearBoxArray lev,
          Event.ClearDistributionMap lev] : List (Event BA DM Tm)) = [] := by
        simp [eventsAt, Event.level, Ne.symm h]
      rw [h0, List.nil_append]
      by_cases h3 : lev + 1 ≤ l ∧ l < lev + 1 + n
      · rw [if_pos h3, if_pos (by omega)]
      · rw [if_neg h3, if_neg (by omega)]

/-- The second loop with level-local callbacks and enough fuel: it completes, makes the
three clearing calls for every level from `lev` to `finest_level`, clears exactly those
levels and leaves the others alone. -/
theorem clearLoop_spec [Inhabited BA] [Inhabited DM] {cb : Callbacks BA DM U Tm}
    (hloc : cb.LevelLocal) : ∀ (fuel lev : Nat) (s : AmrCore BA DM U),
    s.finest_level + 1 - lev ≤ fuel →
    ∃ s', clearLoop cb fuel lev s = .ok (s', clearCalls lev (s.finest_level + 1 - lev)) ∧
      s'.finest_level = s.finest_level ∧
      (∀ l, lev ≤ l → l ≤ s.finest_level → s'.grids l = default ∧ s'.dmap l = default) ∧
      (∀ l, (l < lev ∨ s.finest_level < l) →
        s'.grids l = s.grids l ∧ s'.dmap l = s.dmap l) := by
  intro fuel
  induction fuel with
  | zero =>
    intro lev s hf
    have hlev : ¬ lev ≤ s.finest_level := by omega
    have h0 : s.finest_level + 1 - lev = 0 := by omega
    refine ⟨s, ?_, rfl, fun l h1 h2 => ?_, fun l _ => ⟨rfl, rfl⟩⟩
    · simp [clearLoop, hlev, h0, clearCalls]
    · omega
  | succ fuel ih =>
    intro lev s hf
    by_cases hlev : lev ≤ s.finest_level
    · have hfin3 : (((cb.ClearLevel lev s).ClearBoxArray lev).ClearDistributionMap
          lev).finest_level = s.finest_level := hloc.clear_finest lev s
      obtain ⟨s4, h4, hfin, hin, hout⟩ :=
        ih (lev + 1) (((cb.ClearLevel lev s).ClearBoxArray lev).ClearDistributionMap lev)
          (by rw [hfin3]; omega)
      rw [hfin3] at h4 hin hout
      refine ⟨s4, ?_, hfin.trans hfin3, ?_, ?_⟩
      · have hk : s.finest_level + 1 - lev = (s.finest_level + 1 - (lev + 1)) + 1 := by omega
        rw [hk]
        simp [clearLoop, hlev, h4, clearCalls, List.range'_succ]
      · intro l h1 h2
        by_cases hl : l = lev
        · subst hl
          obtain ⟨a, b⟩ := hout l (by omega)
          rw [a, b]
          simp [AmrCore.ClearBoxArray, AmrCore.ClearDistributionMap]
        · exact hin l (by omega) h2
      · intro l hl
        obtain ⟨a, b⟩ := hout l (by omega)
        have hne : l ≠ lev := by omega
        rw [a, b]
        simp only [AmrCore.ClearBoxArray, AmrCore.ClearDistributionMap, hne, if_false]
        exact ⟨hloc.clear_grids lev s l hne, hloc.clear_dmap lev s l hne⟩
    · have h0 : s.finest_level + 1 - lev = 0 := by omega
      refine ⟨s, ?_, rfl, fun l h1 h2 => ?_, fun l _ => ⟨rfl, rfl⟩⟩
      · simp [clearLoop, hlev, h0, clearCalls]
      · omega

/-- The whole call with level-local callbacks, a proposal within the asserted bound and
enough fuel: `regrid` completes, and the log and the final object are described level by
level (levels handled by the first loop, levels cleared by the second, levels left alone). -/
theorem regrid_spec [DecidableEq BA] [Inhabited BA] [Inhabited DM] {cb : Callbacks BA DM U Tm}
    (hloc : cb.LevelLocal) (fuel lbase : Nat) (time : Tm) (s : AmrCore BA DM U)
    (hlb : lbase < s.max_level) (hnf : new_finest cb lbase time s ≤ s.finest_level + 1)
    (hfuel : s.finest_level - new_finest cb lbase time s ≤ fuel) :
    ∃ s' tr, regrid cb fuel lbase time s = .ok (s', tr) ∧
      s'.finest_level = new_finest cb lbase time s ∧
      (∀ L, lbase < L → L ≤ new_finest cb lbase time s →
        ∃ sL cL sL' cL', sL.finest_level = s.finest_level ∧ sL.grids L = s.grids L ∧
          sL.dmap L = s.dmap L ∧
          (L ≤ s.finest_level → cL = if L = lbase + 1 then false
            else decide ((new_grids cb lbase time s)[L - 1]? ≠ some (s.grids (L - 1)))) ∧
          regridLevel cb time (new_grids cb lbase time s) L sL cL =
            .ok (sL', cL', eventsAt L tr) ∧
          s'.grids L = sL'.grids L ∧ s'.dmap L = sL'.dmap L) ∧
      (∀ l, new_finest cb lbase time s < l → l ≤ s.finest_level →
        eventsAt l tr =
          [Event.ClearLevel l, Event.ClearBoxArray l, Event.ClearDistributionMap l] ∧
        s'.grids l = default ∧ s'.dmap l = default) ∧
      (∀ l, ((l ≤ lbase ∧ l ≤ new_finest cb lbase time s) ∨
          (new_finest cb lbase time s < l ∧ s.finest_level < l)) →
        eventsAt l tr = [] ∧ s'.grids l = s.grids l ∧ s'.dmap l = s.dmap l) ∧
      (∃ s1 tr1, regridLoop cb time (new_grids cb lbase time s)
          (new_finest cb lbase time s - lbase) (lbase + 1)
          (cb.MakeNewGrids lbase time (List.replicate (s.finest_level + 2) default) s).2.2
          false = .ok (s1, tr1) ∧
        tr = Event.MakeNewGrids lbase time :: (tr1 ++ clearCalls (new_finest cb lbase time s + 1)
          (s.finest_level - new_finest cb lbase time s))) := by
  have hgf := hloc.generator_finest lbase time (List.replicate (s.finest_level + 2) default) s
  have hgg := hloc.generator_grids lbase time (List.replicate (s.finest_level + 2) default) s
  have hgd := hloc.generator_dmap lbase time (List.replicate (s.finest_level + 2) default) s
  have hgs := hloc.generator_size lbase time (List.replicate (s.finest_level + 2) default) s
  rw [List.length_replicate] at hgs
  obtain ⟨s1, tr1, h1, hfin1, hout1, hin1⟩ := regridLoop_spec hloc time
    (new_grids cb lbase time s) (new_finest cb lbase time s - lbase) (lbase + 1)
    (cb.MakeNewGrids lbase time (List.replicate (s.finest_level + 2) default) s).2.2 false
    (fun h0 => by unfold new_grids; omega)
  rw [hgf] at hfin1 hin1
  simp only [hgg, hgd] at hout1 hin1
  obtain ⟨s2, h2, hfin2, hin2, hout2⟩ := clearLoop_spec hloc fuel
    (new_finest cb lbase time s + 1) s1 (by rw [hfin1]; omega)
  rw [hfin1] at h2 hfin2 hin2 hout2
  have hk : s.finest_level + 1 - (new_finest cb lbase time s + 1) =
      s.finest_level - new_finest cb lbase time s := by omega
  rw [hk] at h2
  have hassert : BL_ASSERT cb.AMREX_USE_ASSERTION (decide (new_finest cb lbase time s ≤
      (cb.MakeNewGrids lbase time (List.replicate (s.finest_level + 2) default)
        s).2.2.finest_level + 1)) = .ok () := by
    rw [hgf]
    simp [BL_ASSERT, hnf]
  refine ⟨{ s2 with finest_level := new_finest cb lbase time s },
    Event.MakeNewGrids lbase time ::
      (tr1 ++ clearCalls (new_finest cb lbase time s + 1)
        (s.finest_level - new_finest cb lbase time s)), ?_, rfl, ?_, ?_, ?_, ⟨s1, tr1, h1, rfl⟩⟩
  · have hlb2 : ¬ lbase ≥ s.max_level := by omega
    unfold regrid
    rw [if_neg hlb2]
    simp only [new_finest, new_grids] at hassert h1 h2 ⊢
    simp only [hassert, h1, h2]
  all_goals
    have hcons : ∀ l, eventsAt l (Event.MakeNewGrids lbase time ::
        (tr1 ++ clearCalls (new_finest cb lbase time s + 1)
          (s.finest_level - new_finest cb lbase time s))) =
        eventsAt l tr1 ++ eventsAt l (clearCalls (new_finest cb lbase time s + 1)
          (s.finest_level - new_finest cb lbase time s) : List (Event BA DM Tm)) := by
      intro l
      rw [← eventsAt_append]
      simp [eventsAt, Event.level]
  · intro L hL1 hL2
    obtain ⟨sL, cL, sL', cL', e1, e2, e3, e4, e5, e6, e7⟩ := hin1 L (by omega) (by omega)
    obtain ⟨a, b⟩ := hout2 L (by omega)
    refine ⟨sL, cL, sL', cL', e1, e2, e3, e4, ?_, a.trans e6, b.trans e7⟩
    rw [hcons, eventsAt_clearCalls, if_neg (by omega), List.append_nil]
    exact e5
  · intro l hl1 hl2
    obtain ⟨a, b, e⟩ := hout1 l (by omega)
    obtain ⟨c, d⟩ := hin2 l (by omega) hl2
    refine ⟨?_, c, d⟩
    rw [hcons, eventsAt_clearCalls, if_pos (by omega), e, List.nil_append]
  · intro l hl
    obtain ⟨a, b, e⟩ := hout1 l (by omega)
    obtain ⟨c, d⟩ := hout2 l (by omega)
    refine ⟨?_, c.trans a, d.trans b⟩
    rw [hcons, eventsAt_clearCalls, if_neg (by omega), e, List.append_nil]

theorem mem_eventsAt {l : Nat} {tr : List (Event BA DM Tm)} {e : Event BA DM Tm} :
    e ∈ eventsAt l tr ↔ e ∈ tr ∧ e.level = some l := by
  simp [eventsAt, List.mem_filter]

/-- The example callbacks respect the level frame. -/
theorem exCb_levelLocal (nf : Nat) (ng : List Nat) (b : Bool) : (exCb nf ng b).LevelLocal := by
  constructor <;> intros <;> (try cases b) <;>
    simp_all [exCb, AmrCore.SetDistributionMap] <;> omega

/-- The first loop completes, whatever the callbacks do, when it stays inside `new_grids`. -/
theorem regridLoop_ok [DecidableEq BA] (cb : Callbacks BA DM U Tm) (time : Tm) (ng : List BA) :
    ∀ (n lev : Nat) (s : AmrCore BA DM U) (c : Bool), (n ≠ 0 → lev + n ≤ ng.length) →
    ∃ r, regridLoop cb time ng n lev s c = .ok r := by
  intro n
  induction n with
  | zero => intro lev s c _; exact ⟨_, rfl⟩
  | succ n ih =>
    intro lev s c hlen
    have hlen := hlen (Nat.succ_ne_zero n)
    obtain ⟨⟨s1, c1, tr1⟩, h1⟩ := regridLevel_ok_of_lt cb time ng lev s c (by omega)
    obtain ⟨⟨s2, tr2⟩, h2⟩ := ih (lev + 1) s1 c1 (fun _ => by omega)
    exact ⟨(s2, tr1 ++ tr2), by simp [regridLoop, h1, h2]⟩

theorem regridLoop_succ_inv [DecidableEq BA] {cb : Callbacks BA DM U Tm} {time : Tm} {ng : List BA}
    {n lev : Nat} {s s' : AmrCore BA DM U} {c : Bool} {tr : List (Event BA DM Tm)}
    (h : regridLoop cb time ng (n + 1) lev s c = .ok (s', tr)) :
    ∃ s1 c1 tr1 tr2, regridLevel cb time ng lev s c = .ok (s1, c1, tr1) ∧
      regridLoop cb time ng n (lev + 1) s1 c1 = .ok (s', tr2) ∧ tr = tr1 ++ tr2 := by
  simp only [regridLoop] at h
  cases h1 : regridLevel cb time ng lev s c with
  | error e => simp [h1] at h
  | ok r1 =>
    obtain ⟨s1, c1, tr1⟩ := r1
    simp only [h1] at h
    cases h2 : regridLoop cb time ng n (lev + 1) s1 c1 with
    | error e => simp [h2] at h
    | ok r2 =>
      obtain ⟨s2, tr2⟩ := r2
      simp only [h2, Except.ok.injEq, Prod.mk.injEq] at h
      obtain ⟨rfl, rfl⟩ := h
      exact ⟨s1, c1, tr1, tr2, rfl, h2, rfl⟩

theorem clearLoop_inv [Inhabited BA] [Inhabited DM] {cb : Callbacks BA DM U Tm}
    {fuel lev : Nat} {s s' : AmrCore BA DM U} {tr : List (Event BA DM Tm)}
    (h : clearLoop cb fuel lev s = .ok (s', tr)) :
    (¬ lev ≤ s.finest_level ∧ s' = s ∧ tr = []) ∨
    (lev ≤ s.finest_level ∧ ∃ f tr2, fuel = f + 1 ∧
      clearLoop cb f (lev + 1)
        (((cb.ClearLevel lev s).ClearBoxArray lev).ClearDistributionMap lev) = .ok (s', tr2) ∧
      tr = [Event.ClearLevel lev, Event.ClearBoxArray lev, Event.ClearDistributionMap lev]
        ++ tr2) := by
  cases fuel with
  | zero =>
    simp only [clearLoop] at h
    split_ifs at h with hl
    simp only [Except.ok.injEq, Prod.mk.injEq] at h
    exact Or.inl ⟨hl, h.1.symm, h.2.symm⟩
  | succ f =>
    simp only [clearLoop] at h
    split_ifs at h with hl
    · right
      refine ⟨hl, f, ?_⟩
      cases h2 : clearLoop cb f (lev + 1)
          (((cb.ClearLevel lev s).ClearBoxArray lev).ClearDistributionMap lev) with
      | error e => simp [h2] at h
      | ok r2 =>
        obtain ⟨s2, tr2⟩ := r2
        simp only [h2, Except.ok.injEq, Prod.mk.injEq] at h
        obtain ⟨rfl, rfl⟩ := h
        exact ⟨tr2, rfl, rfl, rfl⟩
    · simp only [Except.ok.injEq, Prod.mk.injEq] at h
      exact Or.inl ⟨hl, h.1.symm, h.2.symm⟩

theorem clearLoop_ne_outOfBounds [Inhabited BA] [Inhabited DM] (cb : Callbacks BA DM U Tm) :
    ∀ (fuel lev : Nat) (s : AmrCore BA DM U),
      clearLoop cb fuel lev s ≠ .error .outOfBounds := by
  intro fuel
  induction fuel with
  | zero =>
    intro lev s
    simp only [clearLoop]
    split_ifs <;> simp
  | succ f ih =>
    intro lev s
    simp only [clearLoop]
    split_ifs
    · cases h2 : clearLoop cb f (lev + 1)
          (((cb.ClearLevel lev s).ClearBoxArray lev).ClearDistributionMap lev) with
      | error e =>
        simp only [ne_eq, Except.error.injEq]
        rintro rfl
        exact ih _ _ h2
      | ok r2 => simp
    · simp

/-- A completed call that passed the guard on line 87 is the grid generator, then the first
loop, then the second loop, then the assignment of `finest_level`; with assertions compiled
in, the proposal was within the asserted bound. -/
theorem regrid_ok_inv [DecidableEq BA] [Inhabited BA] [Inhabited DM] {cb : Callbacks BA DM U Tm}
    {fuel lbase : Nat} {time : Tm} {s s' : AmrCore BA DM U} {tr : List (Event BA DM Tm)}
    (hlb : lbase < s.max_level) (h : regrid cb fuel lbase time s = .ok (s', tr)) :
    ∃ s1 tr1 s2 tr2,
      regridLoop cb time (new_grids cb lbase time s) (new_finest cb lbase time s - lbase)
        (lbase + 1)
        (cb.MakeNewGrids lbase time (List.replicate (s.finest_level + 2) default) s).2.2
        false = .ok (s1, tr1) ∧
      clearLoop cb fuel (new_finest cb lbase time s + 1) s1 = .ok (s2, tr2) ∧
      s' = { s2 with finest_level := new_finest cb lbase time s } ∧
      tr = Event.MakeNewGrids lbase time :: (tr1 ++ tr2) ∧
      (cb.AMREX_USE_ASSERTION = true → new_finest cb lbase time s ≤
        (cb.MakeNewGrids lbase time (List.replicate (s.finest_level + 2) default)
          s).2.2.finest_level + 1) := by
  have hlb2 : ¬ lbase ≥ s.max_level := by omega
  unfold regrid at h
  rw [if_neg hlb2] at h
  simp only [] at h
  cases ha : BL_ASSERT cb.AMREX_USE_ASSERTION
      (decide ((cb.MakeNewGrids lbase time (List.replicate (s.finest_level + 2) default) s).1 ≤
        (cb.MakeNewGrids lbase time (List.replicate (s.finest_level + 2) default)
          s).2.2.finest_level + 1)) with
  | error e => simp [ha] at h
  | ok u =>
    simp only [ha] at h
    cases h1 : regridLoop cb time
        (cb.MakeNewGrids lbase time (List.replicate (s.finest_level + 2) default) s).2.1
        ((cb.MakeNewGrids lbase time (List.replicate (s.finest_level + 2) default) s).1 - lbase)
        (lbase + 1)
        (cb.MakeNewGrids lbase time (List.replicate (s.finest_level + 2) default) s).2.2
        false with
    | error e => simp [h1] at h
    | ok r1 =>
      obtain ⟨s1, tr1⟩ := r1
      simp only [h1] at h
      cases h2 : clearLoop cb fuel
          ((cb.MakeNewGrids lbase time (List.replicate (s.finest_level + 2) default) s).1 + 1)
          s1 with
      | error e => simp [h2] at h
      | ok r2 =>
        obtain ⟨s2, tr2⟩ := r2
        simp only [h2, Except.ok.injEq, Prod.mk.injEq] at h
        obtain ⟨rfl, rfl⟩ := h
        refine ⟨s1, tr1, s2, tr2, h1, h2, rfl, rfl, ?_⟩
        intro hen
        unfold BL_ASSERT at ha
        rw [hen] at ha
        by_contra hcon
        simp [new_finest] at hcon
        simp [hcon] at ha

theorem regridLevel_keeps_other_grids [DecidableEq BA]
    {cb : Callbacks BA DM U Tm} (hk : cb.KeepsCoverings)
    {time : Tm} {ng : List BA} {lev : Nat} {s s1 : AmrCore BA DM U} {c c1 : Bool}
    {tr : List (Event BA DM Tm)} (h : regridLevel cb time ng lev s c = .ok (s1, c1, tr)) :
    ∀ l, l ≠ lev → s1.grids l = s.grids l := by
  intro l hl
  obtain ⟨g, hg, h | ⟨pre, d, sb, sc, call, tail, -, hi, hc⟩⟩ := regridLevel_cases h
  · obtain ⟨-, -, -, rfl, -, -⟩ := h
    rfl
  · have h1 : s1.grids l = sc.grids l := by
      rcases hi with ⟨-, rfl, -⟩ | ⟨-, rfl, -⟩ <;>
        simp [AmrCore.SetBoxArray, AmrCore.SetDistributionMap, hl]
    rw [h1]
    rcases hc with ⟨-, -, -, -, -, -, rfl, rfl, -⟩ | ⟨-, -, -, -, -, rfl, rfl, -⟩ |
      ⟨-, -, -, -, rfl, rfl, -⟩
    · exact hk.remake_grids _ _ _ _ _ l hl
    · exact (hk.remake_grids _ _ _ _ _ l hl).trans (hk.map_grids _ _ _ l hl)
    · exact (hk.create_grids _ _ _ _ _ l hl).trans (hk.map_grids _ _ _ l hl)

theorem regridLoop_grids [DecidableEq BA]
    {cb : Callbacks BA DM U Tm} (hk : cb.KeepsCoverings) (time : Tm)
    (ng : List BA) : ∀ (n lev : Nat) (s s' : AmrCore BA DM U) (c : Bool)
    (tr : List (Event BA DM Tm)), regridLoop cb time ng n lev s c = .ok (s', tr) →
    (∀ L, lev ≤ L → L < lev + n → ng[L]? = some (s'.grids L)) ∧
      ∀ l, l < lev → s'.grids l = s.grids l := by
  intro n
  induction n with
  | zero =>
    intro lev s s' c tr h
    simp only [regridLoop, Except.ok.injEq, Prod.mk.injEq] at h
    obtain ⟨rfl, -⟩ := h
    exact ⟨fun L h1 h2 => by omega, fun _ _ => rfl⟩
  | succ n ih =>
    intro lev s s' c tr h
    obtain ⟨s1, c1, tr1, tr2, h1, h2, -⟩ := regridLoop_succ_inv h
    obtain ⟨hin, hout⟩ := ih (lev + 1) s1 s' c1 tr2 h2
    have hfr := regridLevel_keeps_other_grids hk h1
    refine ⟨fun L hL1 hL2 => ?_, fun l hl => ?_⟩
    · by_cases hLl : L = lev
      · subst hLl
        rw [hout L (by omega)]
        exact regridLevel_grids h1
      · exact hin L (by omega) (by omega)
    · rw [hout l (by omega)]
      exact hfr l (by omega)

theorem clearLoop_grids [Inhabited BA] [Inhabited DM]
    {cb : Callbacks BA DM U Tm} (hk : cb.KeepsCoverings) :
    ∀ (fuel lev : Nat) (s s' : AmrCore BA DM U) (tr : List (Event BA DM Tm)),
    clearLoop cb fuel lev s = .ok (s', tr) → ∀ l, l < lev → s'.grids l = s.grids l := by
  intro fuel
  induction fuel with
  | zero =>
    intro lev s s' tr h l _
    rcases clearLoop_inv h with ⟨-, rfl, -⟩ | ⟨-, f, tr2, hf, -⟩
    · rfl
    · omega
  | succ fuel ih =>
    intro lev s s' tr h l hl
    rcases clearLoop_inv h with ⟨-, rfl, -⟩ | ⟨-, f, tr2, hf, h2, -⟩
    · rfl
    · obtain rfl : f = fuel := by omega
      rw [ih (lev + 1) _ s' tr2 h2 l (by omega)]
      have hne : l ≠ lev := by omega
      simp only [AmrCore.ClearDistributionMap, AmrCore.ClearBoxArray, hne, if_false]
      exact hk.clear_grids lev s l hne

theorem lifecycleLevel_eq_buildLevel {e : Event BA DM Tm} (h : e.clearLevel = none) :
    e.lifecycleLevel = e.buildLevel := by
  cases e <;> simp_all [Event.lifecycleLevel, Event.buildLevel, Event.clearLevel]

theorem lifecycleLevel_eq_clearLevel {e : Event BA DM Tm} (h : e.buildLevel = none) :
    e.lifecycleLevel = e.clearLevel := by
  cases e <;> simp_all [Event.lifecycleLevel, Event.buildLevel, Event.clearLevel]

theorem level_of_buildLevel {e : Event BA DM Tm} {l : Nat} (h : e.buildLevel = some l) :
    e.level = some l := by
  cases e <;> simp_all [Event.level, Event.buildLevel]

theorem level_of_clearLevel {e : Event BA DM Tm} {l : Nat} (h : e.clearLevel = some l) :
    e.level = some l := by
  cases e <;> simp_all [Event.level, Event.clearLevel]

theorem regridLevel_lifecycle [DecidableEq BA]
    {cb : Callbacks BA DM U Tm} {time : Tm} {ng : List BA}
    {lev : Nat} {s s1 : AmrCore BA DM U} {c c1 : Bool} {tr : List (Event BA DM Tm)}
    (h : regridLevel cb time ng lev s c = .ok (s1, c1, tr)) :
    (∀ e ∈ tr, e.clearLevel = none) ∧
      (tr.filterMap Event.buildLevel = [] ∨ tr.filterMap Event.buildLevel = [lev]) := by
  obtain ⟨g, -, h | ⟨pre, d, sb, sc, call, tail, rfl, hi, hc⟩⟩ := regridLevel_cases h
  · obtain ⟨-, -, -, -, -, rfl⟩ := h
    simp
  · have ht : tail = [] ∨ tail = [Event.SetDistributionMap lev d] := by
      rcases hi with ⟨-, -, h⟩ | ⟨-, -, h⟩
      · exact Or.inr h
      · exact Or.inl h
    rcases hc with ⟨-, -, -, -, rfl, -, -, -, rfl⟩ | ⟨-, -, -, rfl, -, -, -, rfl⟩ |
      ⟨-, -, rfl, -, -, -, rfl⟩ <;> rcases ht with rfl | rfl <;>
      simp [Event.clearLevel, Event.buildLevel]

/-- The first loop, whatever the callbacks do: no `ClearLevel`, every call concerns a level
of the loop range, and the `RemakeLevel` / `MakeNewLevelFromCoarse` callbacks come in
strictly increasing level order. -/
theorem regridLoop_lifecycle [DecidableEq BA]
    (cb : Callbacks BA DM U Tm) (time : Tm) (ng : List BA) :
    ∀ (n lev : Nat) (s s' : AmrCore BA DM U) (c : Bool) (tr : List (Event BA DM Tm)),
    regridLoop cb time ng n lev s c = .ok (s', tr) →
    (∀ e ∈ tr, e.clearLevel = none) ∧
      (∀ e ∈ tr, ∃ l, e.level = some l ∧ lev ≤ l ∧ l < lev + n) ∧
      (tr.filterMap Event.buildLevel).Pairwise (· < ·) := by
  intro n
  induction n with
  | zero =>
    intro lev s s' c tr h
    simp only [regridLoop, Except.ok.injEq, Prod.mk.injEq] at h
    obtain ⟨-, rfl⟩ := h
    simp
  | succ n ih =>
    intro lev s s' c tr h
    obtain ⟨s1, c1, tr1, tr2, h1, h2, rfl⟩ := regridLoop_succ_inv h
    obtain ⟨ha, hb, hc⟩ := ih (lev + 1) s1 s' c1 tr2 h2
    obtain ⟨hx, hy⟩ := regridLevel_lifecycle h1
    have hz := regridLevel_events_level h1
    refine ⟨?_, ?_, ?_⟩
    · intro e he
      rcases List.mem_append.1 he with he | he
      · exact hx e he
      · exact ha e he
    · intro e he
      rcases List.mem_append.1 he with he | he
      · exact ⟨lev, hz e he, by omega, by omega⟩
      · obtain ⟨l, h3, h4, h5⟩ := hb e he
        exact ⟨l, h3, by omega, by omega⟩
    · rw [List.filterMap_append, List.pairwise_append]
      refine ⟨?_, hc, ?_⟩
      · rcases hy with hy | hy <;> rw [hy] <;> simp
      · intro a ha' b hb'
        have ha2 : a = lev := by
          rcases hy with hy | hy <;> rw [hy] at ha' <;> simp at ha'
          exact ha'
        obtain ⟨e, he, heb⟩ := List.mem_filterMap.1 hb'
        obtain ⟨l, h3, h4, h5⟩ := hb e he
        have := level_of_buildLevel heb
        rw [h3] at this
        have : l = b := Option.some.inj this
        omega

/-- The second loop, whatever the callbacks do: no `RemakeLevel` or
`MakeNewLevelFromCoarse`, every call concerns a level from `lev` on, and the `ClearLevel`
callbacks come in strictly increasing level order. -/
theorem clearLoop_lifecycle [Inhabited BA] [Inhabited DM] (cb : Callbacks BA DM U Tm) :
    ∀ (fuel lev : Nat) (s s' : AmrCore BA DM U) (tr : List (Event BA DM Tm)),
    clearLoop cb fuel lev s = .ok (s', tr) →
    (∀ e ∈ tr, e.buildLevel = none) ∧
      (∀ e ∈ tr, ∃ l, e.level = some l ∧ lev ≤ l) ∧
      (tr.filterMap Event.clearLevel).Pairwise (· < ·) := by
  intro fuel
  induction fuel with
  | zero =>
    intro lev s s' tr h
    rcases clearLoop_inv h with ⟨-, -, rfl⟩ | ⟨-, f, tr2, hf, -⟩
    · simp
    · omega
  | succ fuel ih =>
    intro lev s s' tr h
    rcases clearLoop_inv h with ⟨-, -, rfl⟩ | ⟨-, f, tr2, hf, h2, rfl⟩
    · simp
    · obtain rfl : f = fuel := by omega
      obtain ⟨ha, hb, hc⟩ := ih (lev + 1) _ s' tr2 h2
      refine ⟨?_, ?_, ?_⟩
      · intro e he
        rcases List.mem_append.1 he with he | he
        · simp only [List.mem_cons, List.mem_singleton, List.not_mem_nil, or_false] at he
          rcases he with rfl | rfl | rfl <;> rfl
        · exact ha e he
      · intro e he
        rcases List.mem_append.1 he with he | he
        · simp only [List.mem_cons, List.mem_singleton, List.not_mem_nil, or_false] at he
          rcases he with rfl | rfl | rfl <;> exact ⟨lev, rfl, le_refl _⟩
        · obtain ⟨l, h3, h4⟩ := hb e he
          exact ⟨l, h3, by omega⟩
      · rw [List.filterMap_append, List.pairwise_append]
        refine ⟨by simp [Event.clearLevel], hc, ?_⟩
        intro a ha' b hb'
        have ha2 : a = lev := by
          simpa [Event.clearLevel] using ha'
        obtain ⟨e, he, heb⟩ := List.mem_filterMap.1 hb'
        obtain ⟨l, h3, h4⟩ := hb e he
        have := level_of_clearLevel heb
        rw [h3] at this
        have : l = b := Option.some.inj this
        omega

/-- Whenever `regridAssertFailure` reports a stop at the assertion, `regrid` fails with
`Abort.assertion`, whatever the fuel. -/
theorem regrid_eq_assertion_of_regridAssertFailure [DecidableEq BA] [Inhabited BA] [Inhabited DM]
    (cb : Callbacks BA DM U Tm) (fuel lbase : Nat) (time : Tm) (s : AmrCore BA DM U)
    (x : AmrCore BA DM U × List (Event BA DM Tm))
    (h : regridAssertFailure cb lbase time s = some x) :
    regrid cb fuel lbase time s = .error .assertion := by
  unfold regridAssertFailure at h
  unfold regrid
  by_cases hlb : lbase ≥ s.max_level
  · simp [hlb] at h
  · rw [if_neg hlb] at h ⊢
    simp only [] at h ⊢
    cases ha : BL_ASSERT cb.AMREX_USE_ASSERTION
        (decide ((cb.MakeNewGrids lbase time (List.replicate (s.finest_level + 2) default) s).1 ≤
          (cb.MakeNewGrids lbase time (List.replicate (s.finest_level + 2) default)
            s).2.2.finest_level + 1)) with
    | error e =>
      have he : e = Abort.assertion := by
        unfold BL_ASSERT at ha
        split_ifs at ha
        · exact (Except.error.inj ha).symm
      rw [he]
    | ok u => simp [ha] at h

/-- The documented Frontier environment does get its documented name, for a `toLower` that
lower-cases `OLCF.frontier`. -/
theorem Machine.name_frontier_documented_env (toLower : String → String)
    (h : toLower "OLCF.frontier" = "olcf.frontier") :
    Machine.name (Machine.Initialize toLower Machine.frontierEnv "") = "olcf.frontier" := by
  have e : ("OLCF" ++ "." ++ "frontier" : String) = "OLCF.frontier" := by decide
  simp [Machine.name, Machine.Initialize, Machine.frontierEnv, e, h]

/-- With `LMOD_SYSTEM_NAME=perlmutter` set as well, the Perlmutter name is produced. -/
theorem Machine.name_perlmutter_with_system_name (toLower : String → String)
    (h : toLower "nersc.perlmutter" = "nersc.perlmutter") (getenv : String → Option String)
    (h1 : getenv "NERSC_HOST" = some "perlmutter")
    (h2 : getenv "LMOD_SYSTEM_NAME" = some "perlmutter") (s_name : String) :
    Machine.name (Machine.Initialize toLower getenv s_name) = "nersc.perlmutter" := by
  have e : ("nersc." ++ "perlmutter" : String) = "nersc.perlmutter" := by decide
  simp [Machine.name, Machine.Initialize, h1, h2, e, h]

theorem GridSummary.minInv_scanBox {Bx : Type} (ops : GridSummary.BoxOps Bx) (bs : List Bx)
    (S : List Nat) (t : GridSummary.Extremes) (k : Nat) (bx : Bx) (hk : bs[k]? = some bx)
    (hc : GridSummary.Comparable ops bx) (h : GridSummary.MinInv ops bs S t) :
    GridSummary.MinInv ops bs (S ++ [k]) (GridSummary.scanBox ops bs t k) := by
  have hmin : ∀ t1 : GridSummary.Extremes,
      (if ops.volume bx > t1.vmax ∨ (ops.volume bx = t1.vmax ∧ ops.longside bx > t1.lmax) then
        { t1 with vmax := ops.volume bx, lmax := ops.longside bx, imax := (k : Int) }
      else t1).vmin = t1.vmin ∧
      (if ops.volume bx > t1.vmax ∨ (ops.volume bx = t1.vmax ∧ ops.longside bx > t1.lmax) then
        { t1 with vmax := ops.volume bx, lmax := ops.longside bx, imax := (k : Int) }
      else t1).smin = t1.smin ∧
      (if ops.volume bx > t1.vmax ∨ (ops.volume bx = t1.vmax ∧ ops.longside bx > t1.lmax) then
        { t1 with vmax := ops.volume bx, lmax := ops.longside bx, imax := (k : Int) }
      else t1).imin = t1.imin := by
    intro t1
    split_ifs <;> exact ⟨rfl, rfl, rfl⟩
  unfold GridSummary.MinInv GridSummary.scanBox
  simp only [hk]
  obtain ⟨e1, e2, e3⟩ := hmin (if ops.volume bx < t.vmin ∨
      (ops.volume bx = t.vmin ∧ ops.shortside bx < t.smin) then
      { t with vmin := ops.volume bx, smin := ops.shortside bx, imin := (k : Int) } else t)
  rw [e1, e2, e3]
  right
  by_cases hcond : ops.volume bx < t.vmin ∨ (ops.volume bx = t.vmin ∧ ops.shortside bx < t.smin)
  · rw [if_pos hcond]
    refine ⟨k, bx, by simp, hk, rfl, rfl, rfl, ?_⟩
    intro j hj bj hbj
    rcases List.mem_append.1 hj with hj | hj
    · rcases h with ⟨hS, -⟩ | ⟨k0, b0, -, -, -, hv, hs, hall⟩
      · rw [hS] at hj
        simp at hj
      · have := hall j hj bj hbj
        unfold GridSummary.smallerEq at this ⊢
        rw [hv, hs] at hcond
        omega
    · simp only [List.mem_singleton] at hj
      subst hj
      rw [hk] at hbj
      obtain rfl := Option.some.inj hbj
      exact Or.inr ⟨rfl, le_refl _⟩
  · rw [if_neg hcond]
    rcases h with ⟨hS, hv, hs, -⟩ | ⟨k0, b0, hk0, hb0, hi, hv, hs, hall⟩
    · exfalso
      rw [hv, hs] at hcond
      exact hcond hc.1
    · refine ⟨k0, b0, by simp [hk0], hb0, hi, hv, hs, ?_⟩
      intro j hj bj hbj
      rcases List.mem_append.1 hj with hj | hj
      · exact hall j hj bj hbj
      · simp only [List.mem_singleton] at hj
        subst hj
        rw [hk] at hbj
        obtain rfl := Option.some.inj hbj
        unfold GridSummary.smallerEq
        rw [hv, hs] at hcond
        omega

theorem GridSummary.maxInv_scanBox {Bx : Type} (ops : GridSummary.BoxOps Bx) (bs : List Bx)
    (S : List Nat) (t : GridSummary.Extremes) (k : Nat) (bx : Bx) (hk : bs[k]? = some bx)
    (hc : GridSummary.Comparable ops bx) (h : GridSummary.MaxInv ops bs S t) :
    GridSummary.MaxInv ops bs (S ++ [k]) (GridSummary.scanBox ops bs t k) := by
  have hmax : (if ops.volume bx < t.vmin ∨
      (ops.volume bx = t.vmin ∧ ops.shortside bx < t.smin) then
      { t with vmin := ops.volume bx, smin := ops.shortside bx, imin := (k : Int) }
      else t).vmax = t.vmax ∧
      (if ops.volume bx < t.vmin ∨
      (ops.volume bx = t.vmin ∧ ops.shortside bx < t.smin) then
      { t with vmin := ops.volume bx, smin := ops.shortside bx, imin := (k : Int) }
      else t).lmax = t.lmax ∧
      (if ops.volume bx < t.vmin ∨
      (ops.volume bx = t.vmin ∧ ops.shortside bx < t.smin) then
      { t with vmin := ops.volume bx, smin := ops.shortside bx, imin := (k : Int) }
      else t).imax = t.imax := by
    split_ifs <;> exact ⟨rfl, rfl, rfl⟩
  obtain ⟨e1, e2, e3⟩ := hmax
  unfold GridSummary.MaxInv GridSummary.scanBox
  simp only [hk]
  rw [e1, e2]
  right
  by_cases hcond : ops.volume bx > t.vmax ∨ (ops.volume bx = t.vmax ∧ ops.longside bx > t.lmax)
  · rw [if_pos hcond]
    refine ⟨k, bx, by simp, hk, rfl, rfl, rfl, ?_⟩
    intro j hj bj hbj
    rcases List.mem_append.1 hj with hj | hj
    · rcases h with ⟨hS, -⟩ | ⟨k0, b0, -, -, -, hv, hs, hall⟩
      · rw [hS] at hj
        simp at hj
      · have := hall j hj bj hbj
        unfold GridSummary.biggerEq at this ⊢
        rw [hv, hs] at hcond
        omega
    · simp only [List.mem_singleton] at hj
      subst hj
      rw [hk] at hbj
      obtain rfl := Option.some.inj hbj
      exact Or.inr ⟨rfl, le_refl _⟩
  · rw [if_neg hcond]
    rcases h with ⟨hS, hv, hs, -⟩ | ⟨k0, b0, hk0, hb0, hi, hv, hs, hall⟩
    · exfalso
      rw [hv, hs] at hcond
      exact hcond hc.2
    · refine ⟨k0, b0, by simp [hk0], hb0, e3.trans hi, e1.trans hv, e2.trans hs, ?_⟩
      intro j hj bj hbj
      rcases List.mem_append.1 hj with hj | hj
      · exact hall j hj bj hbj
      · simp only [List.mem_singleton] at hj
        subst hj
        rw [hk] at hbj
        obtain rfl := Option.some.inj hbj
        unfold GridSummary.biggerEq
        rw [hv, hs] at hcond
        omega

/-- A worker's pass over valid iterations yields a smallest and a biggest grid among the
grids it ran over (or the initial values if it ran over none). -/
theorem GridSummary.inv_scanWorker {Bx : Type} (ops : GridSummary.BoxOps Bx) (bs : List Bx)
    (hc : ∀ bx ∈ bs, GridSummary.Comparable ops bx) (ks : List Nat)
    (hks : ∀ k ∈ ks, k < bs.length) :
    GridSummary.MinInv ops bs ks (GridSummary.scanWorker ops bs ks) ∧
      GridSummary.MaxInv ops bs ks (GridSummary.scanWorker ops bs ks) := by
  have key : ∀ (ks S : List Nat) (t : GridSummary.Extremes), (∀ k ∈ ks, k < bs.length) →
      GridSummary.MinInv ops bs S t → GridSummary.MaxInv ops bs S t →
      GridSummary.MinInv ops bs (S ++ ks) (ks.foldl (GridSummary.scanBox ops bs) t) ∧
        GridSummary.MaxInv ops bs (S ++ ks) (ks.foldl (GridSummary.scanBox ops bs) t) := by
    intro ks
    induction ks with
    | nil =>
      intro S t _ h1 h2
      simpa using ⟨h1, h2⟩
    | cons k ks ih =>
      intro S t hks h1 h2
      have hk : k < bs.length := hks k (by simp)
      have hget : bs[k]? = some bs[k] := List.getElem?_eq_getElem hk
      have hcb := hc bs[k] (List.getElem_mem hk)
      have := ih (S ++ [k]) (GridSummary.scanBox ops bs t k)
        (fun j hj => hks j (by simp [hj]))
        (GridSummary.minInv_scanBox ops bs S t k _ hget hcb h1)
        (GridSummary.maxInv_scanBox ops bs S t k _ hget hcb h2)
      simpa using this
  have := key ks [] GridSummary.Extremes.init hks
    (Or.inl ⟨rfl, rfl, rfl, rfl⟩) (Or.inl ⟨rfl, rfl, rfl, rfl⟩)
  simpa [GridSummary.scanWorker] using this

theorem GridSummary.mem_of_getElem? {Bx : Type} {bs : List Bx} {k : Nat} {bx : Bx}
    (h : bs[k]? = some bx) : bx ∈ bs := by
  obtain ⟨hk, rfl⟩ := List.getElem?_eq_some.1 h
  exact List.getElem_mem hk

theorem GridSummary.minInv_merge {Bx : Type} (ops : GridSummary.BoxOps Bx) (bs : List Bx)
    (hc : ∀ bx ∈ bs, GridSummary.Comparable ops bx) (S T : List Nat)
    (g t : GridSummary.Extremes) (hg : GridSummary.MinInv ops bs S g)
    (ht : GridSummary.MinInv ops bs T t) :
    GridSummary.MinInv ops bs (S ++ T) (GridSummary.merge g t) := by
  have hkeep : ∀ g1 : GridSummary.Extremes,
      (if t.vmax > g1.vmax ∨ (t.vmax = g1.vmax ∧ t.lmax > g1.lmax) then
        { g1 with vmax := t.vmax, lmax := t.lmax, imax := t.imax } else g1).vmin = g1.vmin ∧
      (if t.vmax > g1.vmax ∨ (t.vmax = g1.vmax ∧ t.lmax > g1.lmax) then
        { g1 with vmax := t.vmax, lmax := t.lmax, imax := t.imax } else g1).smin = g1.smin ∧
      (if t.vmax > g1.vmax ∨ (t.vmax = g1.vmax ∧ t.lmax > g1.lmax) then
        { g1 with vmax := t.vmax, lmax := t.lmax, imax := t.imax } else g1).imin = g1.imin := by
    intro g1
    split_ifs <;> exact ⟨rfl, rfl, rfl⟩
  unfold GridSummary.MinInv GridSummary.merge
  obtain ⟨e1, e2, e3⟩ := hkeep (if t.vmin < g.vmin ∨ (t.vmin = g.vmin ∧ t.smin < g.smin) then
      { g with vmin := t.vmin, smin := t.smin, imin := t.imin } else g)
  simp only []
  rw [e1, e2, e3]
  by_cases hcond : t.vmin < g.vmin ∨ (t.vmin = g.vmin ∧ t.smin < g.smin)
  · rw [if_pos hcond]
    rcases ht with ⟨hT, hv, hs, hi⟩ | ⟨k, bx, hk, hb, hi, hv, hs, hall⟩
    · exfalso
      rcases hg with ⟨-, gv, gs, -⟩ | ⟨k0, b0, -, hb0, -, gv, gs, -⟩
      · rw [hv, hs, gv, gs] at hcond
        omega
      · have := (hc b0 (GridSummary.mem_of_getElem? hb0)).1
        rw [hv, hs, gv, gs] at hcond
        omega
    · right
      refine ⟨k, bx, by simp [hk], hb, hi, hv, hs, ?_⟩
      intro j hj bj hbj
      rcases List.mem_append.1 hj with hj | hj
      · rcases hg with ⟨hS, -⟩ | ⟨k0, b0, -, -, -, gv, gs, gall⟩
        · rw [hS] at hj
          simp at hj
        · have := gall j hj bj hbj
          unfold GridSummary.smallerEq at this ⊢
          rw [hv, hs, gv, gs] at hcond
          omega
      · exact hall j hj bj hbj
  · rw [if_neg hcond]
    rcases hg with ⟨hS, gv, gs, gi⟩ | ⟨k0, b0, hk0, hb0, gi, gv, gs, gall⟩
    · rcases ht with ⟨hT, -⟩ | ⟨k, bx, -, hb, -, hv, hs, -⟩
      · left
        exact ⟨by simp [hS, hT], gv, gs, gi⟩
      · exfalso
        have := (hc bx (GridSummary.mem_of_getElem? hb)).1
        rw [hv, hs, gv, gs] at hcond
        omega
    · right
      refine ⟨k0, b0, by simp [hk0], hb0, gi, gv, gs, ?_⟩
      intro j hj bj hbj
      rcases List.mem_append.1 hj with hj | hj
      · exact gall j hj bj hbj
      · rcases ht with ⟨hT, -⟩ | ⟨k, bx, -, -, -, hv, hs, hall⟩
        · rw [hT] at hj
          simp at hj
        · have := hall j hj bj hbj
          unfold GridSummary.smallerEq at this ⊢
          rw [hv, hs, gv, gs] at hcond
          omega

theorem GridSummary.maxInv_merge {Bx : Type} (ops : GridSummary.BoxOps Bx) (bs : List Bx)
    (hc : ∀ bx ∈ bs, GridSummary.Comparable ops bx) (S T : List Nat)
    (g t : GridSummary.Extremes) (hg : GridSummary.MaxInv ops bs S g)
    (ht : GridSummary.MaxInv ops bs T t) :
    GridSummary.MaxInv ops bs (S ++ T) (GridSummary.merge g t) := by
  have hkeep : (if t.vmin < g.vmin ∨ (t.vmin = g.vmin ∧ t.smin < g.smin) then
        { g with vmin := t.vmin, smin := t.smin, imin := t.imin } else g).vmax = g.vmax ∧
      (if t.vmin < g.vmin ∨ (t.vmin = g.vmin ∧ t.smin < g.smin) then
        { g with vmin := t.vmin, smin := t.smin, imin := t.imin } else g).lmax = g.lmax ∧
      (if t.vmin < g.vmin ∨ (t.vmin = g.vmin ∧ t.smin < g.smin) then
        { g with vmin := t.vmin, smin := t.smin, imin := t.imin } else g).imax = g.imax := by
    split_ifs <;> exact ⟨rfl, rfl, rfl⟩
  obtain ⟨e1, e2, e3⟩ := hkeep
  unfold GridSummary.MaxInv GridSummary.merge
  simp only []
  rw [e1, e2]
  by_cases hcond : t.vmax > g.vmax ∨ (t.vmax = g.vmax ∧ t.lmax > g.lmax)
  · rw [if_pos hcond]
    rcases ht with ⟨hT, hv, hs, hi⟩ | ⟨k, bx, hk, hb, hi, hv, hs, hall⟩
    · exfalso
      rcases hg with ⟨-, gv, gs, -⟩ | ⟨k0, b0, -, hb0, -, gv, gs, -⟩
      · rw [hv, hs, gv, gs] at hcond
        omega
      · have := (hc b0 (GridSummary.mem_of_getElem? hb0)).2
        rw [hv, hs, gv, gs] at hcond
        omega
    · right
      refine ⟨k, bx, by simp [hk], hb, hi, hv, hs, ?_⟩
      intro j hj bj hbj
      rcases List.mem_append.1 hj with hj | hj
      · rcases hg with ⟨hS, -⟩ | ⟨k0, b0, -, -, -, gv, gs, gall⟩
        · rw [hS] at hj
          simp at hj
        · have := gall j hj bj hbj
          unfold GridSummary.biggerEq at this ⊢
          rw [hv, hs, gv, gs] at hcond
          omega
      · exact hall j hj bj hbj
  · rw [if_neg hcond]
    rcases hg with ⟨hS, gv, gs, gi⟩ | ⟨k0, b0, hk0, hb0, gi, gv, gs, gall⟩
    · rcases ht with ⟨hT, -⟩ | ⟨k, bx, -, hb, -, hv, hs, -⟩
      · left
        exact ⟨by simp [hS, hT], e1.trans gv, e2.trans gs, e3.trans gi⟩
      · exfalso
        have := (hc bx (GridSummary.mem_of_getElem? hb)).2
        rw [hv, hs, gv, gs] at hcond
        omega
    · right
      refine ⟨k0, b0, by simp [hk0], hb0, e3.trans gi, e1.trans gv, e2.trans gs, ?_⟩
      intro j hj bj hbj
      rcases List.mem_append.1 hj with hj | hj
      · exact gall j hj bj hbj
      · rcases ht with ⟨hT, -⟩ | ⟨k, bx, -, -, -, hv, hs, hall⟩
        · rw [hT] at hj
          simp at hj
        · have := hall j hj bj hbj
          unfold GridSummary.biggerEq at this ⊢
          rw [hv, hs, gv, gs] at hcond
          omega

/-- The shared variables after all workers have merged: a smallest and a biggest grid among
all iterations run by the workers. -/
theorem GridSummary.inv_gridExtremes {Bx : Type} (ops : GridSummary.BoxOps Bx) (bs : List Bx)
    (hc : ∀ bx ∈ bs, GridSummary.Comparable ops bx) (workers : List (List Nat))
    (hw : ∀ ks ∈ workers, ∀ k ∈ ks, k < bs.length) :
    GridSummary.MinInv ops bs workers.flatten (GridSummary.gridExtremes ops bs workers) ∧
      GridSummary.MaxInv ops bs workers.flatten (GridSummary.gridExtremes ops bs workers) := by
  have key : ∀ (workers : List (List Nat)) (S : List Nat) (g : GridSummary.Extremes),
      (∀ ks ∈ workers, ∀ k ∈ ks, k < bs.length) →
      GridSummary.MinInv ops bs S g → GridSummary.MaxInv ops bs S g →
      GridSummary.MinInv ops bs (S ++ workers.flatten)
        (workers.foldl (fun g ks => GridSummary.merge g (GridSummary.scanWorker ops bs ks)) g) ∧
      GridSummary.MaxInv ops bs (S ++ workers.flatten)
        (workers.foldl (fun g ks => GridSummary.merge g (GridSummary.scanWorker ops bs ks)) g)
      := by
    intro workers
    induction workers with
    | nil =>
      intro S g _ h1 h2
      simpa using ⟨h1, h2⟩
    | cons ks workers ih =>
      intro S g hw h1 h2
      obtain ⟨w1, w2⟩ := GridSummary.inv_scanWorker ops bs hc ks (hw ks (by simp))
      have := ih (S ++ ks) (GridSummary.merge g (GridSummary.scanWorker ops bs ks))
        (fun ks' h' => hw ks' (by simp [h']))
        (GridSummary.minInv_merge ops bs hc S ks g _ h1 w1)
        (GridSummary.maxInv_merge ops bs hc S ks g _ h2 w2)
      simpa using this
  have := key workers [] GridSummary.Extremes.init hw
    (Or.inl ⟨rfl, rfl, rfl, rfl⟩) (Or.inl ⟨rfl, rfl, rfl, rfl⟩)
  simpa [GridSummary.gridExtremes] using this

/-- The point count of a box is never negative. -/
theorem Box.d_numPts_nonneg {d : Nat} (b : Box d) : 0 ≤ b.d_numPts := by
  unfold Box.d_numPts
  split_ifs with h
  · apply Finset.prod_nonneg
    intro i _
    have := h i
    exact_mod_cast (by omega : (0 : Int) ≤ b.bigend i - b.smallend i + 1)
  · exact le_refl _

/-- Pairwise distinct lattice points of a box are at most as many as the box has points. -/
theorem Box.length_le_d_numPts {d : Nat} (b : Box d) (pts : List (Fin d → Int))
    (hnd : pts.Nodup) (hin : ∀ p ∈ pts, b.contains p) : (pts.length : ℚ) ≤ b.d_numPts := by
  by_cases hok : b.ok
  · have hsub : pts.toFinset ⊆
        Fintype.piFinset (fun i => Finset.Icc (b.smallend i) (b.bigend i)) := by
      intro p hp
      rw [List.mem_toFinset] at hp
      rw [Fintype.mem_piFinset]
      intro i
      rw [Finset.mem_Icc]
      exact hin p hp i
    have hcard := Finset.card_le_card hsub
    rw [List.toFinset_card_of_nodup hnd, Fintype.card_piFinset] at hcard
    have hprod : ((∏ i, (Finset.Icc (b.smallend i) (b.bigend i)).card : Nat) : ℚ) =
        b.d_numPts := by
      unfold Box.d_numPts
      rw [if_pos hok, Nat.cast_prod]
      apply Finset.prod_congr rfl
      intro i _
      rw [Int.card_Icc]
      have h1 : (0 : Int) ≤ b.bigend i + 1 - b.smallend i := by
        have := hok i
        omega
      have h2 : (((b.bigend i + 1 - b.smallend i).toNat : Int)) = b.bigend i + 1 - b.smallend i :=
        Int.toNat_of_nonneg h1
      have h3 : (((b.bigend i + 1 - b.smallend i).toNat : Int) : ℚ) =
          ((b.bigend i + 1 - b.smallend i : Int) : ℚ) := by rw [h2]
      have h4 : b.bigend i - b.smallend i + 1 = b.bigend i + 1 - b.smallend i := by ring
      rw [h4, ← h3]
      norm_cast
    rw [← hprod]
    exact_mod_cast hcard
  · have hnil : pts = [] := by
      cases pts with
      | nil => rfl
      | cons p ps =>
        exfalso
        apply hok
        intro i
        have := hin p (by simp) i
        omega
    rw [hnil]
    simpa using b.d_numPts_nonneg

theorem cell2_zero (x y : Int) : cell2 x y 0 = x := rfl

theorem cell2_one (x y : Int) : cell2 x y 1 = y := rfl

/-- The point count of a two-dimensional box with positive side lengths. -/
theorem Box.d_numPts_two (b : Box 2) (w h : Int)
    (hw : b.bigend 0 - b.smallend 0 + 1 = w) (hh : b.bigend 1 - b.smallend 1 + 1 = h)
    (wpos : 0 < w) (hpos : 0 < h) : b.d_numPts = (w : ℚ) * (h : ℚ) := by
  have hok : b.ok := by
    intro i
    have hi : i = 0 ∨ i = 1 := by
      fin_cases i <;> simp
    rcases hi with rfl | rfl <;> omega
  rw [Box.d_numPts, if_pos hok, Fin.prod_univ_two, hw, hh]

/-- The efficiency of a two-dimensional cluster from its number of tags and the side
lengths of its box. -/
theorem Cluster.efficiency_two (pts : List (Fin 2 → Int)) (n w h : Int)
    (hn : (pts.length : Int) = n)
    (hw : (minBox pts).bigend 0 - (minBox pts).smallend 0 + 1 = w)
    (hh : (minBox pts).bigend 1 - (minBox pts).smallend 1 + 1 = h)
    (wpos : 0 < w) (hpos : 0 < h) :
    (Cluster.ofTags pts).efficiency = (n : ℚ) / ((w : ℚ) * (h : ℚ)) := by
  have hb := Box.d_numPts_two (minBox pts) w h hw hh wpos hpos
  simp only [Cluster.efficiency, Cluster.box, Cluster.ofTags, Cluster.numTag]
  rw [hb, ← hn]

theorem exPattern_efficiency : (Cluster.ofTags exPattern).efficiency = 1 / 2 := by
  rw [Cluster.efficiency_two exPattern 8 4 4 rfl rfl rfl (by decide) (by decide)]
  norm_num

/-- Every plane that separates the tagged cells of `exPattern` leaves both pieces with the
efficiency of the whole, one half. -/
theorem exPattern_cut (k : Cut 2) (hlo : k.lower exPattern ≠ [])
    (hhi : k.upper exPattern ≠ []) :
    (Cluster.ofTags (k.lower exPattern)).efficiency = (Cluster.ofTags exPattern).efficiency ∧
    (Cluster.ofTags (k.upper exPattern)).efficiency =
      (Cluster.ofTags exPattern).efficiency := by
  obtain ⟨axis, pos⟩ := k
  have haxis : axis = 0 ∨ axis = 1 := by
    fin_cases axis <;> simp
  have h0 : 0 ≤ pos := by
    by_contra hneg
    apply hlo
    have hneg : pos < 0 := by omega
    rcases haxis with rfl | rfl <;>
      simp [Cut.lower, exPattern, cell2_zero, cell2_one] <;> omega
  have h3 : pos < 3 := by
    by_contra hge
    apply hhi
    have hge : 3 ≤ pos := by omega
    rcases haxis with rfl | rfl <;>
      simp [Cut.upper, exPattern, cell2_zero, cell2_one] <;> omega
  rw [exPattern_efficiency]
  rcases haxis with rfl | rfl <;> interval_cases pos
  · constructor
    · rw [Cluster.efficiency_two (Cut.lower ⟨0, 0⟩ exPattern) 2 1 4 rfl rfl rfl
        (by decide) (by decide)]
      norm_num
    · rw [Cluster.efficiency_two (Cut.upper ⟨0, 0⟩ exPattern) 6 3 4 rfl rfl rfl
        (by decide) (by decide)]
      norm_num
  · constructor
    · rw [Cluster.efficiency_two (Cut.lower ⟨0, 1⟩ exPattern) 4 2 4 rfl rfl rfl
        (by decide) (by decide)]
      norm_num
    · rw [Cluster.efficiency_two (Cut.upper ⟨0, 1⟩ exPattern) 4 2 4 rfl rfl rfl
        (by decide) (by decide)]
      norm_num
  · constructor
    · rw [Cluster.efficiency_two (Cut.lower ⟨0, 2⟩ exPattern) 6 3 4 rfl rfl rfl
        (by decide) (by decide)]
      norm_num
    · rw [Cluster.efficiency_two (Cut.upper ⟨0, 2⟩ exPattern) 2 1 4 rfl rfl rfl
        (by decide) (by decide)]
      norm_num
  · constructor
    · rw [Cluster.efficiency_two (Cut.lower ⟨1, 0⟩ exPattern) 2 4 1 rfl rfl rfl
        (by decide) (by decide)]
      norm_num
    · rw [Cluster.efficiency_two (Cut.upper ⟨1, 0⟩ exPattern) 6 4 3 rfl rfl rfl
        (by decide) (by decide)]
      norm_num
  · constructor
    · rw [Cluster.efficiency_two (Cut.lower ⟨1, 1⟩ exPattern) 4 4 2 rfl rfl rfl
        (by decide) (by decide)]
      norm_num
    · rw [Cluster.efficiency_two (Cut.upper ⟨1, 1⟩ exPattern) 4 4 2 rfl rfl rfl
        (by decide) (by decide)]
      norm_num
  · constructor
    · rw [Cluster.efficiency_two (Cut.lower ⟨1, 2⟩ exPattern) 6 4 3 rfl rfl rfl
        (by decide) (by decide)]
      norm_num
    · rw [Cluster.efficiency_two (Cut.upper ⟨1, 2⟩ exPattern) 2 4 1 rfl rfl rfl
        (by decide) (by decide)]
      norm_num
theorem foldl_min_le {α : Type} (f : α → Int) (ps : List α) (a : Int) :
    ps.foldl (fun m q => min m (f q)) a ≤ a := by
  induction ps generalizing a with
  | nil => exact le_refl _
  | cons q qs ih => exact le_trans (ih (min a (f q))) (min_le_left _ _)

theorem le_foldl_max {α : Type} (f : α → Int) (ps : List α) (a : Int) :
    a ≤ ps.foldl (fun m q => max m (f q)) a := by
  induction ps generalizing a with
  | nil => exact le_refl _
  | cons q qs ih => exact le_trans (le_max_left _ _) (ih (max a (f q)))

theorem foldl_min_const {α : Type} (f : α → Int) (ps : List α) (a : Int)
    (h : ∀ q ∈ ps, f q = a) : ps.foldl (fun m q => min m (f q)) a = a := by
  induction ps with
  | nil => rfl
  | cons q qs ih =>
    rw [List.foldl_cons, h q (by simp), min_self]
    exact ih (fun r hr => h r (by simp [hr]))

theorem foldl_max_const {α : Type} (f : α → Int) (ps : List α) (a : Int)
    (h : ∀ q ∈ ps, f q = a) : ps.foldl (fun m q => max m (f q)) a = a := by
  induction ps with
  | nil => rfl
  | cons q qs ih =>
    rw [List.foldl_cons, h q (by simp), max_self]
    exact ih (fun r hr => h r (by simp [hr]))

/-- The minimal box of at least one point is not empty. -/
theorem minBox_ok {d : Nat} (pts : List (Fin d → Int)) (hne : pts ≠ []) : (minBox pts).ok := by
  cases pts with
  | nil => exact absurd rfl hne
  | cons p ps =>
    intro i
    exact le_trans (foldl_min_le (fun q : Fin d → Int => q i) ps (p i))
      (le_foldl_max (fun q : Fin d → Int => q i) ps (p i))

theorem Box.d_numPts_pos {d : Nat} (b : Box d) (hok : b.ok) : 0 < b.d_numPts := by
  rw [Box.d_numPts, if_pos hok]
  apply Finset.prod_pos
  intro i _
  have := hok i
  exact_mod_cast (by omega : (0 : Int) < b.bigend i - b.smallend i + 1)

/-- The minimal box of points that are all the same cell is that one cell. -/
theorem minBox_d_numPts_of_single {d : Nat} (pts : List (Fin d → Int)) (hne : pts ≠ [])
    (hall : ∀ p ∈ pts, ∀ q ∈ pts, p = q) : (minBox pts).d_numPts = 1 := by
  rw [Box.d_numPts, if_pos (minBox_ok pts hne)]
  cases pts with
  | nil => exact absurd rfl hne
  | cons p ps =>
    apply Finset.prod_eq_one
    intro i _
    have hq : ∀ q ∈ ps, (fun r : Fin d → Int => r i) q = p i := by
      intro q hq
      show q i = p i
      rw [hall q (by simp [hq]) p (by simp)]
    have h1 : (minBox (p :: ps)).smallend i = p i := foldl_min_const (fun r : Fin d → Int => r i) ps (p i) hq
    have h2 : (minBox (p :: ps)).bigend i = p i := foldl_max_const (fun r : Fin d → Int => r i) ps (p i) hq
    rw [h1, h2]
    simp

theorem Cluster.tags_ofTags {d : Nat} (pts : List (Fin d → Int)) :
    (Cluster.ofTags pts).tags = pts := by
  simp [Cluster.tags, Cluster.ofTags]

/-- The cluster of at least one tagged point is valid. -/
theorem Cluster.ok_ofTags {d : Nat} (pts : List (Fin d → Int)) (hne : pts ≠ []) :
    (Cluster.ofTags pts).ok = true := by
  have h1 : 0 < (minBox pts).d_numPts := Box.d_numPts_pos _ (minBox_ok pts hne)
  have h2 : 0 < pts.length := List.length_pos.mpr hne
  simp [Cluster.ok, Cluster.ofTags, h1, h2]

theorem Cluster.eff_of_ok {d : Nat} (flag : Bool) (c : Cluster d) (hok : c.ok = true) :
    c.eff flag = .ok c.efficiency := by
  simp [Cluster.eff, BL_ASSERT, hok, Cluster.efficiency, Cluster.box]

theorem Cut.length_lower_add_upper {d : Nat} (k : Cut d) (pts : List (Fin d → Int)) :
    (k.lower pts).length + (k.upper pts).length = pts.length := by
  exact (List.length_eq_length_filter_add
    (fun p : Fin d → Int => decide (p k.axis ≤ k.pos))).symm

theorem ClusterList.weight_cons {d : Nat} (c : Cluster d) (lst : List (Cluster d)) :
    ClusterList.weight (c :: lst) = (2 * c.tags.length - 1) + ClusterList.weight lst := by
  simp [ClusterList.weight]

theorem ClusterList.weight_append {d : Nat} (l1 l2 : List (Cluster d)) :
    ClusterList.weight (l1 ++ l2) = ClusterList.weight l1 + ClusterList.weight l2 := by
  simp [ClusterList.weight]

/-- The loop of `ClusterList::chop` and `ClusterList::new_chop`, run with a policy whose
cuts separate, on clusters of at least one tagged point each and with enough fuel, returns;
every cluster it passes is built from at least one tagged point and reaches the target
efficiency or is one the policy does not split. -/
theorem ClusterList.chopLoop_spec {d : Nat} (flag : Bool) (split : Splitter d)
    (hsep : split.Separates) (e : ℚ) :
    ∀ (fuel : Nat) (done todo : List (Cluster d)),
      (∀ c ∈ todo, ∃ pts, pts ≠ [] ∧ c = Cluster.ofTags pts) →
      ClusterList.weight todo ≤ fuel →
      (∀ c ∈ done, (∃ pts, pts ≠ [] ∧ c = Cluster.ofTags pts) ∧ (e ≤ c.efficiency ∨ split c.tags = none)) →
      ∃ L, ClusterList.chopLoop flag (fun c => c.splitWith split) e fuel done todo = .ok L ∧
        ∀ c ∈ L, (∃ pts, pts ≠ [] ∧ c = Cluster.ofTags pts) ∧ (e ≤ c.efficiency ∨ split c.tags = none) := by
  intro fuel
  induction fuel with
  | zero =>
    intro done todo htodo hw hdone
    cases todo with
    | nil => exact ⟨done, rfl, hdone⟩
    | cons c rest =>
      exfalso
      obtain ⟨pts, hne, rfl⟩ := htodo c (by simp)
      rw [ClusterList.weight_cons, Cluster.tags_ofTags] at hw
      have := List.length_pos.mpr hne
      omega
  | succ fuel ih =>
    intro done todo htodo hw hdone
    cases todo with
    | nil => exact ⟨done, rfl, hdone⟩
    | cons c rest =>
      obtain ⟨pts, hne, rfl⟩ := htodo c (by simp)
      have hrest : ∀ c ∈ rest, ∃ pts, pts ≠ [] ∧ c = Cluster.ofTags pts :=
        fun c hc => htodo c (by simp [hc])
      have hlen := List.length_pos.mpr hne
      rw [ClusterList.weight_cons, Cluster.tags_ofTags] at hw
      have hok := Cluster.ok_ofTags pts hne
      rw [ClusterList.chopLoop, Cluster.eff_of_ok flag _ hok]
      simp only []
      split_ifs with hlt
      · cases hs : split pts with
        | none =>
          simp only [Cluster.splitWith, Cluster.tags_ofTags, hs]
          apply ih _ _ hrest (by omega)
          intro c hc
          rw [List.mem_append, List.mem_singleton] at hc
          rcases hc with hc | rfl
          · exact hdone c hc
          · exact ⟨⟨pts, hne, rfl⟩, Or.inr (by rw [Cluster.tags_ofTags]; exact hs)⟩
        | some k =>
          simp only [Cluster.splitWith, Cluster.tags_ofTags, hs]
          obtain ⟨hlo, hhi⟩ := hsep pts k hs
          have hlo_ok := Cluster.ok_ofTags _ hlo
          have hhi_ok := Cluster.ok_ofTags _ hhi
          have h1 : [Cluster.ofTags (k.lower pts)].filter Cluster.ok =
              [Cluster.ofTags (k.lower pts)] := by simp [hlo_ok]
          have h2 : [Cluster.ofTags (k.upper pts)].filter Cluster.ok =
              [Cluster.ofTags (k.upper pts)] := by simp [hhi_ok]
          rw [h1, h2]
          apply ih _ _ _ _ hdone
          · intro c hc
            rw [List.append_assoc, List.singleton_append, List.mem_cons, List.mem_append,
              List.mem_singleton] at hc
            rcases hc with rfl | hc | rfl
            · exact ⟨_, hlo, rfl⟩
            · exact hrest c hc
            · exact ⟨_, hhi, rfl⟩
          · rw [List.append_assoc, List.singleton_append, ClusterList.weight_cons,
              ClusterList.weight_append, ClusterList.weight_cons, Cluster.tags_ofTags,
              Cluster.tags_ofTags]
            have hsum := k.length_lower_add_upper pts
            have h3 := List.length_pos.mpr hlo
            have h4 := List.length_pos.mpr hhi
            have h5 : ClusterList.weight ([] : List (Cluster d)) = 0 := rfl
            omega
      · apply ih _ _ hrest (by omega)
        intro c hc
        rw [List.mem_append, List.mem_singleton] at hc
        rcases hc with hc | rfl
        · exact hdone c hc
        · exact ⟨⟨pts, hne, rfl⟩, Or.inl (not_lt.mp hlt)⟩
/-- The example plane along an axis has tagged points on both sides. -/
theorem candidateCut_separates {d : Nat} (pts : List (Fin d → Int)) (i : Fin d) (k : Cut d)
    (h : candidateCut pts i = some k) : k.lower pts ≠ [] ∧ k.upper pts ≠ [] := by
  cases pts with
  | nil => simp [candidateCut] at h
  | cons p ps =>
    simp only [candidateCut] at h
    cases hq : ps.find? (fun q => decide (q i ≠ p i)) with
    | none =>
      rw [hq] at h
      simp at h
    | some q =>
    rw [hq] at h
    have hk : k = { axis := i, pos := min (p i) (q i) } := (Option.some.inj h).symm
    subst hk
    have hqmem : q ∈ p :: ps := List.mem_cons_of_mem _ (List.mem_of_find?_eq_some hq)
    have hpmem : p ∈ p :: ps := List.mem_cons_self _ _
    have hne : q i ≠ p i := by
      have := List.find?_some hq
      simpa using this
    by_cases hle : p i ≤ q i
    · have hlt : p i < q i := lt_of_le_of_ne hle (Ne.symm hne)
      constructor
      · apply List.ne_nil_of_mem
        show p ∈ Cut.lower _ (p :: ps)
        rw [Cut.lower, List.mem_filter]
        refine ⟨hpmem, ?_⟩
        simp [min_eq_left hle]
      · apply List.ne_nil_of_mem
        show q ∈ Cut.upper _ (p :: ps)
        rw [Cut.upper, List.mem_filter]
        refine ⟨hqmem, ?_⟩
        simp [min_eq_left hle, hlt]
    · have hlt : q i < p i := not_le.mp hle
      constructor
      · apply List.ne_nil_of_mem
        show q ∈ Cut.lower _ (p :: ps)
        rw [Cut.lower, List.mem_filter]
        refine ⟨hqmem, ?_⟩
        simp [min_eq_right hlt.le]
      · apply List.ne_nil_of_mem
        show p ∈ Cut.upper _ (p :: ps)
        rw [Cut.upper, List.mem_filter]
        refine ⟨hpmem, ?_⟩
        simp [min_eq_right hlt.le, hlt]

theorem exBasic_separates {d : Nat} : (exBasic : Splitter d).Separates := by
  intro pts k h
  have hmem := List.mem_of_mem_head? h
  rw [List.mem_filterMap] at hmem
  obtain ⟨i, _, hi⟩ := hmem
  exact candidateCut_separates pts i k hi

theorem exBasic_basic {d : Nat} : (exBasic : Splitter d).Basic := by
  intro pts h
  have hnil : (List.finRange d).filterMap (candidateCut pts) = [] := by
    simpa [exBasic] using h
  have hall : ∀ i : Fin d, candidateCut pts i = none := by
    intro i
    rw [List.filterMap_eq_nil_iff] at hnil
    exact hnil i (List.mem_finRange i)
  cases pts with
  | nil => intro p hp; simp at hp
  | cons p0 ps =>
    have heq : ∀ q ∈ p0 :: ps, q = p0 := by
      intro q hq
      rcases List.mem_cons.mp hq with rfl | hq
      · rfl
      · funext i
        have hi := hall i
        simp only [candidateCut] at hi
        cases hf : ps.find? (fun q => decide (q i ≠ p0 i)) with
        | some r =>
          rw [hf] at hi
          simp at hi
        | none =>
          have := List.find?_eq_none.mp hf q hq
          simpa using this
    intro p hp q hq
    rw [heq p hp, heq q hq]

theorem exRevised_separates {d : Nat} : (exRevised : Splitter d).Separates := by
  intro pts k h
  have hmem := List.mem_of_find?_eq_some h
  rw [List.mem_filterMap] at hmem
  obtain ⟨i, _, hi⟩ := hmem
  exact candidateCut_separates pts i k hi

theorem exRevised_revised {d : Nat} : (exRevised : Splitter d).Revised := by
  intro pts k h
  have := List.find?_some h
  simp only [Bool.not_eq_true', decide_eq_false_iff_not] at this
  exact this
/-- The scenario of two far-apart tagged cells: `chop (0.9)` with the example basic split
separates them into two clusters of one cell each. -/
theorem ClusterList.chop_two_far_cells :
    ClusterList.chop true exBasic (9 / 10) 4 (ClusterList.ofTags [cell2 0 0, cell2 9 9]) =
      .ok [Cluster.ofTags [cell2 0 0], Cluster.ofTags [cell2 9 9]] := by
  have hsplit : (exBasic : Splitter 2) [cell2 0 0, cell2 9 9] = some ⟨0, 0⟩ := by
    simp [exBasic, candidateCut, List.finRange, cell2_zero, cell2_one]
  have hlo : Cut.lower ⟨0, 0⟩ [cell2 0 0, cell2 9 9] = [cell2 0 0] := rfl
  have hhi : Cut.upper ⟨0, 0⟩ [cell2 0 0, cell2 9 9] = [cell2 9 9] := rfl
  have hok0 := Cluster.ok_ofTags [cell2 0 0, cell2 9 9] (by simp)
  have hok1 := Cluster.ok_ofTags [cell2 0 0] (by simp)
  have hok2 := Cluster.ok_ofTags [cell2 9 9] (by simp)
  have he0 : (Cluster.ofTags [cell2 0 0, cell2 9 9]).efficiency = 2 / 100 := by
    rw [Cluster.efficiency_two [cell2 0 0, cell2 9 9] 2 10 10 rfl rfl rfl (by decide) (by decide)]
    norm_num
  have he1 : (Cluster.ofTags [cell2 0 0]).efficiency = 1 := by
    rw [Cluster.efficiency_two [cell2 0 0] 1 1 1 rfl rfl rfl (by decide) (by decide)]
    norm_num
  have he2 : (Cluster.ofTags [cell2 9 9]).efficiency = 1 := by
    rw [Cluster.efficiency_two [cell2 9 9] 1 1 1 rfl rfl rfl (by decide) (by decide)]
    norm_num
  rw [ClusterList.chop, ClusterList.ofTags, ClusterList.chopLoop,
    Cluster.eff_of_ok true _ hok0, he0]
  simp only [Cluster.chop, Cluster.splitWith, Cluster.tags_ofTags, hsplit, hlo, hhi]
  rw [if_pos (by norm_num)]
  simp only [List.filter_cons, hok1, hok2, if_true, List.filter_nil, List.singleton_append,
    List.nil_append, List.append_nil]
  rw [ClusterList.chopLoop, Cluster.eff_of_ok true _ hok1, he1]
  simp only []
  rw [if_neg (by norm_num), ClusterList.chopLoop, Cluster.eff_of_ok true _ hok2, he2]
  simp only []
  rw [if_neg (by norm_num)]
  rfl

end Lemmas

/-! ## The claims about `AmrCore::regrid` -/

section Claims

variable {BA DM U Tm : Type}

/-- C1: for an old level `lev` with `lbase < lev ≤ min (new_finest, finest_level)`, the call
`regrid (lbase, time)` completes and makes none of the calls `MakeDistributionMap`,
`RemakeLevel`, `SetBoxArray`, `SetDistributionMap` for `lev` if and only if the proposed
covering `new_grids[lev]` equals `grids[lev]` and the next coarser level is `lbase` itself or
has `new_grids[lev-1]` equal to `grids[lev-1]`. -/
theorem regrid_old_level_untouched_iff [DecidableEq BA] [Inhabited BA] [Inhabited DM]
    {cb : Callbacks BA DM U Tm} (hloc : cb.LevelLocal)
    (fuel lbase : Nat) (time : Tm) (s : AmrCore BA DM U) (hlb : lbase < s.max_level)
    (hnf : new_finest cb lbase time s ≤ s.finest_level + 1)
    (hfuel : s.finest_level - new_finest cb lbase time s ≤ fuel)
    (lev : Nat) (h1 : lbase < lev) (h2 : lev ≤ min (new_finest cb lbase time s) s.finest_level) :
    ∃ s' tr, regrid cb fuel lbase time s = .ok (s', tr) ∧
      ((∀ e ∈ tr, e.level = some lev → e.touches = false) ↔
        ((new_grids cb lbase time s)[lev]? = some (s.grids lev) ∧
          (lev = lbase + 1 ∨
            (new_grids cb lbase time s)[lev - 1]? = some (s.grids (lev - 1))))) := by
  obtain ⟨s', tr, hrun, -, hin, -, -⟩ := regrid_spec hloc fuel lbase time s hlb hnf hfuel
  refine ⟨s', tr, hrun, ?_⟩
  obtain ⟨sL, cL, sL', cL', e1, e2, e3, e4, e5, -, -⟩ := hin lev h1 (by omega)
  have hold : lev ≤ s.finest_level := by omega
  have e4 := e4 hold
  obtain ⟨g, hg, h | ⟨pre, d, sb, sc, call, tail, htr, -, hc⟩⟩ := regridLevel_cases e5
  · obtain ⟨-, rfl, hcL, -, -, hnil⟩ := h
    rw [hg, e2]
    have hr : lev = lbase + 1 ∨
        (new_grids cb lbase time s)[lev - 1]? = some (s.grids (lev - 1)) := by
      by_cases hl : lev = lbase + 1
      · exact Or.inl hl
      · right
        rw [hcL, if_neg hl] at e4
        simpa using e4
    refine ⟨fun _ => ⟨rfl, hr⟩, fun _ e he hlev => ?_⟩
    have : e ∈ eventsAt lev tr := mem_eventsAt.2 ⟨he, hlev⟩
    rw [hnil] at this
    simp at this
  · have hcall : call ∈ tr ∧ call.level = some lev := by
      apply mem_eventsAt.1
      rw [htr]
      simp
    constructor
    · intro hun
      exfalso
      rcases hc with ⟨-, -, -, -, -, -, -, -, rfl⟩ | ⟨-, -, -, -, -, -, -, rfl⟩ | ⟨hnew, -⟩
      · simpa [Event.touches] using hun _ hcall.1 hcall.2
      · simpa [Event.touches] using hun _ hcall.1 hcall.2
      · omega
    · rintro ⟨hsame, hco⟩
      exfalso
      rcases hc with ⟨-, -, hcL, -⟩ | ⟨-, hne, -⟩ | ⟨hnew, -⟩
      · rw [hcL] at e4
        rcases hco with hl | hco
        · simp [hl] at e4
        · by_cases hl : lev = lbase + 1
          · simp [hl] at e4
          · rw [if_neg hl] at e4
            simp [hco] at e4
      · rw [hg] at hsame
        exact hne ((Option.some.inj hsame).trans e2.symm)
      · omega

theorem regrid_old_level_untouched_iff_witness :
    ∃ s' tr, regrid (exCb 2 [0, 31, 12] false) 5 0 7 exState = .ok (s', tr) ∧
      ((∀ e ∈ tr, e.level = some 2 → e.touches = false) ↔
        ((new_grids (exCb 2 [0, 31, 12] false) 0 7 exState)[2]? = some (exState.grids 2) ∧
          (2 = 0 + 1 ∨ (new_grids (exCb 2 [0, 31, 12] false) 0 7 exState)[2 - 1]? =
            some (exState.grids (2 - 1))))) :=
  regrid_old_level_untouched_iff (exCb_levelLocal _ _ _) 5 0 7 exState (by decide) (by decide)
    (by decide) 2 (by decide) (by decide)

/-- C2: for an old level `lev` (`lbase < lev ≤ min (new_finest, finest_level)`) whose covering
changed or whose next coarser level (above `lbase`) has a changed covering, `regrid`
completes and its calls for `lev` are, in order: when the covering changed,
`MakeDistributionMap (lev, new_grids[lev])`, then `RemakeLevel` with the regrid time,
`new_grids[lev]` and the mapping just returned, then `SetBoxArray`, then at most one
`SetDistributionMap`; when it did not change, `RemakeLevel` with the regrid time, the old
`grids[lev]` and the old `dmap[lev]`, then `SetBoxArray`, then at most one
`SetDistributionMap`, and no `MakeDistributionMap`. -/
theorem regrid_old_level_remade [DecidableEq BA] [Inhabited BA] [Inhabited DM]
    {cb : Callbacks BA DM U Tm} (hloc : cb.LevelLocal)
    (fuel lbase : Nat) (time : Tm) (s : AmrCore BA DM U) (hlb : lbase < s.max_level)
    (hnf : new_finest cb lbase time s ≤ s.finest_level + 1)
    (hfuel : s.finest_level - new_finest cb lbase time s ≤ fuel)
    (lev : Nat) (h1 : lbase < lev) (h2 : lev ≤ min (new_finest cb lbase time s) s.finest_level)
    (hch : (new_grids cb lbase time s)[lev]? ≠ some (s.grids lev) ∨
      (lev ≠ lbase + 1 ∧ (new_grids cb lbase time s)[lev - 1]? ≠ some (s.grids (lev - 1)))) :
    ∃ s' tr g, regrid cb fuel lbase time s = .ok (s', tr) ∧
      (new_grids cb lbase time s)[lev]? = some g ∧
      (g ≠ s.grids lev →
        ∃ sL tail, sL.finest_level = s.finest_level ∧ sL.grids lev = s.grids lev ∧
          sL.dmap lev = s.dmap lev ∧
          eventsAt lev tr =
            [Event.MakeDistributionMap lev g (cb.MakeDistributionMap lev g sL).1,
              Event.RemakeLevel lev time g (cb.MakeDistributionMap lev g sL).1,
              Event.SetBoxArray lev g] ++ tail ∧
          (tail = [] ∨
            tail = [Event.SetDistributionMap lev (cb.MakeDistributionMap lev g sL).1])) ∧
      (g = s.grids lev →
        ∃ tail, eventsAt lev tr =
            [Event.RemakeLevel lev time (s.grids lev) (s.dmap lev),
              Event.SetBoxArray lev (s.grids lev)] ++ tail ∧
          (tail = [] ∨ tail = [Event.SetDistributionMap lev (s.dmap lev)])) := by
  obtain ⟨s', tr, hrun, -, hin, -, -⟩ := regrid_spec hloc fuel lbase time s hlb hnf hfuel
  obtain ⟨sL, cL, sL', cL', e1, e2, e3, e4, e5, -, -⟩ := hin lev h1 (by omega)
  have hold : lev ≤ s.finest_level := by omega
  have e4 := e4 hold
  obtain ⟨g, hg, h | ⟨pre, d, sb, sc, call, tail, htr, hi, hc⟩⟩ := regridLevel_cases e5
  · exfalso
    obtain ⟨-, hgs, hcL, -, -, -⟩ := h
    rw [hcL] at e4
    rcases hch with hch | ⟨hl, hch⟩
    · exact hch (by rw [hg, hgs, e2])
    · rw [if_neg hl] at e4
      simp [hch] at e4
  · refine ⟨s', tr, g, hrun, hg, ?_, ?_⟩
    · intro hne
      rcases hc with ⟨-, hgs, -⟩ | ⟨-, -, -, rfl, rfl, -, -, rfl⟩ | ⟨hnew, -⟩
      · exact absurd (hgs.trans e2) hne
      · refine ⟨sL, tail, e1, e2, e3, ?_, ?_⟩
        · rw [htr]; rfl
        · rcases hi with ⟨-, -, rfl⟩ | ⟨-, -, rfl⟩
          · exact Or.inr rfl
          · exact Or.inl rfl
      · omega
    · intro heq
      rcases hc with ⟨-, -, -, -, rfl, rfl, -, -, rfl⟩ | ⟨-, hne, -⟩ | ⟨hnew, -⟩
      · refine ⟨tail, ?_, ?_⟩
        · rw [htr, heq, e3]; rfl
        · rcases hi with ⟨-, -, rfl⟩ | ⟨-, -, rfl⟩
          · exact Or.inr (by rw [e3])
          · exact Or.inl rfl
      · exact absurd (heq.trans e2.symm) hne
      · omega

theorem regrid_old_level_remade_witness :
    ∃ s' tr g, regrid (exCb 2 [0, 31, 12] false) 5 0 7 exState = .ok (s', tr) ∧
      (new_grids (exCb 2 [0, 31, 12] false) 0 7 exState)[2]? = some g ∧
      (g ≠ exState.grids 2 →
        ∃ sL tail, sL.finest_level = exState.finest_level ∧ sL.grids 2 = exState.grids 2 ∧
          sL.dmap 2 = exState.dmap 2 ∧
          eventsAt 2 tr =
            [Event.MakeDistributionMap 2 g
                ((exCb 2 [0, 31, 12] false).MakeDistributionMap 2 g sL).1,
              Event.RemakeLevel 2 7 g ((exCb 2 [0, 31, 12] false).MakeDistributionMap 2 g sL).1,
              Event.SetBoxArray 2 g] ++ tail ∧
          (tail = [] ∨ tail = [Event.SetDistributionMap 2
            ((exCb 2 [0, 31, 12] false).MakeDistributionMap 2 g sL).1])) ∧
      (g = exState.grids 2 →
        ∃ tail, eventsAt 2 tr =
            [Event.RemakeLevel 2 7 (exState.grids 2) (exState.dmap 2),
              Event.SetBoxArray 2 (exState.grids 2)] ++ tail ∧
          (tail = [] ∨ tail = [Event.SetDistributionMap 2 (exState.dmap 2)])) :=
  regrid_old_level_remade (exCb_levelLocal _ _ _) 5 0 7 exState (by decide) (by decide)
    (by decide) 2 (by decide) (by decide) (by decide)

/-- C3: whenever the loop body of `regrid` for level `lev` issues a lifecycle callback (the
level is remade or newly created), with `sb` the object just before the callback, `sc` the
object just after it and `d` the mapping passed to it: the covering passed is installed with
`SetBoxArray`; if the counter `num_setdm` differs between `sb` and `sc`, `regrid` makes no
`SetDistributionMap` call and the mappings (and the counter) the callback left stay as they
are; if the counter is the same, `regrid` makes exactly one `SetDistributionMap` call, which
installs `d` for `lev`. -/
theorem regridLevel_installs_mapping_once [DecidableEq BA] (cb : Callbacks BA DM U Tm) (time : Tm)
    (ng : List BA) (lev : Nat) (s s1 : AmrCore BA DM U) (c c1 : Bool)
    (tr : List (Event BA DM Tm)) (h : regridLevel cb time ng lev s c = .ok (s1, c1, tr))
    (hcall : tr ≠ []) :
    ∃ g d sb sc, ng[lev]? = some g ∧
      ((lev ≤ s.finest_level ∧ g = s.grids lev ∧ d = s.dmap lev ∧ sb = s ∧
          sc = cb.RemakeLevel lev time g d sb ∧ Event.RemakeLevel lev time g d ∈ tr) ∨
        (lev ≤ s.finest_level ∧ g ≠ s.grids lev ∧ d = (cb.MakeDistributionMap lev g s).1 ∧
          sb = (cb.MakeDistributionMap lev g s).2 ∧
          sc = cb.RemakeLevel lev time g d sb ∧ Event.RemakeLevel lev time g d ∈ tr) ∨
        (s.finest_level < lev ∧ d = (cb.MakeDistributionMap lev g s).1 ∧
          sb = (cb.MakeDistributionMap lev g s).2 ∧
          sc = cb.MakeNewLevelFromCoarse lev time g d sb ∧
          Event.MakeNewLevelFromCoarse lev time g d ∈ tr)) ∧
      Event.SetBoxArray lev g ∈ tr ∧ s1.grids lev = g ∧
      (sc.num_setdm ≠ sb.num_setdm →
        tr.filter Event.isSetDistributionMap = [] ∧ s1.dmap = sc.dmap ∧
          s1.num_setdm = sc.num_setdm) ∧
      (sc.num_setdm = sb.num_setdm →
        tr.filter Event.isSetDistributionMap = [Event.SetDistributionMap lev d] ∧
          s1.dmap lev = d ∧ s1.num_setdm = sc.num_setdm + 1) := by
  obtain ⟨g, hg, h | ⟨pre, d, sb, sc, call, tail, rfl, hi, hc⟩⟩ := regridLevel_cases h
  · exact absurd h.2.2.2.2.2 hcall
  · have hpre : pre.filter Event.isSetDistributionMap = [] ∧
        call.isSetDistributionMap = false := by
      rcases hc with ⟨-, -, -, -, rfl, -, -, -, rfl⟩ | ⟨-, -, -, rfl, -, -, -, rfl⟩ |
        ⟨-, -, rfl, -, -, -, rfl⟩ <;> simp [Event.isSetDistributionMap]
    refine ⟨g, d, sb, sc, hg, ?_, by simp, ?_, ?_, ?_⟩
    · rcases hc with ⟨a1, a2, -, -, -, a3, a4, a5, rfl⟩ | ⟨a1, a2, -, -, a3, a4, a5, rfl⟩ |
        ⟨a1, -, -, a2, a3, a4, rfl⟩
      · exact Or.inl ⟨a1, a2, a3, a4, a5, by simp⟩
      · exact Or.inr (Or.inl ⟨a1, a2, a3, a4, a5, by simp⟩)
      · exact Or.inr (Or.inr ⟨a1, a2, a3, a4, by simp⟩)
    · rcases hi with ⟨-, rfl, -⟩ | ⟨-, rfl, -⟩ <;>
        simp [AmrCore.SetBoxArray, AmrCore.SetDistributionMap]
    · intro hne
      rcases hi with ⟨heq, -, -⟩ | ⟨-, rfl, rfl⟩
      · exact absurd heq.symm hne
      · refine ⟨?_, rfl, rfl⟩
        rw [List.filter_append, hpre.1, List.filter_cons, hpre.2]
        simp [Event.isSetDistributionMap]
    · intro heq
      rcases hi with ⟨-, rfl, rfl⟩ | ⟨hne, -, -⟩
      · refine ⟨?_, by simp [AmrCore.SetDistributionMap], rfl⟩
        rw [List.filter_append, hpre.1, List.filter_cons, hpre.2]
        simp [Event.isSetDistributionMap]
      · exact absurd heq.symm hne

theorem regridLevel_installs_mapping_once_witness :
    ∃ s1 c1 tr, regridLevel (exCb 2 [0, 31, 12] true) 7 [0, 31, 12, 0] 1 exState false =
        .ok (s1, c1, tr) ∧ tr ≠ [] ∧
      ∃ g d sb sc, [0, 31, 12, 0][1]? = some g ∧
        ((1 ≤ exState.finest_level ∧ g = exState.grids 1 ∧ d = exState.dmap 1 ∧ sb = exState ∧
            sc = (exCb 2 [0, 31, 12] true).RemakeLevel 1 7 g d sb ∧
            Event.RemakeLevel 1 7 g d ∈ tr) ∨
          (1 ≤ exState.finest_level ∧ g ≠ exState.grids 1 ∧
            d = ((exCb 2 [0, 31, 12] true).MakeDistributionMap 1 g exState).1 ∧
            sb = ((exCb 2 [0, 31, 12] true).MakeDistributionMap 1 g exState).2 ∧
            sc = (exCb 2 [0, 31, 12] true).RemakeLevel 1 7 g d sb ∧
            Event.RemakeLevel 1 7 g d ∈ tr) ∨
          (exState.finest_level < 1 ∧
            d = ((exCb 2 [0, 31, 12] true).MakeDistributionMap 1 g exState).1 ∧
            sb = ((exCb 2 [0, 31, 12] true).MakeDistributionMap 1 g exState).2 ∧
            sc = (exCb 2 [0, 31, 12] true).MakeNewLevelFromCoarse 1 7 g d sb ∧
            Event.MakeNewLevelFromCoarse 1 7 g d ∈ tr)) ∧
        Event.SetBoxArray 1 g ∈ tr ∧ s1.grids 1 = g ∧
        (sc.num_setdm ≠ sb.num_setdm →
          tr.filter Event.isSetDistributionMap = [] ∧ s1.dmap = sc.dmap ∧
            s1.num_setdm = sc.num_setdm) ∧
        (sc.num_setdm = sb.num_setdm →
          tr.filter Event.isSetDistributionMap = [Event.SetDistributionMap 1 d] ∧
            s1.dmap 1 = d ∧ s1.num_setdm = sc.num_setdm + 1) :=
  ⟨_, _, _, rfl, by decide,
    regridLevel_installs_mapping_once (exCb 2 [0, 31, 12] true) 7 [0, 31, 12, 0] 1 exState _
      false _ _ rfl (by decide)⟩

/-- C4: for a level `lev` above `lbase` that did not exist before
(`finest_level < lev ≤ new_finest`), `regrid` completes and its calls for `lev` are, in
order, `MakeDistributionMap (lev, new_grids[lev])`, `MakeNewLevelFromCoarse` with the regrid
time, `new_grids[lev]` and the mapping just returned, `SetBoxArray (lev, new_grids[lev])`
and at most one `SetDistributionMap`; there is no `RemakeLevel` for `lev`, nothing is
assumed about the coarser levels, and afterwards `grids[lev]` is `new_grids[lev]`. -/
theorem regrid_new_level_created [DecidableEq BA] [Inhabited BA] [Inhabited DM]
    {cb : Callbacks BA DM U Tm} (hloc : cb.LevelLocal)
    (fuel lbase : Nat) (time : Tm) (s : AmrCore BA DM U) (hlb : lbase < s.max_level)
    (hnf : new_finest cb lbase time s ≤ s.finest_level + 1)
    (hfuel : s.finest_level - new_finest cb lbase time s ≤ fuel)
    (lev : Nat) (h0 : lbase < lev) (h1 : s.finest_level < lev)
    (h2 : lev ≤ new_finest cb lbase time s) :
    ∃ s' tr g sL tail, regrid cb fuel lbase time s = .ok (s', tr) ∧
      (new_grids cb lbase time s)[lev]? = some g ∧
      sL.finest_level = s.finest_level ∧ sL.grids lev = s.grids lev ∧
      sL.dmap lev = s.dmap lev ∧
      eventsAt lev tr =
        [Event.MakeDistributionMap lev g (cb.MakeDistributionMap lev g sL).1,
          Event.MakeNewLevelFromCoarse lev time g (cb.MakeDistributionMap lev g sL).1,
          Event.SetBoxArray lev g] ++ tail ∧
      (tail = [] ∨ tail = [Event.SetDistributionMap lev (cb.MakeDistributionMap lev g sL).1]) ∧
      s'.grids lev = g := by
  obtain ⟨s', tr, hrun, -, hin, -, -⟩ := regrid_spec hloc fuel lbase time s hlb hnf hfuel
  obtain ⟨sL, cL, sL', cL', e1, e2, e3, -, e5, e6, -⟩ := hin lev h0 h2
  have hgr := regridLevel_grids e5
  obtain ⟨g, hg, h | ⟨pre, d, sb, sc, call, tail, htr, hi, hc⟩⟩ := regridLevel_cases e5
  · omega
  · rcases hc with ⟨hold, -⟩ | ⟨hold, -⟩ | ⟨-, -, rfl, rfl, -, -, rfl⟩
    · omega
    · omega
    · refine ⟨s', tr, g, sL, tail, hrun, hg, e1, e2, e3, ?_, ?_, ?_⟩
      · rw [htr]; rfl
      · rcases hi with ⟨-, -, rfl⟩ | ⟨-, -, rfl⟩
        · exact Or.inr rfl
        · exact Or.inl rfl
      · rw [hg] at hgr
        rw [e6]
        exact (Option.some.inj hgr).symm

theorem regrid_new_level_created_witness :
    ∃ s' tr g sL tail, regrid (exCb 3 [0, 11, 12, 13] true) 0 0 7 exState = .ok (s', tr) ∧
      (new_grids (exCb 3 [0, 11, 12, 13] true) 0 7 exState)[3]? = some g ∧
      sL.finest_level = exState.finest_level ∧ sL.grids 3 = exState.grids 3 ∧
      sL.dmap 3 = exState.dmap 3 ∧
      eventsAt 3 tr =
        [Event.MakeDistributionMap 3 g
            ((exCb 3 [0, 11, 12, 13] true).MakeDistributionMap 3 g sL).1,
          Event.MakeNewLevelFromCoarse 3 7 g
            ((exCb 3 [0, 11, 12, 13] true).MakeDistributionMap 3 g sL).1,
          Event.SetBoxArray 3 g] ++ tail ∧
      (tail = [] ∨ tail = [Event.SetDistributionMap 3
        ((exCb 3 [0, 11, 12, 13] true).MakeDistributionMap 3 g sL).1]) ∧
      s'.grids 3 = g :=
  regrid_new_level_created (exCb_levelLocal _ _ _) 0 0 7 exState (by decide) (by decide)
    (by decide) 3 (by decide) (by decide) (by decide)

/-- C5: `regrid` completes, and for every old level `lev` with
`new_finest < lev ≤ finest_level` its calls for `lev` are `ClearLevel`, then
`ClearBoxArray`, then `ClearDistributionMap`, after which the covering and the mapping of
`lev` are the default (cleared) values; hence if every level above `finest_level` was
cleared before the call, every level above the new `finest_level` is cleared after it. -/
theorem regrid_clears_dropped_levels [DecidableEq BA] [Inhabited BA] [Inhabited DM]
    {cb : Callbacks BA DM U Tm} (hloc : cb.LevelLocal)
    (fuel lbase : Nat) (time : Tm) (s : AmrCore BA DM U) (hlb : lbase < s.max_level)
    (hnf : new_finest cb lbase time s ≤ s.finest_level + 1)
    (hfuel : s.finest_level - new_finest cb lbase time s ≤ fuel) :
    ∃ s' tr, regrid cb fuel lbase time s = .ok (s', tr) ∧
      (∀ lev, new_finest cb lbase time s < lev → lev ≤ s.finest_level →
        eventsAt lev tr =
          [Event.ClearLevel lev, Event.ClearBoxArray lev, Event.ClearDistributionMap lev] ∧
        s'.grids lev = default ∧ s'.dmap lev = default) ∧
      ((∀ l, s.finest_level < l → s.grids l = default ∧ s.dmap l = default) →
        ∀ l, s'.finest_level < l → s'.grids l = default ∧ s'.dmap l = default) := by
  obtain ⟨s', tr, hrun, hfin, -, hcl, hout, -⟩ :=
    regrid_spec hloc fuel lbase time s hlb hnf hfuel
  refine ⟨s', tr, hrun, hcl, fun hpre l hl => ?_⟩
  rw [hfin] at hl
  by_cases hlf : l ≤ s.finest_level
  · exact (hcl l hl hlf).2
  · obtain ⟨-, a, b⟩ := hout l (Or.inr ⟨hl, by omega⟩)
    rw [a, b]
    exact hpre l (by omega)

theorem regrid_clears_dropped_levels_witness :
    ∃ s' tr, regrid (exCb 0 [0] false) 2 0 7 exState = .ok (s', tr) ∧
      (∀ lev, new_finest (exCb 0 [0] false) 0 7 exState < lev → lev ≤ exState.finest_level →
        eventsAt lev tr =
          [Event.ClearLevel lev, Event.ClearBoxArray lev, Event.ClearDistributionMap lev] ∧
        s'.grids lev = default ∧ s'.dmap lev = default) ∧
      ((∀ l, exState.finest_level < l → exState.grids l = default ∧ exState.dmap l = default) →
        ∀ l, s'.finest_level < l → s'.grids l = default ∧ s'.dmap l = default) :=
  regrid_clears_dropped_levels (exCb_levelLocal _ _ _) 2 0 7 exState (by decide) (by decide)
    (by decide)

/-- C6: if `regrid (lbase, time)` with `lbase < max_level` completes and the functions it
calls in its loops do not overwrite coverings of other levels (in particular when they never
write a covering), then afterwards `finest_level` is the `new_finest` returned by the grid
generator and `grids[lev]` is `new_grids[lev]` for every `lbase < lev ≤ new_finest`. -/
theorem regrid_postcondition [DecidableEq BA] [Inhabited BA] [Inhabited DM]
    {cb : Callbacks BA DM U Tm} (hk : cb.KeepsCoverings)
    (fuel lbase : Nat) (time : Tm) (s s' : AmrCore BA DM U) (tr : List (Event BA DM Tm))
    (hlb : lbase < s.max_level) (hrun : regrid cb fuel lbase time s = .ok (s', tr)) :
    s'.finest_level = new_finest cb lbase time s ∧
      ∀ lev, lbase < lev → lev ≤ new_finest cb lbase time s →
        (new_grids cb lbase time s)[lev]? = some (s'.grids lev) := by
  obtain ⟨s1, tr1, s2, tr2, h1, h2, rfl, -, -⟩ := regrid_ok_inv hlb hrun
  refine ⟨rfl, fun lev hl1 hl2 => ?_⟩
  have hg := (regridLoop_grids hk time _ _ _ _ _ _ _ h1).1 lev (by omega) (by omega)
  have hc := clearLoop_grids hk _ _ _ _ _ h2 lev (by omega)
  rw [hg]
  exact congrArg some hc.symm

theorem regrid_postcondition_witness :
    ∃ s' tr, regrid (exCb 3 [0, 31, 12, 13] false) 0 0 7 exState = .ok (s', tr) ∧
      s'.finest_level = new_finest (exCb 3 [0, 31, 12, 13] false) 0 7 exState ∧
      ∀ lev, 0 < lev → lev ≤ new_finest (exCb 3 [0, 31, 12, 13] false) 0 7 exState →
        (new_grids (exCb 3 [0, 31, 12, 13] false) 0 7 exState)[lev]? = some (s'.grids lev) :=
  ⟨_, _, rfl, regrid_postcondition
    ⟨fun _ _ _ _ _ => rfl, fun _ _ _ _ _ _ _ => rfl, fun _ _ _ _ _ _ _ => rfl,
      fun _ _ _ _ => rfl⟩ 0 0 7 exState _ _ (by decide) rfl⟩

/-- C7: `regrid (lbase, time)` with `lbase ≥ max_level` returns at once: no call is made
(neither the grid generator nor any callback) and the object is unchanged. -/
theorem regrid_noop_of_lbase_ge_max_level [DecidableEq BA] [Inhabited BA] [Inhabited DM]
    (cb : Callbacks BA DM U Tm) (fuel lbase : Nat)
    (time : Tm) (s : AmrCore BA DM U) (h : lbase ≥ s.max_level) :
    regrid cb fuel lbase time s = .ok (s, []) := by
  unfold regrid
  rw [if_pos h]

theorem regrid_noop_of_lbase_ge_max_level_witness :
    regrid (exCb 3 [0, 31, 12, 13] true) 0 3 7 exState = .ok (exState, []) :=
  regrid_noop_of_lbase_ge_max_level (exCb 3 [0, 31, 12, 13] true) 0 3 7 exState (by decide)

/-- C8: provided the grid generator does not write `finest_level`: (1) when `BL_ASSERT` is
compiled in, or the generator returns `new_finest ≤ finest_level + 1`, every completed
`regrid` leaves `finest_level` at most one above its value before the call; (2) under that
bound, and with the vector `new_grids` still holding its `finest_level + 2` entries, `regrid`
never reads `new_grids` outside the vector. -/
theorem regrid_finest_level_bound [DecidableEq BA] [Inhabited BA] [Inhabited DM]
    (cb : Callbacks BA DM U Tm) (fuel lbase : Nat) (time : Tm)
    (s : AmrCore BA DM U)
    (hgf : (cb.MakeNewGrids lbase time (List.replicate (s.finest_level + 2) default)
      s).2.2.finest_level = s.finest_level) :
    ((cb.AMREX_USE_ASSERTION = true ∨ new_finest cb lbase time s ≤ s.finest_level + 1) →
      ∀ s' tr, regrid cb fuel lbase time s = .ok (s', tr) →
        s'.finest_level ≤ s.finest_level + 1) ∧
    (new_finest cb lbase time s ≤ s.finest_level + 1 →
      s.finest_level + 2 ≤ (new_grids cb lbase time s).length →
      regrid cb fuel lbase time s ≠ .error .outOfBounds) := by
  constructor
  · intro hor s' tr hrun
    by_cases hlb : lbase < s.max_level
    · obtain ⟨s1, tr1, s2, tr2, -, -, rfl, -, ha⟩ := regrid_ok_inv hlb hrun
      rw [hgf] at ha
      rcases hor with hen | hb
      · exact ha hen
      · exact hb
    · rw [regrid, if_pos (by omega)] at hrun
      simp only [Except.ok.injEq, Prod.mk.injEq] at hrun
      rw [← hrun.1]
      omega
  · intro hb hsz
    by_cases hlb : lbase < s.max_level
    · obtain ⟨⟨s1, tr1⟩, h1⟩ := regridLoop_ok cb time (new_grids cb lbase time s)
        (new_finest cb lbase time s - lbase) (lbase + 1)
        (cb.MakeNewGrids lbase time (List.replicate (s.finest_level + 2) default) s).2.2 false
        (fun _ => by omega)
      have hc := clearLoop_ne_outOfBounds cb fuel (new_finest cb lbase time s + 1) s1
      have hlb2 : ¬ lbase ≥ s.max_level := by omega
      unfold regrid
      rw [if_neg hlb2]
      simp only [new_finest, new_grids] at h1 hc hb ⊢
      have hassert : BL_ASSERT cb.AMREX_USE_ASSERTION (decide
          ((cb.MakeNewGrids lbase time (List.replicate (s.finest_level + 2) default) s).1 ≤
          (cb.MakeNewGrids lbase time (List.replicate (s.finest_level + 2) default)
            s).2.2.finest_level + 1)) = .ok () := by
        rw [hgf]
        simp [BL_ASSERT, hb]
      simp only [hassert, h1]
      cases h2 : clearLoop cb fuel
          ((cb.MakeNewGrids lbase time (List.replicate (s.finest_level + 2) default) s).1 + 1)
          s1 with
      | error e =>
        simp only [ne_eq, Except.error.injEq]
        rintro rfl
        exact hc h2
      | ok r2 => simp
    · rw [regrid, if_pos (by omega)]
      simp

theorem regrid_finest_level_bound_witness :
    (∃ s' tr, regrid (exCb 3 [0, 11, 12, 13] false) 0 0 7 exState = .ok (s', tr) ∧
      s'.finest_level ≤ exState.finest_level + 1) ∧
    regrid (exCb 3 [0, 11, 12, 13] false) 0 0 7 exState ≠ .error .outOfBounds :=
  ⟨⟨_, _, rfl,
      (regrid_finest_level_bound (exCb 3 [0, 11, 12, 13] false) 0 0 7 exState rfl).1
        (Or.inl rfl) _ _ rfl⟩,
    (regrid_finest_level_bound (exCb 3 [0, 11, 12, 13] false) 0 0 7 exState rfl).2
      (by decide) (by decide)⟩

/-- C9 fails as stated: here the grid generator returns `new_finest = lbase = 0` for a
hierarchy whose finest level is 2, and `regrid` calls `ClearLevel` for levels 1 and 2. -/
theorem regrid_no_tags_counterexample :
    new_finest (exCb 0 [0] false) 0 7 exState = 0 ∧
      (regrid (exCb 0 [0] false) 2 0 7 exState).map Prod.snd =
        .ok [Event.MakeNewGrids 0 7,
          Event.ClearLevel 1, Event.ClearBoxArray 1, Event.ClearDistributionMap 1,
          Event.ClearLevel 2, Event.ClearBoxArray 2, Event.ClearDistributionMap 2] :=
  ⟨rfl, rfl⟩

/-- C9, amended: if the grid generator returns `new_finest = lbase` (no tags at any level),
`regrid` completes with `finest_level = lbase` and its calls are exactly the grid generator
followed by `ClearLevel`, `ClearBoxArray`, `ClearDistributionMap` for each old level
`lbase < lev ≤ finest_level` in increasing order: there is no `RemakeLevel` and no
`MakeNewLevelFromCoarse`, and there is no `ClearLevel` exactly when the old `finest_level`
is at most `lbase`. -/
theorem regrid_no_tags [DecidableEq BA] [Inhabited BA] [Inhabited DM]
    {cb : Callbacks BA DM U Tm} (hloc : cb.LevelLocal)
    (fuel lbase : Nat) (time : Tm) (s : AmrCore BA DM U) (hlb : lbase < s.max_level)
    (hno : new_finest cb lbase time s = lbase) (hle : lbase ≤ s.finest_level + 1)
    (hfuel : s.finest_level - lbase ≤ fuel) :
    ∃ s', regrid cb fuel lbase time s =
        .ok (s', Event.MakeNewGrids lbase time ::
          clearCalls (lbase + 1) (s.finest_level - lbase)) ∧
      s'.finest_level = lbase := by
  obtain ⟨s', tr, hrun, hfin, -, -, -, s1, tr1, h1, rfl⟩ :=
    regrid_spec hloc fuel lbase time s hlb (by omega) (by omega)
  rw [hno] at h1 hfin hrun
  simp only [Nat.sub_self, regridLoop, Except.ok.injEq, Prod.mk.injEq] at h1
  obtain ⟨-, rfl⟩ := h1
  exact ⟨s', by simpa using hrun, hfin⟩

theorem regrid_no_tags_witness :
    ∃ s', regrid (exCb 0 [0] false) 2 0 7 exState =
        .ok (s', Event.MakeNewGrids 0 7 :: clearCalls (0 + 1) (exState.finest_level - 0)) ∧
      s'.finest_level = 0 :=
  regrid_no_tags (exCb_levelLocal _ _ _) 2 0 7 exState (by decide) rfl (by decide)
    (by decide)

/-- C10: in one completed call `regrid (lbase, time)` for which the grid generator returns
`new_finest ≥ lbase`: the levels of the lifecycle callbacks (`RemakeLevel`,
`MakeNewLevelFromCoarse`, `ClearLevel`) in the log are pairwise distinct, so each level
receives at most one; no call of any kind concerns a level `≤ lbase`; the `RemakeLevel` and
`MakeNewLevelFromCoarse` callbacks come in strictly increasing level order, all above
`lbase`; and the log splits into a first part without `ClearLevel` and a second part
without `RemakeLevel` or `MakeNewLevelFromCoarse`. -/
theorem regrid_lifecycle_order [DecidableEq BA] [Inhabited BA] [Inhabited DM]
    (cb : Callbacks BA DM U Tm) (fuel lbase : Nat) (time : Tm)
    (s s' : AmrCore BA DM U) (tr : List (Event BA DM Tm))
    (hrun : regrid cb fuel lbase time s = .ok (s', tr))
    (hge : lbase ≤ new_finest cb lbase time s) :
    (tr.filterMap Event.lifecycleLevel).Nodup ∧
      (∀ l, l ≤ lbase → eventsAt l tr = []) ∧
      (tr.filterMap Event.buildLevel).Pairwise (· < ·) ∧
      (∀ l ∈ tr.filterMap Event.buildLevel, lbase < l) ∧
      ∃ tr1 tr2, tr = tr1 ++ tr2 ∧ (∀ e ∈ tr1, e.clearLevel = none) ∧
        (∀ e ∈ tr2, e.buildLevel = none) := by
  by_cases hlb : lbase < s.max_level
  · obtain ⟨s1, tr1, s2, tr2, h1, h2, -, rfl, -⟩ := regrid_ok_inv hlb hrun
    obtain ⟨a1, a2, a3⟩ := regridLoop_lifecycle cb time _ _ _ _ _ _ _ h1
    obtain ⟨b1, b2, b3⟩ := clearLoop_lifecycle cb _ _ _ _ _ h2
    have hb0 : (tr2.filterMap Event.buildLevel) = [] := by
      rw [List.filterMap_eq_nil_iff]
      exact b1
    have hlc1 : tr1.filterMap Event.lifecycleLevel = tr1.filterMap Event.buildLevel :=
      List.filterMap_congr fun e he => lifecycleLevel_eq_buildLevel (a1 e he)
    have hlc2 : tr2.filterMap Event.lifecycleLevel = tr2.filterMap Event.clearLevel :=
      List.filterMap_congr fun e he => lifecycleLevel_eq_clearLevel (b1 e he)
    have hrange1 : ∀ l ∈ tr1.filterMap Event.buildLevel,
        lbase < l ∧ l ≤ new_finest cb lbase time s := by
      intro l hl
      obtain ⟨e, he, heb⟩ := List.mem_filterMap.1 hl
      obtain ⟨k, h3, h4, h5⟩ := a2 e he
      have := level_of_buildLevel heb
      rw [h3] at this
      have : k = l := Option.some.inj this
      omega
    have hrange2 : ∀ l ∈ tr2.filterMap Event.clearLevel, new_finest cb lbase time s < l := by
      intro l hl
      obtain ⟨e, he, heb⟩ := List.mem_filterMap.1 hl
      obtain ⟨k, h3, h4⟩ := b2 e he
      have := level_of_clearLevel heb
      rw [h3] at this
      have : k = l := Option.some.inj this
      omega
    refine ⟨?_, ?_, ?_, ?_, ?_⟩
    · have hp : ((Event.MakeNewGrids lbase time :: (tr1 ++ tr2)).filterMap
          Event.lifecycleLevel).Pairwise (· < ·) := by
        rw [List.filterMap_cons_none (by rfl), List.filterMap_append, hlc1, hlc2,
          List.pairwise_append]
        refine ⟨a3, b3, fun a ha b hb => ?_⟩
        have := hrange1 a ha
        have := hrange2 b hb
        omega
      exact hp.imp (fun h => Nat.ne_of_lt h)
    · intro l hl
      simp only [eventsAt, List.filter_eq_nil_iff, List.mem_cons, List.mem_append,
        decide_eq_true_eq]
      rintro e (rfl | he | he)
      · simp [Event.level]
      · obtain ⟨k, h3, h4, h5⟩ := a2 e he
        rw [h3]
        simp only [Option.some.injEq]
        omega
      · obtain ⟨k, h3, h4⟩ := b2 e he
        rw [h3]
        simp only [Option.some.injEq]
        omega
    · rw [List.filterMap_cons_none (by rfl), List.filterMap_append, hb0, List.append_nil]
      exact a3
    · rw [List.filterMap_cons_none (by rfl), List.filterMap_append, hb0, List.append_nil]
      exact fun l hl => (hrange1 l hl).1
    · refine ⟨Event.MakeNewGrids lbase time :: tr1, tr2, rfl, ?_, b1⟩
      intro e he
      rcases List.mem_cons.1 he with rfl | he
      · rfl
      · exact a1 e he
  · rw [regrid, if_pos (by omega)] at hrun
    simp only [Except.ok.injEq, Prod.mk.injEq] at hrun
    obtain ⟨-, rfl⟩ := hrun
    refine ⟨by simp, fun _ _ => rfl, by simp, by simp, [], [], rfl, by simp, by simp⟩

theorem regrid_lifecycle_order_witness :
    ∃ s' tr, regrid (exCb 2 [0, 31, 12] false) 5 0 7
        { exState with finest_level := 3, max_level := 4 } = .ok (s', tr) ∧
      0 ≤ new_finest (exCb 2 [0, 31, 12] false) 0 7
        { exState with finest_level := 3, max_level := 4 } ∧
      (tr.filterMap Event.lifecycleLevel).Nodup ∧
      (∀ l, l ≤ 0 → eventsAt l tr = []) ∧
      (tr.filterMap Event.buildLevel).Pairwise (· < ·) ∧
      (∀ l ∈ tr.filterMap Event.buildLevel, 0 < l) ∧
      ∃ tr1 tr2, tr = tr1 ++ tr2 ∧ (∀ e ∈ tr1, e.clearLevel = none) ∧
        (∀ e ∈ tr2, e.buildLevel = none) :=
  ⟨_, _, rfl, by decide,
    regrid_lifecycle_order (exCb 2 [0, 31, 12] false) 5 0 7
      { exState with finest_level := 3, max_level := 4 } _ _ rfl (by decide)⟩

/-- C11: with `BL_ASSERT` compiled in and a grid generator that leaves `finest_level`, `grids`
and `dmap` alone, a call `regrid (lbase, time)` with `lbase < max_level` whose proposed
`new_finest` exceeds `finest_level + 1` stops at the assertion: the only call made before
is the grid generator (no lifecycle callback, no install, no erase), and the object at that
moment has the `finest_level`, `grids` and `dmap` it had before the call. -/
theorem regrid_abort_before_commit [DecidableEq BA] [Inhabited BA] [Inhabited DM]
    (cb : Callbacks BA DM U Tm) (fuel lbase : Nat) (time : Tm) (s : AmrCore BA DM U)
    (hen : cb.AMREX_USE_ASSERTION = true) (hlb : lbase < s.max_level)
    (hbig : s.finest_level + 1 < new_finest cb lbase time s)
    (hgf : (cb.MakeNewGrids lbase time (List.replicate (s.finest_level + 2) default)
      s).2.2.finest_level = s.finest_level)
    (hgg : (cb.MakeNewGrids lbase time (List.replicate (s.finest_level + 2) default)
      s).2.2.grids = s.grids)
    (hgd : (cb.MakeNewGrids lbase time (List.replicate (s.finest_level + 2) default)
      s).2.2.dmap = s.dmap) :
    regrid cb fuel lbase time s = .error .assertion ∧
      ∃ s0, regridAssertFailure cb lbase time s = some (s0, [Event.MakeNewGrids lbase time]) ∧
        s0.finest_level = s.finest_level ∧ s0.grids = s.grids ∧ s0.dmap = s.dmap := by
  have hlb2 : ¬ lbase ≥ s.max_level := by omega
  have hassert : BL_ASSERT cb.AMREX_USE_ASSERTION (decide
      ((cb.MakeNewGrids lbase time (List.replicate (s.finest_level + 2) default) s).1 ≤
      (cb.MakeNewGrids lbase time (List.replicate (s.finest_level + 2) default)
        s).2.2.finest_level + 1)) = .error .assertion := by
    have hb : ¬ (cb.MakeNewGrids lbase time (List.replicate (s.finest_level + 2) default) s).1 ≤
        s.finest_level + 1 := by
      unfold new_finest at hbig
      omega
    rw [hgf, hen]
    simp [BL_ASSERT, hb]
  refine ⟨?_, _, ?_, hgf, hgg, hgd⟩
  · unfold regrid
    rw [if_neg hlb2]
    simp only [hassert]
  · unfold regridAssertFailure
    rw [if_neg hlb2]
    simp only [hassert]

theorem regrid_abort_before_commit_witness :
    regrid (exCb 4 [0, 11, 12, 13, 14] true) 5 0 7 exState = .error .assertion ∧
      ∃ s0, regridAssertFailure (exCb 4 [0, 11, 12, 13, 14] true) 0 7 exState =
          some (s0, [Event.MakeNewGrids 0 7]) ∧
        s0.finest_level = exState.finest_level ∧ s0.grids = exState.grids ∧
        s0.dmap = exState.dmap :=
  regrid_abort_before_commit (exCb 4 [0, 11, 12, 13, 14] true) 5 0 7 exState rfl
    (by decide) (by decide) rfl rfl rfl

/-- C15, the code at the documented Perlmutter environment: with `NERSC_HOST=perlmutter` and
`LMOD_SITE_NAME=perlmutter` set and nothing else, `Initialize` leaves the name empty,
because the first branch tests `LMOD_SYSTEM_NAME` and not `LMOD_SITE_NAME`; the name is
not `nersc.perlmutter`. -/
theorem Machine.name_perlmutter_documented_env (toLower : String → String) :
    Machine.name (Machine.Initialize toLower Machine.perlmutterEnv "") = "" ∧
      Machine.name (Machine.Initialize toLower Machine.perlmutterEnv "") ≠
        "nersc.perlmutter" := by
  have h : Machine.name (Machine.Initialize toLower Machine.perlmutterEnv "") = "" := by
    simp [Machine.name, Machine.Initialize, Machine.perlmutterEnv]
  rw [h]
  exact ⟨rfl, by decide⟩

/-- C14 fails as stated: with assertions compiled in, `compileHost<2>` on a defined parser of
one variable aborts at `AMREX_ASSERT (N == m_nvars)` although the stack limit is respected
and the residual stack size is zero, both when no host executor is cached and when one is
cached (where the claim says the cached executor is returned). -/
theorem IParser.compileHost_counterexample :
    (IParser.compileHost IParser.exExternals 2 (some IParser.exData)).2 =
        .aborted .assertion ∧
      ¬ ((IParser.exExternals.iparser_exe_size () 0).2.1 >
          IParser.exExternals.AMREX_IPARSER_STACK_SIZE) ∧
      (IParser.exExternals.iparser_exe_size () 0).2.2 = 0 ∧
      (IParser.compileHost IParser.exExternals 2
        (some { IParser.exData with m_host_executor := 4096 })).2 = .aborted .assertion := by
  refine ⟨rfl, by decide, rfl, rfl⟩

/-- C14, amended: (1) on an undefined parser `compileHost` returns the empty executor, which
converts to `false`, and changes nothing; (2) on a defined parser without cached host
executor it aborts if and only if assertions are compiled in and `N` differs from `m_nvars`,
or the maximum stack size reported by `iparser_exe_size` exceeds `AMREX_IPARSER_STACK_SIZE`,
or the residual stack size is not zero, and after an abort `m_host_executor` is still null;
(3) with a cached host executor, and the assertion passing or compiled out, it returns that
executor and changes nothing, whatever the other externals are. -/
theorem IParser.compileHost_spec {P : Type} (x : IParser.Externals P) (N : Int) :
    (∀ m_data : Option (IParser.Data P),
      (m_data = none ∨ ∃ d, m_data = some d ∧ d.m_iparser = none) →
        IParser.compileHost x N m_data = (m_data, .returned {}) ∧
          IParser.IParserExecutor.toBool {} = false) ∧
    (∀ (d : IParser.Data P) (parser : P), d.m_iparser = some parser → d.m_host_executor = 0 →
      ((∃ why, (IParser.compileHost x N (some d)).2 = .aborted why) ↔
        ((x.AMREX_USE_ASSERTION = true ∧ N ≠ d.m_nvars) ∨
          (x.iparser_exe_size parser d.m_max_stack_size).2.1 > x.AMREX_IPARSER_STACK_SIZE ∨
          (x.iparser_exe_size parser d.m_max_stack_size).2.2 ≠ 0)) ∧
      (∀ why, (IParser.compileHost x N (some d)).2 = .aborted why →
        ∃ d', (IParser.compileHost x N (some d)).1 = some d' ∧ d'.m_host_executor = 0)) ∧
    (∀ (d : IParser.Data P) (parser : P), d.m_iparser = some parser → d.m_host_executor ≠ 0 →
      (x.AMREX_USE_ASSERTION = false ∨ N = d.m_nvars) →
        IParser.compileHost x N (some d) =
          (some d, .returned { m_host_executor := d.m_host_executor })) := by
  refine ⟨?_, ?_, ?_⟩
  · rintro m_data (rfl | ⟨d, rfl, hd⟩)
    · exact ⟨rfl, rfl⟩
    · exact ⟨by simp [IParser.compileHost, hd], rfl⟩
  · intro d parser hp hnull
    by_cases hassert : x.AMREX_USE_ASSERTION = true ∧ N ≠ d.m_nvars
    · have hb : BL_ASSERT x.AMREX_USE_ASSERTION (decide (N = d.m_nvars)) =
          .error .assertion := by
        simp [BL_ASSERT, hassert.1, hassert.2]
      have hrun : IParser.compileHost x N (some d) = (some d, .aborted .assertion) := by
        simp [IParser.compileHost, hp, hb]
      rw [hrun]
      exact ⟨⟨fun _ => Or.inl hassert, fun _ => ⟨_, rfl⟩⟩, fun _ _ => ⟨d, rfl, hnull⟩⟩
    · have hb : BL_ASSERT x.AMREX_USE_ASSERTION (decide (N = d.m_nvars)) = .ok () := by
        unfold BL_ASSERT
        by_cases hen : x.AMREX_USE_ASSERTION = true
        · have : N = d.m_nvars := by
            by_contra hne
            exact hassert ⟨hen, hne⟩
          simp [this]
        · simp [hen]
      by_cases h1 : (x.iparser_exe_size parser d.m_max_stack_size).2.1 >
          x.AMREX_IPARSER_STACK_SIZE
      · have hrun : IParser.compileHost x N (some d) =
            (some { d with m_exe_size := (x.iparser_exe_size parser d.m_max_stack_size).1,
                           m_max_stack_size :=
                             (x.iparser_exe_size parser d.m_max_stack_size).2.1 },
              .aborted .stackTooSmall) := by
          simp [IParser.compileHost, hp, hb, hnull, h1]
        rw [hrun]
        exact ⟨⟨fun _ => Or.inr (Or.inl h1), fun _ => ⟨_, rfl⟩⟩, fun _ _ => ⟨_, rfl, hnull⟩⟩
      · by_cases h2 : (x.iparser_exe_size parser d.m_max_stack_size).2.2 ≠ 0
        · have hrun : IParser.compileHost x N (some d) =
              (some { d with m_exe_size := (x.iparser_exe_size parser d.m_max_stack_size).1,
                             m_max_stack_size :=
                               (x.iparser_exe_size parser d.m_max_stack_size).2.1 },
                .aborted (.residualStack
                  (x.iparser_exe_size parser d.m_max_stack_size).2.2)) := by
            simp [IParser.compileHost, hp, hb, hnull, h1, h2]
          rw [hrun]
          exact ⟨⟨fun _ => Or.inr (Or.inr h2), fun _ => ⟨_, rfl⟩⟩,
            fun _ _ => ⟨_, rfl, hnull⟩⟩
        · have hnot : ∀ why, (IParser.compileHost x N (some d)).2 ≠ .aborted why := by
            intro why
            simp only [IParser.compileHost, hp, hb, hnull, if_true, h1, if_false, h2]
            split <;> simp
          refine ⟨⟨fun ⟨why, hw⟩ => absurd hw (hnot why), ?_⟩,
            fun why hw => absurd hw (hnot why)⟩
          rintro (h | h | h)
          · exact absurd h hassert
          · exact absurd h h1
          · exact absurd h h2
  · intro d parser hp hcached hok
    have hb : BL_ASSERT x.AMREX_USE_ASSERTION (decide (N = d.m_nvars)) = .ok () := by
      unfold BL_ASSERT
      rcases hok with h | h <;> simp [h]
    simp [IParser.compileHost, hp, hb, hcached]

theorem IParser.compileHost_spec_witness :
    ((∃ why, (IParser.compileHost
          { IParser.exExternals with iparser_exe_size := fun _ _ => (16, 300, 0) } 1
          (some IParser.exData)).2 = .aborted why) ↔
        ((true = true ∧ (1 : Int) ≠ IParser.exData.m_nvars) ∨
          (300 : Int) > 200 ∨ (0 : Int) ≠ 0)) ∧
      (IParser.compileHost IParser.exExternals 1 (some IParser.exData)).2 =
        .returned { m_host_executor := 4096 } :=
  ⟨((IParser.compileHost_spec
      { IParser.exExternals with iparser_exe_size := fun _ _ => (16, 300, 0) } 1).2.1
        IParser.exData () rfl rfl).1, rfl⟩

/-- C16: for a level with more than one grid whose grids can be told from the initial values
(every non-empty box with a volume that fits in a `Long`), and for every way of handing the
iterations `0, ..., numgrid - 1` to workers, each iteration to exactly one worker, with the
workers merging in any order: `imin` and `imax` are valid positions of the box array; the
box at `imin` has the minimum volume of the level and, among the boxes of that volume, the
minimum short side; the box at `imax` has the maximum volume and, among the boxes of that
volume, the maximum long side. -/
theorem GridSummary.gridExtremes_spec {Bx : Type} (ops : GridSummary.BoxOps Bx) (bs : List Bx)
    (workers : List (List Nat)) (hn : 1 < bs.length)
    (hperm : workers.flatten.Perm (List.range bs.length))
    (hc : ∀ bx ∈ bs, GridSummary.Comparable ops bx) :
    ∃ bmin bmax,
      (0 ≤ (GridSummary.gridExtremes ops bs workers).imin ∧
        (GridSummary.gridExtremes ops bs workers).imin < (bs.length : Int) ∧
        bs[(GridSummary.gridExtremes ops bs workers).imin.toNat]? = some bmin) ∧
      (0 ≤ (GridSummary.gridExtremes ops bs workers).imax ∧
        (GridSummary.gridExtremes ops bs workers).imax < (bs.length : Int) ∧
        bs[(GridSummary.gridExtremes ops bs workers).imax.toNat]? = some bmax) ∧
      (∀ bx ∈ bs, ops.volume bmin ≤ ops.volume bx ∧
        (ops.volume bx = ops.volume bmin → ops.shortside bmin ≤ ops.shortside bx)) ∧
      (∀ bx ∈ bs, ops.volume bx ≤ ops.volume bmax ∧
        (ops.volume bx = ops.volume bmax → ops.longside bx ≤ ops.longside bmax)) := by
  have hmem : ∀ k, k ∈ workers.flatten ↔ k < bs.length := by
    intro k
    rw [hperm.mem_iff, List.mem_range]
  have hw : ∀ ks ∈ workers, ∀ k ∈ ks, k < bs.length := by
    intro ks hks k hk
    exact (hmem k).1 (List.mem_flatten.2 ⟨ks, hks, hk⟩)
  obtain ⟨hmin, hmax⟩ := GridSummary.inv_gridExtremes ops bs hc workers hw
  have hne : workers.flatten ≠ [] := by
    intro h0
    have : 0 ∈ workers.flatten := (hmem 0).2 (by omega)
    rw [h0] at this
    simp at this
  rcases hmin with ⟨h0, -⟩ | ⟨k, bx, hk, hb, hi, -, -, hall⟩
  · exact absurd h0 hne
  rcases hmax with ⟨h0, -⟩ | ⟨k', bx', hk', hb', hi', -, -, hall'⟩
  · exact absurd h0 hne
  have hklt : k < bs.length := (hmem k).1 hk
  have hklt' : k' < bs.length := (hmem k').1 hk'
  refine ⟨bx, bx', ⟨by omega, by omega, by rw [hi]; simpa using hb⟩,
    ⟨by omega, by omega, by rw [hi']; simpa using hb'⟩, ?_, ?_⟩
  · intro b hbmem
    obtain ⟨j, hj, rfl⟩ := List.getElem_of_mem hbmem
    have := hall j ((hmem j).2 hj) bs[j] (List.getElem?_eq_getElem hj)
    unfold GridSummary.smallerEq at this
    constructor
    · omega
    · intro h
      omega
  · intro b hbmem
    obtain ⟨j, hj, rfl⟩ := List.getElem_of_mem hbmem
    have := hall' j ((hmem j).2 hj) bs[j] (List.getElem?_eq_getElem hj)
    unfold GridSummary.biggerEq at this
    constructor
    · omega
    · intro h
      omega

theorem GridSummary.gridExtremes_spec_witness :
    ∃ bmin bmax,
      (0 ≤ (GridSummary.gridExtremes GridSummary.exOps
            [(4, 4), (2, 8), (8, 2), (1, 16), (3, 3), (1, 9), (9, 1)]
            [[6, 5], [], [4, 3, 2], [1, 0]]).imin ∧
        (GridSummary.gridExtremes GridSummary.exOps
            [(4, 4), (2, 8), (8, 2), (1, 16), (3, 3), (1, 9), (9, 1)]
            [[6, 5], [], [4, 3, 2], [1, 0]]).imin <
          (([(4, 4), (2, 8), (8, 2), (1, 16), (3, 3), (1, 9), (9, 1)] :
            List (Int × Int)).length : Int) ∧
        ([(4, 4), (2, 8), (8, 2), (1, 16), (3, 3), (1, 9), (9, 1)] : List (Int × Int))[
          (GridSummary.gridExtremes GridSummary.exOps
            [(4, 4), (2, 8), (8, 2), (1, 16), (3, 3), (1, 9), (9, 1)]
            [[6, 5], [], [4, 3, 2], [1, 0]]).imin.toNat]? = some bmin) ∧
      (0 ≤ (GridSummary.gridExtremes GridSummary.exOps
            [(4, 4), (2, 8), (8, 2), (1, 16), (3, 3), (1, 9), (9, 1)]
            [[6, 5], [], [4, 3, 2], [1, 0]]).imax ∧
        (GridSummary.gridExtremes GridSummary.exOps
            [(4, 4), (2, 8), (8, 2), (1, 16), (3, 3), (1, 9), (9, 1)]
            [[6, 5], [], [4, 3, 2], [1, 0]]).imax <
          (([(4, 4), (2, 8), (8, 2), (1, 16), (3, 3), (1, 9), (9, 1)] :
            List (Int × Int)).length : Int) ∧
        ([(4, 4), (2, 8), (8, 2), (1, 16), (3, 3), (1, 9), (9, 1)] : List (Int × Int))[
          (GridSummary.gridExtremes GridSummary.exOps
            [(4, 4), (2, 8), (8, 2), (1, 16), (3, 3), (1, 9), (9, 1)]
            [[6, 5], [], [4, 3, 2], [1, 0]]).imax.toNat]? = some bmax) ∧
      (∀ bx ∈ ([(4, 4), (2, 8), (8, 2), (1, 16), (3, 3), (1, 9), (9, 1)] : List (Int × Int)),
        GridSummary.exOps.volume bmin ≤ GridSummary.exOps.volume bx ∧
        (GridSummary.exOps.volume bx = GridSummary.exOps.volume bmin →
          GridSummary.exOps.shortside bmin ≤ GridSummary.exOps.shortside bx)) ∧
      (∀ bx ∈ ([(4, 4), (2, 8), (8, 2), (1, 16), (3, 3), (1, 9), (9, 1)] : List (Int × Int)),
        GridSummary.exOps.volume bx ≤ GridSummary.exOps.volume bmax ∧
        (GridSummary.exOps.volume bx = GridSummary.exOps.volume bmax →
          GridSummary.exOps.longside bx ≤ GridSummary.exOps.longside bmax)) :=
  GridSummary.gridExtremes_spec GridSummary.exOps
    [(4, 4), (2, 8), (8, 2), (1, 16), (3, 3), (1, 9), (9, 1)]
    [[6, 5], [], [4, 3, 2], [1, 0]] (by decide) (by decide)
    (by
      intro bx hbx
      simp only [List.mem_cons, List.mem_singleton, List.not_mem_nil, or_false] at hbx
      rcases hbx with rfl | rfl | rfl | rfl | rfl | rfl | rfl <;>
        simp [GridSummary.Comparable, GridSummary.exOps, GridSummary.LONG_MAX])

/-- C12, counterexample: the cluster built from an array that lists the cell (0,0) twice is
valid, `ok ()` holds, with `numTag () = 2` and a bounding box of one point; its `eff ()` is
2, which is not in the interval (0,1]. -/
theorem Cluster.eff_counterexample :
    (Cluster.ofTags [exCell00, exCell00]).ok = true ∧
    (Cluster.ofTags [exCell00, exCell00]).numTag = 2 ∧
    (Cluster.ofTags [exCell00, exCell00]).box.d_numPts = 1 ∧
    (∀ p ∈ (Cluster.ofTags [exCell00, exCell00]).tags,
      (Cluster.ofTags [exCell00, exCell00]).box.contains p) ∧
    Cluster.eff true (Cluster.ofTags [exCell00, exCell00]) = .ok 2 ∧
    ¬ ((2 : ℚ) ≤ 1) := by
  have hn : (Cluster.ofTags [exCell00, exCell00]).box.d_numPts = 1 := by
    simp [Cluster.ofTags, Cluster.box, minBox, Box.d_numPts, Box.ok, exCell00]
  have hm : (minBox [exCell00, exCell00]).d_numPts = 1 := hn
  have hok : (Cluster.ofTags [exCell00, exCell00]).ok = true := by
    simp [Cluster.ok, hm, Cluster.ofTags]
  refine ⟨hok, by simp [Cluster.ofTags, Cluster.numTag], hn, ?_, ?_, by norm_num⟩
  · intro p hp
    simp [Cluster.ofTags, Cluster.tags] at hp
    subst hp
    intro i
    simp [Cluster.ofTags, Cluster.box, minBox, exCell00]
  · rw [Cluster.eff, hok]
    simp [BL_ASSERT, hm, Cluster.numTag, Cluster.ofTags]

/-- C12, amended: a default-constructed `Cluster` is not valid; for a `Cluster` for which
`ok ()` holds, `numTag ()` and the point count of the bounding box are positive, `eff ()`
returns `numTag ()` divided by that point count, and the quotient is positive; it is at most
1 when `m_len` tags are there, they are pairwise distinct and all lie in the bounding
box. -/
theorem Cluster.eff_spec {d : Nat} (AMREX_USE_ASSERTION : Bool) (c : Cluster d)
    (hok : c.ok = true) :
    (∀ bx : Box d, (Cluster.default bx).ok = false) ∧
    0 < c.numTag ∧ 0 < c.box.d_numPts ∧
    c.eff AMREX_USE_ASSERTION = .ok ((c.numTag : ℚ) / c.box.d_numPts) ∧
    0 < (c.numTag : ℚ) / c.box.d_numPts ∧
    ((c.tags.length : Int) = c.numTag → c.tags.Nodup → (∀ p ∈ c.tags, c.box.contains p) →
      (c.numTag : ℚ) / c.box.d_numPts ≤ 1) := by
  simp only [Cluster.ok, Bool.and_eq_true, decide_eq_true_eq] at hok
  obtain ⟨⟨hbx, har⟩, hlen⟩ := hok
  have hq : (0 : ℚ) < (c.m_len : ℚ) := by exact_mod_cast hlen
  refine ⟨fun bx => by simp [Cluster.default, Cluster.ok], hlen, hbx, ?_, div_pos hq hbx, ?_⟩
  · have : c.ok = true := by
      simp [Cluster.ok, hbx, har, hlen]
    simp [Cluster.eff, BL_ASSERT, this, Cluster.numTag, Cluster.box]
  · intro hl hnd hin
    have h := Box.length_le_d_numPts c.m_bx c.tags hnd hin
    have h2 : ((c.tags.length : Int) : ℚ) = (c.numTag : ℚ) := by rw [hl]
    show (c.numTag : ℚ) / c.m_bx.d_numPts ≤ 1
    rw [div_le_one hbx, ← h2]
    exact_mod_cast h

/-- C12, an instance: the cluster of the two cells (0,0) and (1,0) is valid and its
`eff ()` is `2 / 2`, in (0,1]. -/
theorem Cluster.eff_spec_witness :
    (Cluster.ofTags [exCell00, exCell10]).ok = true ∧
    (Cluster.ofTags [exCell00, exCell10]).box.d_numPts = 2 ∧
    Cluster.eff true (Cluster.ofTags [exCell00, exCell10]) =
      .ok (((Cluster.ofTags [exCell00, exCell10]).numTag : ℚ) /
        (Cluster.ofTags [exCell00, exCell10]).box.d_numPts) ∧
    0 < ((Cluster.ofTags [exCell00, exCell10]).numTag : ℚ) /
        (Cluster.ofTags [exCell00, exCell10]).box.d_numPts ∧
    ((Cluster.ofTags [exCell00, exCell10]).numTag : ℚ) /
        (Cluster.ofTags [exCell00, exCell10]).box.d_numPts ≤ 1 := by
  have hn : (Cluster.ofTags [exCell00, exCell10]).box.d_numPts = 2 := by
    simp [Cluster.ofTags, Cluster.box, minBox, Box.d_numPts, Box.ok, exCell00, exCell10,
      Fin.forall_fin_two, Fin.prod_univ_two]
    norm_num
  have hm : (minBox [exCell00, exCell10]).d_numPts = 2 := hn
  have hok : (Cluster.ofTags [exCell00, exCell10]).ok = true := by
    simp [Cluster.ok, hm, Cluster.ofTags]
  have h := Cluster.eff_spec true (Cluster.ofTags [exCell00, exCell10]) hok
  refine ⟨hok, hn, h.2.2.2.1, h.2.2.2.2.1, h.2.2.2.2.2 ?_ ?_ ?_⟩
  · simp [Cluster.ofTags, Cluster.tags, Cluster.numTag]
  · have hne : exCell00 ≠ exCell10 := by
      intro e
      have := congrFun e 0
      simp [exCell00, exCell10] at this
    simp [Cluster.ofTags, Cluster.tags, hne]
  · intro p hp
    simp [Cluster.ofTags, Cluster.tags] at hp
    rcases hp with hp | hp <;> subst hp <;> intro i <;> fin_cases i <;>
      simp [Cluster.ofTags, Cluster.box, minBox, exCell00, exCell10]

/-- C13, counterexample: the eight tagged cells of `exPattern` are pairwise distinct and
fill half of the square from (0,0) to (3,3), and every plane that separates them leaves
both pieces with the efficiency one half of the whole.  A revised split rejects all these
cuts (the example `exRevised` is such a split), so `ClusterList::new_chop (0.6)` returns
with the one cluster unchanged: its efficiency `1 / 2` is below the target and its box has
16 points, not one. -/
theorem ClusterList.new_chop_counterexample :
    exPattern.Nodup ∧
    (exRevised : Splitter 2).Separates ∧ (exRevised : Splitter 2).Revised ∧
    (∀ revised : Splitter 2, revised.Separates → revised.Revised →
      ∀ (flag : Bool) (fuel : Nat),
        ClusterList.new_chop flag revised (3 / 5) (fuel + 1) (ClusterList.ofTags exPattern) =
          .ok [Cluster.ofTags exPattern]) ∧
    Cluster.eff true (Cluster.ofTags exPattern) = .ok (1 / 2) ∧
    ¬ ((3 / 5 : ℚ) ≤ 1 / 2) ∧
    (Cluster.ofTags exPattern).box.d_numPts = 16 := by
  have hok : (Cluster.ofTags exPattern).ok = true := Cluster.ok_ofTags _ (by simp [exPattern])
  refine ⟨?_, exRevised_separates, exRevised_revised, ?_, ?_, by norm_num, ?_⟩
  · have hinj : ∀ a b x y : Int, cell2 a b = cell2 x y ↔ a = x ∧ b = y := by
      intro a b x y
      constructor
      · intro h
        exact ⟨by simpa [cell2_zero] using congrFun h 0, by simpa [cell2_one] using congrFun h 1⟩
      · rintro ⟨rfl, rfl⟩
        rfl
    simp [exPattern, hinj]
  · intro revised hsep hrev flag fuel
    have hnone : revised exPattern = none := by
      cases h : revised exPattern with
      | none => rfl
      | some k =>
        exact absurd (exPattern_cut k (hsep _ k h).1 (hsep _ k h).2) (hrev _ k h)
    have hlt : (Cluster.ofTags exPattern).efficiency < 3 / 5 := by
      rw [exPattern_efficiency]
      norm_num
    rw [ClusterList.new_chop, ClusterList.ofTags, ClusterList.chopLoop,
      Cluster.eff_of_ok flag _ hok]
    simp only [hlt, if_true, Cluster.new_chop, Cluster.splitWith, Cluster.tags_ofTags, hnone]
    cases fuel <;> rfl
  · rw [Cluster.eff_of_ok true _ hok, exPattern_efficiency]
  · show (minBox exPattern).d_numPts = 16
    rw [Box.d_numPts_two (minBox exPattern) 4 4 rfl rfl (by decide) (by decide)]
    norm_num

/-- C13, amended: for every non-empty array of tagged points, every target efficiency `e`
and enough fuel, `ClusterList::chop (e)` and `ClusterList::new_chop (e)` return, run with
splitting policies whose cuts separate the points.  After `chop`, with a basic split, every
cluster of the list is valid and has `eff () ≥ e` or a box of a single point.  After
`new_chop` every cluster of the list is valid and has `eff () ≥ e` or is one that
`Cluster::new_chop` does not split. -/
theorem ClusterList.chop_spec {d : Nat} (AMREX_USE_ASSERTION : Bool)
    (basic revised : Splitter d) (hbsep : basic.Separates) (hbasic : basic.Basic)
    (hrsep : revised.Separates) (e : ℚ) (pts : List (Fin d → Int)) (hne : pts ≠ [])
    (fuel : Nat) (hfuel : 2 * pts.length ≤ fuel) :
    (∃ L, ClusterList.chop AMREX_USE_ASSERTION basic e fuel (ClusterList.ofTags pts) = .ok L ∧
      ∀ c ∈ L, c.ok = true ∧
        ∃ x, c.eff AMREX_USE_ASSERTION = .ok x ∧ (e ≤ x ∨ c.box.d_numPts = 1)) ∧
    (∃ L, ClusterList.new_chop AMREX_USE_ASSERTION revised e fuel (ClusterList.ofTags pts) =
        .ok L ∧
      ∀ c ∈ L, c.ok = true ∧
        ∃ x, c.eff AMREX_USE_ASSERTION = .ok x ∧ (e ≤ x ∨ c.new_chop revised = (c, none))) := by
  have htodo : ∀ c ∈ ClusterList.ofTags pts, ∃ q, q ≠ [] ∧ c = Cluster.ofTags q := by
    intro c hc
    rw [ClusterList.ofTags, List.mem_singleton] at hc
    exact ⟨pts, hne, hc⟩
  have hw : ClusterList.weight (ClusterList.ofTags pts) ≤ fuel := by
    rw [ClusterList.ofTags, ClusterList.weight_cons, Cluster.tags_ofTags]
    have h0 : ClusterList.weight ([] : List (Cluster d)) = 0 := rfl
    omega
  constructor
  · obtain ⟨L, hL, hall⟩ := ClusterList.chopLoop_spec AMREX_USE_ASSERTION basic hbsep e fuel []
      (ClusterList.ofTags pts) htodo hw (by simp)
    refine ⟨L, hL, ?_⟩
    intro c hc
    obtain ⟨⟨q, hq, rfl⟩, h⟩ := hall c hc
    have hok := Cluster.ok_ofTags q hq
    refine ⟨hok, _, Cluster.eff_of_ok _ _ hok, ?_⟩
    rcases h with h | h
    · exact Or.inl h
    · right
      rw [Cluster.tags_ofTags] at h
      exact minBox_d_numPts_of_single q hq (hbasic q h)
  · obtain ⟨L, hL, hall⟩ := ClusterList.chopLoop_spec AMREX_USE_ASSERTION revised hrsep e fuel
      [] (ClusterList.ofTags pts) htodo hw (by simp)
    refine ⟨L, hL, ?_⟩
    intro c hc
    obtain ⟨⟨q, hq, rfl⟩, h⟩ := hall c hc
    have hok := Cluster.ok_ofTags q hq
    refine ⟨hok, _, Cluster.eff_of_ok _ _ hok, ?_⟩
    rcases h with h | h
    · exact Or.inl h
    · right
      simp only [Cluster.new_chop, Cluster.splitWith, h]

/-- C13, an instance: the two far-apart tagged cells (0,0) and (9,9) with the target
efficiency 0.9, the example policies and fuel 4. -/
theorem ClusterList.chop_spec_witness :
    [cell2 0 0, cell2 9 9] ≠ [] ∧ 2 * [cell2 0 0, cell2 9 9].length ≤ 4 ∧
    (∃ L, ClusterList.chop true exBasic (9 / 10) 4 (ClusterList.ofTags [cell2 0 0, cell2 9 9]) =
        .ok L ∧
      ∀ c ∈ L, c.ok = true ∧
        ∃ x, c.eff true = .ok x ∧ (9 / 10 ≤ x ∨ c.box.d_numPts = 1)) ∧
    (∃ L, ClusterList.new_chop true exRevised (9 / 10) 4
        (ClusterList.ofTags [cell2 0 0, cell2 9 9]) = .ok L ∧
      ∀ c ∈ L, c.ok = true ∧
        ∃ x, c.eff true = .ok x ∧ (9 / 10 ≤ x ∨ c.new_chop exRevised = (c, none))) :=
  ⟨by simp, by decide,
    ClusterList.chop_spec true exBasic exRevised exBasic_separates exBasic_basic
      exRevised_separates (9 / 10) [cell2 0 0, cell2 9 9] (by simp) 4 (by decide)⟩

end Claims

end amrex
